import Mathlib

/-!
# syjson: the JSON parser of `syjson.c` as Lean functions

The C code of `src/six/syjson.c` (with the declarations of `src/five/syjson.h`) is
translated function by function.

* A `char` is a natural number (its value as `unsigned char`); the input text is the
  list of bytes from the cursor on, and reading at the end of the list yields the
  terminating NUL (`0`).
* A `double` is carried as its IEEE-754 binary64 bit pattern; `strtod` belongs to the C
  library and is a parameter of the parser.
* The parse context `syjson_content` is passed explicitly.  Its `stack` field holds the
  live part of the scratch buffer (the records below `top`, most recent first).
* `size_t` and `unsigned` arithmetic is done in `Nat`; no quantity of the parser can
  reach `2 ^ 32` on inputs that fit in memory, and the one shift of an `unsigned`
  that could is reduced modulo `2 ^ 32`.
* A failing `assert` is the outcome `assert_failed`.  Loops whose trip count is not a
  syntactic bound carry a fuel argument; running out of it is the outcome
  `out_of_fuel`, which is shown not to occur for the fuel the entry points supply.
-/

namespace Syjson

/-! ## Data model -/

/-- The enum `syjson_type` of syjson.h, in declaration order. -/
inductive syjson_type where
  | SYJSON_NULL
  | SYJSON_TRUE
  | SYJSON_FALSE
  | SYJSON_NUM
  | SYJSON_STR
  | SYJSON_ARR
  | SYJSON_OBJ
  deriving DecidableEq

/-- Modelled from the spec: the three codes `SYJSON_PARSE_MISS_KEY`,
`SYJSON_PARSE_MISS_COLON` and `SYJSON_PARSE_MISS_COMMA_OR_CURLY_BRACKET`, which
syjson.c returns but the header under src/ does not declare; the spec lists them, in
this order, at the end of its error enumeration.  The first eleven constructors are the
anonymous enum of syjson.h, in declaration order. -/
inductive syjson_parse_ret where
  | SYJSON_PARSE_OK
  | SYJSON_PARSE_EXPECT_VALUE
  | SYJSON_PARSE_INVALID_VALUE
  | SYJSON_PARSE_ROOT_NOT_SINGULAR
  | SYJSON_PARSE_NUMBER_TOO_BIG
  | SYJSON_PARSE_MISS_QUOTATION_MARK
  | SYJSON_PARSE_INVALID_STRING_ESCAPE
  | SYJSON_PARSE_INVALID_STRING_CHAR
  | SYJSON_PARSE_INVALID_UNICODE_HEX
  | SYJSON_PARSE_INVALID_UNICODE_SURROGATE
  | SYJSON_PARSE_MISS_COMMA_OR_SQUARE_BRACKET
  | SYJSON_PARSE_MISS_KEY
  | SYJSON_PARSE_MISS_COLON
  | SYJSON_PARSE_MISS_COMMA_OR_CURLY_BRACKET
  deriving DecidableEq

open syjson_type syjson_parse_ret

mutual
/-- The struct `syjson_value`: a type tag and the union `val`.  Tag and union are
written independently by the code, so they are independent fields here. -/
inductive syjson_value where
  | mk (type : syjson_type) (val : syjson_val)
/-- The union `val` of a `syjson_value`.  A pointer to a heap block is the content of
the block, and the null pointer is the empty list (no block of the parser is empty).
`uninit` is a union nobody has written.  The member `obj` (fields `m`, `s`) is used by
syjson.c as `val.obj.m` and `val.obj.s`. -/
inductive syjson_val where
  | uninit
  | num (n : Nat)
  | str (s : List Nat) (l : Nat)
  | arr (e : List syjson_value) (s : Nat)
  | obj (m : List syjson_member) (s : Nat)
/-- The struct `syjson_member` as syjson.c uses it: key buffer `k`, key length `kl`,
value `v`. -/
inductive syjson_member where
  | mk (k : List Nat) (kl : Nat) (v : syjson_value)
end

/-- The field `type` of a value. -/
def syjson_value.type : syjson_value → syjson_type
  | .mk t _ => t

/-- The field `val` of a value. -/
def syjson_value.val : syjson_value → syjson_val
  | .mk _ u => u

/-- The assignment `v->type = t`. -/
def syjson_value.set_type (v : syjson_value) (t : syjson_type) : syjson_value :=
  .mk t v.val

/-- The field `k` of a member. -/
def syjson_member.k : syjson_member → List Nat
  | .mk k _ _ => k

/-- The field `kl` of a member. -/
def syjson_member.kl : syjson_member → Nat
  | .mk _ kl _ => kl

/-- The field `v` of a member. -/
def syjson_member.v : syjson_member → syjson_value
  | .mk _ _ v => v

/-- How a C call ends: it returns, an `assert` fails, or the model ran out of fuel. -/
inductive outcome (α : Type) where
  | ok (a : α)
  | assert_failed
  | out_of_fuel
  deriving DecidableEq

/-- Sequencing of calls: the first abnormal end is the end of the whole. -/
def outcome.bind {α β : Type} : outcome α → (α → outcome β) → outcome β
  | .ok a, f => f a
  | .assert_failed, _ => .assert_failed
  | .out_of_fuel, _ => .out_of_fuel

/-- A record in the scratch buffer: one `char` written by `PUTC`, a `syjson_value` or
`syjson_member` copied in by `memcpy`, or a span of `n` bytes that
`syjson_content_push` has reserved and nothing has been stored in yet. -/
inductive stack_cell where
  | byte (b : Nat)
  | value (v : syjson_value)
  | member (m : syjson_member)
  | reserved (n : Nat)

/-- The value of `sizeof(syjson_value)` (LP64: a 4-byte tag, padding, a 16-byte union). -/
def sizeof_syjson_value : Nat := 24

/-- The value of `sizeof(syjson_member)` (LP64: pointer, `size_t`, `syjson_value`). -/
def sizeof_syjson_member : Nat := 40

/-- Number of bytes a record occupies in the scratch buffer. -/
def stack_cell.bytes : stack_cell → Nat
  | .byte _ => 1
  | .value _ => sizeof_syjson_value
  | .member _ => sizeof_syjson_member
  | .reserved n => n

/-- The struct `syjson_content`: input cursor `json` (the text from the cursor on),
the live records of the scratch buffer (`stack`, most recent first), its capacity
`size` and its logical top `top`, both in bytes. -/
structure syjson_content where
  json : List Nat
  stack : List stack_cell
  size : Nat
  top : Nat

/-- The byte under the cursor, `*c->json`. -/
def syjson_content.cur (c : syjson_content) : Nat := c.json.headD 0

/-- The statement `c->json++`. -/
def syjson_content.advance (c : syjson_content) : syjson_content :=
  { c with json := c.json.tail }

/-! ## Whitespace, literals, numbers -/

/-- The loop condition of `syjson_parse_whitespace`: space, tab, LF or CR. -/
def is_space (b : Nat) : Bool :=
  b == 0x20 || b == 0x09 || b == 0x0A || b == 0x0D

/-- The function `syjson_parse_whitespace`: move the cursor past a run of whitespace. -/
def syjson_parse_whitespace (c : syjson_content) : syjson_content :=
  { c with json := c.json.dropWhile is_space }

/-- The loop of `syjson_parse_literal`: compares `c->json[i]` with `literal[i + 1]`
for each remaining character of the literal; `false` is the early return. -/
def syjson_literal_scan : List Nat → List Nat → Bool
  | _, [] => true
  | p, l :: ls => if p.headD 0 ≠ l then false else syjson_literal_scan p.tail ls

/-- The function `syjson_parse_literal`. -/
def syjson_parse_literal (c : syjson_content) (v : syjson_value) (literal : List Nat)
    (type : syjson_type) : outcome (syjson_parse_ret × syjson_content × syjson_value) :=
  if c.cur ≠ literal.headD 0 then .assert_failed
  else
    let c := c.advance
    if syjson_literal_scan c.json literal.tail then
      .ok (SYJSON_PARSE_OK, { c with json := c.json.drop (literal.length - 1) }, v.set_type type)
    else .ok (SYJSON_PARSE_INVALID_VALUE, c, v)

/-- The text null. -/
def lit_null : List Nat := [0x6E, 0x75, 0x6C, 0x6C]

/-- The text true. -/
def lit_true : List Nat := [0x74, 0x72, 0x75, 0x65]

/-- The text false. -/
def lit_false : List Nat := [0x66, 0x61, 0x6C, 0x73, 0x65]

/-- The macro `ISDIGIT`. -/
def ISDIGIT (b : Nat) : Bool := decide (0x30 ≤ b) && decide (b ≤ 0x39)

/-- The macro `ISDIGIT1TO9`. -/
def ISDIGIT1TO9 (b : Nat) : Bool := decide (0x31 ≤ b) && decide (b ≤ 0x39)

/-- The sign section of `syjson_parse_number`: `if(*p == '-') p++`. -/
def number_sign (p : List Nat) : List Nat :=
  if p.headD 0 = 0x2D then p.tail else p

/-- The integer section of `syjson_parse_number`: a single `0`, or a digit `1`-`9` and
the digits after it; `none` is the return of `SYJSON_PARSE_INVALID_VALUE`. -/
def number_int (p : List Nat) : Option (List Nat) :=
  if p.headD 0 = 0x30 then some p.tail
  else if ISDIGIT1TO9 (p.headD 0) then some (p.tail.dropWhile ISDIGIT)
  else none

/-- The fraction section of `syjson_parse_number`: after a `.` at least one digit. -/
def number_frac (p : List Nat) : Option (List Nat) :=
  if p.headD 0 = 0x2E then
    let p := p.tail
    if ISDIGIT (p.headD 0) then some (p.tail.dropWhile ISDIGIT) else none
  else some p

/-- The exponent section of `syjson_parse_number`: after `e` or `E` an optional sign
and at least one digit. -/
def number_exp (p : List Nat) : Option (List Nat) :=
  if p.headD 0 = 0x65 ∨ p.headD 0 = 0x45 then
    let p := p.tail
    let p := if p.headD 0 = 0x2D ∨ p.headD 0 = 0x2B then p.tail else p
    if ISDIGIT (p.headD 0) then some (p.tail.dropWhile ISDIGIT) else none
  else some p

/-- The scan of `syjson_parse_number` (the walk of `p` through its four sections): the
cursor after the number, or `none` where the code returns
`SYJSON_PARSE_INVALID_VALUE`. -/
def syjson_number_scan (json : List Nat) : Option (List Nat) :=
  (number_int (number_sign json)).bind fun p => (number_frac p).bind number_exp

/-- The constant `HUGE_VAL`: the bit pattern of +infinity. -/
def HUGE_VAL : Nat := 0x7FF0000000000000

/-- The value `-HUGE_VAL`: the bit pattern of -infinity. -/
def NEG_HUGE_VAL : Nat := 0xFFF0000000000000

/-- The condition of the overflow test of `syjson_parse_number`.  The source writes
`errno = ERANGE && (num == HUGE_VAL || num == -HUGE_VAL)`, an assignment whose value is
that of the parenthesised comparison; a double compares equal to an infinity exactly
when it has that infinity's bit pattern. -/
def number_too_big (num : Nat) : Bool := num == HUGE_VAL || num == NEG_HUGE_VAL

/-- The function `syjson_parse_number`; `strtod` reads from the cursor. -/
def syjson_parse_number (strtod : List Nat → Nat) (c : syjson_content) (v : syjson_value) :
    syjson_parse_ret × syjson_content × syjson_value :=
  match syjson_number_scan c.json with
  | none => (SYJSON_PARSE_INVALID_VALUE, c, v)
  | some p =>
    let v := syjson_value.mk v.type (.num (strtod c.json))
    if number_too_big (strtod c.json) then (SYJSON_PARSE_NUMBER_TOO_BIG, c, v)
    else (SYJSON_PARSE_OK, { c with json := p }, v.set_type SYJSON_NUM)

/-! ## The scratch buffer -/

/-- The constant `SYJSON_PARSE_STACK_INIT_SIZE`. -/
def SYJSON_PARSE_STACK_INIT_SIZE : Nat := 256

/-- The loop `while(c->top + size >= c->size) c->size += c->size >> 1` of
`syjson_content_push`; `need` is `c->top + size`. -/
def stack_grow (need : Nat) : Nat → Nat → outcome Nat
  | 0, _ => .out_of_fuel
  | fuel + 1, size =>
    if need ≥ size then stack_grow need fuel (size + size / 2) else .ok size

/-- The function `syjson_content_push`: returns the context and the returned pointer
`c->stack + c->top` as its offset in the buffer (the old top).  The `size` bytes from
there on are reserved: they become the top record of the buffer, not yet written. -/
def syjson_content_push (c : syjson_content) (size : Nat) : outcome (syjson_content × Nat) :=
  if size = 0 then .assert_failed
  else
    (if c.top + size ≥ c.size then
        (stack_grow (c.top + size) (c.top + size + 2)
            (if c.size = 0 then SYJSON_PARSE_STACK_INIT_SIZE else c.size)).bind
          fun n => .ok { c with size := n }
      else .ok c).bind
      fun c1 => .ok ({ c1 with top := c1.top + size,
                               stack := stack_cell.reserved size :: c1.stack }, c1.top)

/-- A store through the pointer `syjson_content_push` has just returned (the assignment
of `PUTC`, the `memcpy` of the array and object loops): the span at the top of the
buffer now holds the record `x`. -/
def stack_store (st : List stack_cell) (x : stack_cell) : List stack_cell := x :: st.tail

/-- The records covering the topmost `len` bytes of the live buffer, and the rest. -/
def stack_split : List stack_cell → Nat → List stack_cell × List stack_cell
  | [], _ => ([], [])
  | x :: st, len =>
    if len = 0 then ([], x :: st)
    else ((stack_split st (len - x.bytes)).1 ++ [x], (stack_split st (len - x.bytes)).2)

/-- The function `syjson_content_pop`: returns the context, the returned pointer
`c->stack + (c->top -= len)` as its offset in the buffer (the new top), and the `len`
bytes at that pointer as records in address order. -/
def syjson_content_pop (c : syjson_content) (len : Nat) :
    outcome (syjson_content × Nat × List stack_cell) :=
  if c.top < len then .assert_failed
  else .ok ({ c with top := c.top - len, stack := (stack_split c.stack len).2 },
            c.top - len, (stack_split c.stack len).1)

/-- The macro `PUTC`: reserve one byte and store `ch` there as a `char`. -/
def PUTC (c : syjson_content) (ch : Nat) : outcome syjson_content :=
  (syjson_content_push c 1).bind fun r =>
    .ok { r.1 with stack := stack_store r.1.stack (stack_cell.byte (ch % 256)) }

/-- The macro `STRING_ERROR`: `c->top = head; return ret`. -/
def STRING_ERROR (c : syjson_content) (head : Nat) : syjson_content :=
  { c with top := head, stack := (stack_split c.stack (c.top - head)).2 }

/-- The chars of a span of byte records. -/
def cell_chars : List stack_cell → List Nat
  | [] => []
  | .byte b :: cs => b :: cell_chars cs
  | _ :: cs => cell_chars cs

/-- The values of a span of value records. -/
def cell_values : List stack_cell → List syjson_value
  | [] => []
  | .value v :: cs => v :: cell_values cs
  | _ :: cs => cell_values cs

/-- The members of a span of member records. -/
def cell_members : List stack_cell → List syjson_member
  | [] => []
  | .member m :: cs => m :: cell_members cs
  | _ :: cs => cell_members cs

/-! ## The Unicode codec -/

/-- The loop of `syjson_parse_hex4`, `i` iterations to go; `none` is `return NULL`. -/
def hex4_loop : Nat → List Nat → Nat → Option (List Nat × Nat)
  | 0, p, u => some (p, u)
  | i + 1, p, u =>
    let ch := p.headD 0
    let p := p.tail
    let u := (u <<< 4) % 2 ^ 32
    if 0x30 ≤ ch ∧ ch ≤ 0x39 then hex4_loop i p (u ||| (ch - 0x30))
    else if 0x41 ≤ ch ∧ ch ≤ 0x46 then hex4_loop i p (u ||| (ch - (0x41 - 10)))
    else if 0x61 ≤ ch ∧ ch ≤ 0x66 then hex4_loop i p (u ||| (ch - (0x61 - 10)))
    else none

/-- The function `syjson_parse_hex4`: the advanced cursor and `*u`, or `none` for NULL. -/
def syjson_parse_hex4 (p : List Nat) : Option (List Nat × Nat) := hex4_loop 4 p 0

/-- The function `syjson_encode_utf8`. -/
def syjson_encode_utf8 (c : syjson_content) (u : Nat) : outcome syjson_content :=
  if u ≤ 0x007f then PUTC c (u &&& 0xff)
  else if u ≤ 0x07ff then
    (PUTC c (((u >>> 6) &&& 0x1f) ||| 0xc0)).bind fun c =>
    PUTC c ((u &&& 0x3f) ||| 0x80)
  else if u ≤ 0xffff then
    (PUTC c (((u >>> 12) &&& 0x0f) ||| 0xe0)).bind fun c =>
    (PUTC c (((u >>> 6) &&& 0x3f) ||| 0x80)).bind fun c =>
    PUTC c ((u &&& 0x3f) ||| 0x80)
  else if u ≤ 0x10ffff then
    (PUTC c (((u >>> 18) &&& 0x08) ||| 0xf0)).bind fun c =>
    (PUTC c (((u >>> 12) &&& 0x3f) ||| 0x80)).bind fun c =>
    (PUTC c (((u >>> 6) &&& 0x3f) ||| 0x80)).bind fun c =>
    PUTC c ((u &&& 0x3f) ||| 0x80)
  else .ok c

/-! ## Release of a value, and the string setter -/

/-- A heap block handed to `free`: a char buffer, an element array or a member array. -/
inductive heap_block where
  | chars (s : List Nat)
  | values (e : List syjson_value)
  | members (m : List syjson_member)

mutual
/-- The blocks `syjson_free` passes to `free`, in call order: the `switch` on the type. -/
def syjson_free_blocks : syjson_value → List heap_block
  | .mk SYJSON_STR (.str s _) => [.chars s]
  | .mk SYJSON_OBJ (.obj m n) => syjson_free_members m n ++ [.members m]
  | _ => []
/-- The loop of the case `SYJSON_OBJ` of `syjson_free`, over the first `n` members. -/
def syjson_free_members : List syjson_member → Nat → List heap_block
  | [], _ => []
  | _ :: _, 0 => []
  | .mk k _ v :: ms, n + 1 => .chars k :: (syjson_free_blocks v ++ syjson_free_members ms n)
end

/-- The function `syjson_free`: the value afterwards and the blocks passed to `free`. -/
def syjson_free (v : syjson_value) : syjson_value × List heap_block :=
  (v.set_type SYJSON_NULL, syjson_free_blocks v)

/-- The function `syjson_set_string`; a null `s` is `none`, otherwise `s` is the memory
at the pointer.  The new buffer holds `len` copied bytes and a NUL. -/
def syjson_set_string (v : syjson_value) (s : Option (List Nat)) (len : Nat) :
    outcome syjson_value :=
  if s = none ∧ len ≠ 0 then .assert_failed
  else
    let w := (syjson_free v).1
    .ok (.mk (w.set_type SYJSON_STR).type (.str ((s.getD []).take len ++ [0]) len))

/-! ## Strings -/

/-- The eight one-character escapes of the inner `switch` of `syjson_string_to_value`:
the byte pushed for the character after the backslash. -/
def string_escape (e : Nat) : Option Nat :=
  if e = 0x22 then some 0x22
  else if e = 0x5C then some 0x5C
  else if e = 0x2F then some 0x2F
  else if e = 0x62 then some 0x08
  else if e = 0x66 then some 0x0C
  else if e = 0x6E then some 0x0A
  else if e = 0x72 then some 0x0D
  else if e = 0x74 then some 0x09
  else none

/-- The case `u` of `syjson_string_to_value` up to the call of `syjson_encode_utf8`:
the cursor after the escape and the code point, or the code given to `STRING_ERROR`. -/
def string_unicode (p : List Nat) : Except syjson_parse_ret (List Nat × Nat) :=
  match syjson_parse_hex4 p with
  | none => .error SYJSON_PARSE_INVALID_UNICODE_HEX
  | some (p, u) =>
    if 0xd800 ≤ u ∧ u ≤ 0xdbff then
      if p.headD 0 ≠ 0x5C then .error SYJSON_PARSE_INVALID_UNICODE_SURROGATE
      else if p.tail.headD 0 ≠ 0x75 then .error SYJSON_PARSE_INVALID_UNICODE_SURROGATE
      else
        match syjson_parse_hex4 p.tail.tail with
        | none => .error SYJSON_PARSE_INVALID_UNICODE_HEX
        | some (p, u2) =>
          if u2 < 0xdc00 ∨ u2 > 0xdfff then .error SYJSON_PARSE_INVALID_UNICODE_SURROGATE
          else .ok (p, 0x10000 + (((u - 0xd800) <<< 10) ||| (u2 - 0xdc00)))
    else .ok (p, u)

/-- The loop `for(;;)` of `syjson_string_to_value`, with local cursor `p`.  The result
is the return code, the context, and (on success) `*str` as the bytes it points to
and `*len`. -/
def syjson_string_loop (head : Nat) :
    Nat → syjson_content → List Nat →
      outcome (syjson_parse_ret × syjson_content × List Nat × Nat)
  | 0, _, _ => .out_of_fuel
  | fuel + 1, c, p =>
    let ch := p.headD 0
    let p := p.tail
    if ch = 0x22 then
      (syjson_content_pop c (c.top - head)).bind fun r =>
        .ok (SYJSON_PARSE_OK, { r.1 with json := p }, cell_chars r.2.2, c.top - head)
    else if ch = 0x5C then
      match string_escape (p.headD 0) with
      | some b => (PUTC c b).bind fun c => syjson_string_loop head fuel c p.tail
      | none =>
        if p.headD 0 = 0x75 then
          match string_unicode p.tail with
          | .error ret => .ok (ret, STRING_ERROR c head, [], 0)
          | .ok (p, u) =>
            (syjson_encode_utf8 c u).bind fun c => syjson_string_loop head fuel c p
        else .ok (SYJSON_PARSE_INVALID_STRING_ESCAPE, STRING_ERROR c head, [], 0)
    else if ch = 0 then .ok (SYJSON_PARSE_MISS_QUOTATION_MARK, STRING_ERROR c head, [], 0)
    else if ch < 0x20 ∨ ch = 0x7F then
      .ok (SYJSON_PARSE_INVALID_STRING_CHAR, STRING_ERROR c head, [], 0)
    else (PUTC c ch).bind fun c => syjson_string_loop head fuel c p

/-- The function `syjson_string_to_value`.  Every turn of its loop reads at least one
char and stops at the NUL, so the length of the text bounds the number of turns. -/
def syjson_string_to_value (c : syjson_content) :
    outcome (syjson_parse_ret × syjson_content × List Nat × Nat) :=
  if c.cur ≠ 0x22 then .assert_failed
  else syjson_string_loop c.top (c.advance.json.length + 1) c.advance c.advance.json

/-- The function `syjson_parse_string`.  The pointer popped from the scratch buffer is
null exactly when the buffer was never allocated (`size` still 0). -/
def syjson_parse_string (c : syjson_content) (v : syjson_value) :
    outcome (syjson_parse_ret × syjson_content × syjson_value) :=
  (syjson_string_to_value c).bind fun r =>
    if r.1 = SYJSON_PARSE_OK then
      (syjson_set_string v (if r.2.1.size = 0 then none else some r.2.2.1) r.2.2.2).bind
        fun v => .ok (r.1, r.2.1, v)
    else .ok (r.1, r.2.1, v)

/-- The function `syjson_parse_root_not_singular`. -/
def syjson_parse_root_not_singular (c : syjson_content) (v : syjson_value) :
    syjson_parse_ret × syjson_content × syjson_value :=
  let c := syjson_parse_whitespace c
  if c.cur = 0 then (SYJSON_PARSE_OK, c, v)
  else (SYJSON_PARSE_ROOT_NOT_SINGULAR, c, v.set_type SYJSON_NULL)

/-! ## Arrays, objects and the dispatcher -/

/-- The failure exit of `syjson_parse_array`: pop (and free) the `size` staged values. -/
def array_unwind : Nat → syjson_content → outcome syjson_content
  | 0, c => .ok c
  | n + 1, c => (syjson_content_pop c sizeof_syjson_value).bind fun r => array_unwind n r.1

/-- The failure exit of `syjson_parse_object`: pop (and free) the `size` staged members. -/
def object_unwind : Nat → syjson_content → outcome syjson_content
  | 0, c => .ok c
  | n + 1, c => (syjson_content_pop c sizeof_syjson_member).bind fun r => object_unwind n r.1

/-- The code after the loop of `syjson_parse_array`: unwind and return `ret`. -/
def array_fail (c : syjson_content) (size : Nat) (ret : syjson_parse_ret) (v : syjson_value) :
    outcome (syjson_parse_ret × syjson_content × syjson_value) :=
  (array_unwind size c).bind fun c => .ok (ret, c, v)

/-- The code after the loop of `syjson_parse_object`: unwind, set the type to
`SYJSON_NULL` and return `ret`. -/
def object_fail (c : syjson_content) (size : Nat) (ret : syjson_parse_ret) (v : syjson_value) :
    outcome (syjson_parse_ret × syjson_content × syjson_value) :=
  (object_unwind size c).bind fun c => .ok (ret, c, v.set_type SYJSON_NULL)

mutual
/-- The function `syjson_parse_value`: the `switch` on the byte under the cursor. -/
def syjson_parse_value (strtod : List Nat → Nat) :
    Nat → syjson_content → syjson_value →
      outcome (syjson_parse_ret × syjson_content × syjson_value)
  | 0, _, _ => .out_of_fuel
  | fuel + 1, c, v =>
    if c.cur = 0x6E then syjson_parse_literal c v lit_null SYJSON_NULL
    else if c.cur = 0x66 then syjson_parse_literal c v lit_false SYJSON_FALSE
    else if c.cur = 0x74 then syjson_parse_literal c v lit_true SYJSON_TRUE
    else if c.cur = 0x22 then syjson_parse_string c v
    else if c.cur = 0x5B then syjson_parse_array strtod fuel c v
    else if c.cur = 0x7B then syjson_parse_object strtod fuel c v
    else if c.cur = 0 then .ok (SYJSON_PARSE_EXPECT_VALUE, c, v)
    else .ok (syjson_parse_number strtod c v)
/-- The function `syjson_parse_array` up to its loop. -/
def syjson_parse_array (strtod : List Nat → Nat) :
    Nat → syjson_content → syjson_value →
      outcome (syjson_parse_ret × syjson_content × syjson_value)
  | 0, _, _ => .out_of_fuel
  | fuel + 1, c, v =>
    if c.cur ≠ 0x5B then .assert_failed
    else
      let c := syjson_parse_whitespace c.advance
      if c.cur = 0x5D then
        .ok (SYJSON_PARSE_OK, c.advance, .mk SYJSON_ARR (.arr [] 0))
      else syjson_parse_array_loop strtod fuel c v 0
/-- The loop `for(;;)` of `syjson_parse_array`; `size` values are staged. -/
def syjson_parse_array_loop (strtod : List Nat → Nat) :
    Nat → syjson_content → syjson_value → Nat →
      outcome (syjson_parse_ret × syjson_content × syjson_value)
  | 0, _, _, _ => .out_of_fuel
  | fuel + 1, c, v, size =>
    (syjson_parse_value strtod fuel c (.mk SYJSON_NULL .uninit)).bind fun r =>
      if r.1 ≠ SYJSON_PARSE_OK then array_fail r.2.1 size r.1 v
      else
        (syjson_content_push r.2.1 sizeof_syjson_value).bind fun pr =>
          let c := syjson_parse_whitespace
            { pr.1 with stack := stack_store pr.1.stack (stack_cell.value r.2.2) }
          if c.cur = 0x2C then
            syjson_parse_array_loop strtod fuel (syjson_parse_whitespace c.advance) v (size + 1)
          else if c.cur = 0x5D then
            (syjson_content_pop c.advance ((size + 1) * sizeof_syjson_value)).bind fun pp =>
              .ok (SYJSON_PARSE_OK, pp.1, .mk SYJSON_ARR (.arr (cell_values pp.2.2) (size + 1)))
          else array_fail c (size + 1) SYJSON_PARSE_MISS_COMMA_OR_SQUARE_BRACKET v
/-- The function `syjson_parse_object` up to its loop. -/
def syjson_parse_object (strtod : List Nat → Nat) :
    Nat → syjson_content → syjson_value →
      outcome (syjson_parse_ret × syjson_content × syjson_value)
  | 0, _, _ => .out_of_fuel
  | fuel + 1, c, v =>
    if c.cur ≠ 0x7B then .assert_failed
    else
      let c := syjson_parse_whitespace c.advance
      if c.cur = 0x7D then
        .ok (SYJSON_PARSE_OK, c.advance, .mk SYJSON_OBJ (.obj [] 0))
      else
        syjson_parse_object_loop strtod fuel c v (.mk [] 0 (.mk SYJSON_NULL .uninit)) 0
/-- The loop `for(;;)` of `syjson_parse_object`; `m` is the local member, which lives
across the turns, and `size` members are staged.  After a `,` the source has the
statement `syjson_parse_whitespace;`, which names the function and calls nothing. -/
def syjson_parse_object_loop (strtod : List Nat → Nat) :
    Nat → syjson_content → syjson_value → syjson_member → Nat →
      outcome (syjson_parse_ret × syjson_content × syjson_value)
  | 0, _, _, _, _ => .out_of_fuel
  | fuel + 1, c, v, m, size =>
    if c.cur ≠ 0x22 then object_fail c size SYJSON_PARSE_MISS_KEY v
    else
      (syjson_string_to_value c).bind fun sr =>
        if sr.1 ≠ SYJSON_PARSE_OK then object_fail sr.2.1 size sr.1 v
        else
          let c := syjson_parse_whitespace sr.2.1
          if c.cur ≠ 0x3A then object_fail c size SYJSON_PARSE_MISS_COLON v
          else
            (syjson_parse_value strtod fuel (syjson_parse_whitespace c.advance)
                (m.v.set_type SYJSON_NULL)).bind fun r =>
              if r.1 ≠ SYJSON_PARSE_OK then object_fail r.2.1 size r.1 v
              else
                (syjson_content_push r.2.1 sizeof_syjson_member).bind fun pr =>
                  let m1 := syjson_member.mk (sr.2.2.1.take sr.2.2.2 ++ [0]) sr.2.2.2 r.2.2
                  let c := syjson_parse_whitespace
                    { pr.1 with stack := stack_store pr.1.stack (stack_cell.member m1) }
                  if c.cur = 0x2C then
                    syjson_parse_object_loop strtod fuel c.advance v
                      (.mk [] sr.2.2.2 r.2.2) (size + 1)
                  else if c.cur = 0x7D then
                    (syjson_content_pop c.advance (sizeof_syjson_member * (size + 1))).bind
                      fun pp =>
                        .ok (SYJSON_PARSE_OK, pp.1,
                          .mk SYJSON_OBJ (.obj (cell_members pp.2.2) (size + 1)))
                  else object_fail c (size + 1) SYJSON_PARSE_MISS_COMMA_OR_CURLY_BRACKET v
end

/-- The fuel `syjson_parse` gives the dispatcher: three calls per byte of text. -/
def parse_fuel (json : List Nat) : Nat := 3 * json.length + 1

/-- The function `syjson_parse` up to (not including) `assert(c.top == 0)`: return
code, context and root value at that point.  The caller passes the root `v`, of which
`syjson_init` resets the type only. -/
def syjson_parse_run (strtod : List Nat → Nat) (v : syjson_value) (json : List Nat) :
    outcome (syjson_parse_ret × syjson_content × syjson_value) :=
  let c := syjson_parse_whitespace { json := json, stack := [], size := 0, top := 0 }
  (syjson_parse_value strtod (parse_fuel json) c (v.set_type SYJSON_NULL)).bind fun r =>
    if r.1 = SYJSON_PARSE_OK then .ok (syjson_parse_root_not_singular r.2.1 r.2.2)
    else .ok r

/-- The function `syjson_parse`: return code and root value. -/
def syjson_parse (strtod : List Nat → Nat) (v : syjson_value) (json : List Nat) :
    outcome (syjson_parse_ret × syjson_value) :=
  (syjson_parse_run strtod v json).bind fun r =>
    if r.2.1.top ≠ 0 then .assert_failed else .ok (r.1, r.2.2)

/-! ## Getters -/

/-- The union member `val.arr.e`. -/
def syjson_val.arr_e : syjson_val → List syjson_value
  | .arr e _ => e
  | _ => []

/-- The union member `val.arr.s`. -/
def syjson_val.arr_s : syjson_val → Nat
  | .arr _ s => s
  | _ => 0

/-- The union member `val.obj.m`. -/
def syjson_val.obj_m : syjson_val → List syjson_member
  | .obj m _ => m
  | _ => []

/-- The union member `val.obj.s`. -/
def syjson_val.obj_s : syjson_val → Nat
  | .obj _ s => s
  | _ => 0

/-- The union member `val.str.s`. -/
def syjson_val.str_s : syjson_val → List Nat
  | .str s _ => s
  | _ => []

/-- The union member `val.str.l`. -/
def syjson_val.str_l : syjson_val → Nat
  | .str _ l => l
  | _ => 0

/-- The function `syjson_get_type`. -/
def syjson_get_type (v : syjson_value) : syjson_type := v.type

/-- The function `syjson_get_string_length`. -/
def syjson_get_string_length (v : syjson_value) : outcome Nat :=
  if v.type = SYJSON_STR then .ok v.val.str_l else .assert_failed

/-- The function `syjson_get_string`: the buffer the returned pointer points to. -/
def syjson_get_string (v : syjson_value) : outcome (List Nat) :=
  if v.type = SYJSON_STR then .ok v.val.str_s else .assert_failed

/-- The function `syjson_get_array_size`. -/
def syjson_get_array_size (v : syjson_value) : outcome Nat :=
  if v.type = SYJSON_ARR then .ok v.val.arr_s else .assert_failed

/-- The function `syjson_get_array_element`, with the source's range assertion
`index <= v->val.arr.s`.  The returned pointer `&e[index]` is the element it points
to, or `none` when it points to no element of the array. -/
def syjson_get_array_element (v : syjson_value) (index : Nat) : outcome (Option syjson_value) :=
  if v.type = SYJSON_ARR then
    if index ≤ v.val.arr_s then .ok (v.val.arr_e.get? index) else .assert_failed
  else .assert_failed

/-- The function `syjson_get_object_size`. -/
def syjson_get_object_size (v : syjson_value) : outcome Nat :=
  if v.type = SYJSON_OBJ then .ok v.val.obj_s else .assert_failed

/-- The function `syjson_get_object_key`: the key buffer of member `index`. -/
def syjson_get_object_key (v : syjson_value) (index : Nat) : outcome (Option (List Nat)) :=
  if v.type = SYJSON_OBJ then
    if index < v.val.obj_s then .ok ((v.val.obj_m.get? index).map syjson_member.k)
    else .assert_failed
  else .assert_failed

/-- The function `syjson_get_object_key_length`. -/
def syjson_get_object_key_length (v : syjson_value) (index : Nat) : outcome (Option Nat) :=
  if v.type = SYJSON_OBJ then
    if index < v.val.obj_s then .ok ((v.val.obj_m.get? index).map syjson_member.kl)
    else .assert_failed
  else .assert_failed

/-- The function `syjson_get_object_value`. -/
def syjson_get_object_value (v : syjson_value) (index : Nat) : outcome (Option syjson_value) :=
  if v.type = SYJSON_OBJ then
    if index < v.val.obj_s then .ok ((v.val.obj_m.get? index).map syjson_member.v)
    else .assert_failed
  else .assert_failed

/-! ## The parser without the scratch buffer

The functions of this section compute what the parser returns from the text alone.
They follow the functions above call for call (same fuel), with the staged bytes,
values and members held in a list instead of the scratch buffer; `none` is
`out_of_fuel`.  They are used in proofs only: `value_pure_sound` and its companions
show that the parser returns what they compute and restores the buffer. -/

/-- The bytes `syjson_encode_utf8` pushes for `u`, in push order. -/
def utf8_pushed (u : Nat) : List Nat :=
  if u ≤ 0x007f then [(u &&& 0xff) % 256]
  else if u ≤ 0x07ff then
    [(((u >>> 6) &&& 0x1f) ||| 0xc0) % 256, ((u &&& 0x3f) ||| 0x80) % 256]
  else if u ≤ 0xffff then
    [(((u >>> 12) &&& 0x0f) ||| 0xe0) % 256, (((u >>> 6) &&& 0x3f) ||| 0x80) % 256,
      ((u &&& 0x3f) ||| 0x80) % 256]
  else if u ≤ 0x10ffff then
    [(((u >>> 18) &&& 0x08) ||| 0xf0) % 256, (((u >>> 12) &&& 0x3f) ||| 0x80) % 256,
      (((u >>> 6) &&& 0x3f) ||| 0x80) % 256, ((u &&& 0x3f) ||| 0x80) % 256]
  else []

/-- The loop of `syjson_string_to_value` on the text alone: return code, cursor and
the bytes pushed (`acc` holds those pushed so far, in push order). -/
def string_decode :
    Nat → List Nat → List Nat → Option (syjson_parse_ret × List Nat × List Nat)
  | 0, _, _ => none
  | fuel + 1, p, acc =>
    let ch := p.headD 0
    let p := p.tail
    if ch = 0x22 then some (SYJSON_PARSE_OK, p, acc)
    else if ch = 0x5C then
      match string_escape (p.headD 0) with
      | some b => string_decode fuel p.tail (acc ++ [b % 256])
      | none =>
        if p.headD 0 = 0x75 then
          match string_unicode p.tail with
          | .error ret => some (ret, [], [])
          | .ok (p, u) => string_decode fuel p (acc ++ utf8_pushed u)
        else some (SYJSON_PARSE_INVALID_STRING_ESCAPE, [], [])
    else if ch = 0 then some (SYJSON_PARSE_MISS_QUOTATION_MARK, [], [])
    else if ch < 0x20 ∨ ch = 0x7F then some (SYJSON_PARSE_INVALID_STRING_CHAR, [], [])
    else string_decode fuel p (acc ++ [ch % 256])

/-- The function `syjson_string_to_value` on the text alone (the cursor is on the
opening quote). -/
def string_pure (json : List Nat) : Option (syjson_parse_ret × List Nat × List Nat) :=
  string_decode (json.tail.length + 1) json.tail []

/-- A context with the given text and no scratch buffer. -/
def blank (json : List Nat) : syjson_content :=
  { json := json, stack := [], size := 0, top := 0 }

/-- The function `syjson_parse_literal` on the text alone. -/
def literal_pure (json : List Nat) (v : syjson_value) (literal : List Nat)
    (type : syjson_type) : syjson_parse_ret × List Nat × syjson_value :=
  if syjson_literal_scan json.tail literal.tail then
    (SYJSON_PARSE_OK, json.tail.drop (literal.length - 1), v.set_type type)
  else (SYJSON_PARSE_INVALID_VALUE, json.tail, v)

/-- The function `syjson_parse_number` on the text alone. -/
def number_pure (strtod : List Nat → Nat) (json : List Nat) (v : syjson_value) :
    syjson_parse_ret × List Nat × syjson_value :=
  ((syjson_parse_number strtod (blank json) v).1,
    (syjson_parse_number strtod (blank json) v).2.1.json,
    (syjson_parse_number strtod (blank json) v).2.2)

mutual
/-- The function `syjson_parse_value` on the text alone. -/
def value_pure (strtod : List Nat → Nat) :
    Nat → List Nat → syjson_value → Option (syjson_parse_ret × List Nat × syjson_value)
  | 0, _, _ => none
  | fuel + 1, json, v =>
    if json.headD 0 = 0x6E then some (literal_pure json v lit_null SYJSON_NULL)
    else if json.headD 0 = 0x66 then some (literal_pure json v lit_false SYJSON_FALSE)
    else if json.headD 0 = 0x74 then some (literal_pure json v lit_true SYJSON_TRUE)
    else if json.headD 0 = 0x22 then
      (string_pure json).map fun r =>
        if r.1 = SYJSON_PARSE_OK then
          (r.1, r.2.1, .mk SYJSON_STR (.str (r.2.2 ++ [0]) r.2.2.length))
        else (r.1, r.2.1, v)
    else if json.headD 0 = 0x5B then array_pure strtod fuel json v
    else if json.headD 0 = 0x7B then object_pure strtod fuel json v
    else if json.headD 0 = 0 then some (SYJSON_PARSE_EXPECT_VALUE, json, v)
    else some (number_pure strtod json v)
/-- The function `syjson_parse_array` on the text alone. -/
def array_pure (strtod : List Nat → Nat) :
    Nat → List Nat → syjson_value → Option (syjson_parse_ret × List Nat × syjson_value)
  | 0, _, _ => none
  | fuel + 1, json, v =>
    if (json.tail.dropWhile is_space).headD 0 = 0x5D then
      some (SYJSON_PARSE_OK, (json.tail.dropWhile is_space).tail, .mk SYJSON_ARR (.arr [] 0))
    else array_loop_pure strtod fuel (json.tail.dropWhile is_space) v []
/-- The loop of `syjson_parse_array` on the text alone; `acc` holds the staged values
in the order they were staged. -/
def array_loop_pure (strtod : List Nat → Nat) :
    Nat → List Nat → syjson_value → List syjson_value →
      Option (syjson_parse_ret × List Nat × syjson_value)
  | 0, _, _, _ => none
  | fuel + 1, json, v, acc =>
    (value_pure strtod fuel json (.mk SYJSON_NULL .uninit)).bind fun r =>
      if r.1 ≠ SYJSON_PARSE_OK then some (r.1, r.2.1, v)
      else if (r.2.1.dropWhile is_space).headD 0 = 0x2C then
        array_loop_pure strtod fuel ((r.2.1.dropWhile is_space).tail.dropWhile is_space) v
          (acc ++ [r.2.2])
      else if (r.2.1.dropWhile is_space).headD 0 = 0x5D then
        some (SYJSON_PARSE_OK, (r.2.1.dropWhile is_space).tail,
          .mk SYJSON_ARR (.arr (acc ++ [r.2.2]) (acc.length + 1)))
      else some (SYJSON_PARSE_MISS_COMMA_OR_SQUARE_BRACKET, r.2.1.dropWhile is_space, v)
/-- The function `syjson_parse_object` on the text alone. -/
def object_pure (strtod : List Nat → Nat) :
    Nat → List Nat → syjson_value → Option (syjson_parse_ret × List Nat × syjson_value)
  | 0, _, _ => none
  | fuel + 1, json, v =>
    if (json.tail.dropWhile is_space).headD 0 = 0x7D then
      some (SYJSON_PARSE_OK, (json.tail.dropWhile is_space).tail, .mk SYJSON_OBJ (.obj [] 0))
    else
      object_loop_pure strtod fuel (json.tail.dropWhile is_space) v
        (.mk SYJSON_NULL .uninit) []
/-- The loop of `syjson_parse_object` on the text alone; `mv` is the value field of the
local member and `acc` holds the staged members in the order they were staged. -/
def object_loop_pure (strtod : List Nat → Nat) :
    Nat → List Nat → syjson_value → syjson_value → List syjson_member →
      Option (syjson_parse_ret × List Nat × syjson_value)
  | 0, _, _, _, _ => none
  | fuel + 1, json, v, mv, acc =>
    if json.headD 0 ≠ 0x22 then some (SYJSON_PARSE_MISS_KEY, json, v.set_type SYJSON_NULL)
    else
      (string_pure json).bind fun sr =>
        if sr.1 ≠ SYJSON_PARSE_OK then some (sr.1, sr.2.1, v.set_type SYJSON_NULL)
        else if (sr.2.1.dropWhile is_space).headD 0 ≠ 0x3A then
          some (SYJSON_PARSE_MISS_COLON, sr.2.1.dropWhile is_space, v.set_type SYJSON_NULL)
        else
          (value_pure strtod fuel ((sr.2.1.dropWhile is_space).tail.dropWhile is_space)
              (mv.set_type SYJSON_NULL)).bind fun r =>
            if r.1 ≠ SYJSON_PARSE_OK then some (r.1, r.2.1, v.set_type SYJSON_NULL)
            else if (r.2.1.dropWhile is_space).headD 0 = 0x2C then
              object_loop_pure strtod fuel (r.2.1.dropWhile is_space).tail v r.2.2
                (acc ++ [.mk (sr.2.2 ++ [0]) sr.2.2.length r.2.2])
            else if (r.2.1.dropWhile is_space).headD 0 = 0x7D then
              some (SYJSON_PARSE_OK, (r.2.1.dropWhile is_space).tail,
                .mk SYJSON_OBJ
                  (.obj (acc ++ [.mk (sr.2.2 ++ [0]) sr.2.2.length r.2.2]) (acc.length + 1)))
            else
              some (SYJSON_PARSE_MISS_COMMA_OR_CURLY_BRACKET, r.2.1.dropWhile is_space,
                v.set_type SYJSON_NULL)
end

/-! ## Statements used in the proofs -/

/-- A call returned `ret` and `v`, left the scratch buffer as `st0` with top `t0`, did
not shrink its capacity, and on success left the cursor at `rest`. -/
def returns_with (r : outcome (syjson_parse_ret × syjson_content × syjson_value))
    (ret : syjson_parse_ret) (rest : List Nat) (v : syjson_value) (c : syjson_content)
    (st0 : List stack_cell) (t0 : Nat) : Prop :=
  ∃ c', r = .ok (ret, c', v) ∧ c'.stack = st0 ∧ c'.top = t0 ∧ c.size ≤ c'.size
    ∧ c'.size ≠ 1 ∧ (ret = SYJSON_PARSE_OK → c'.json = rest)

/-- With `fuel`, `syjson_parse_value` returns what `value_pure` computes. -/
def value_sound (strtod : List Nat → Nat) (fuel : Nat) : Prop :=
  ∀ (c : syjson_content) (v : syjson_value) ret rest v', c.size ≠ 1 →
    value_pure strtod fuel c.json v = some (ret, rest, v') →
    returns_with (syjson_parse_value strtod fuel c v) ret rest v' c c.stack c.top

/-- With `fuel`, `syjson_parse_array` returns what `array_pure` computes. -/
def array_sound (strtod : List Nat → Nat) (fuel : Nat) : Prop :=
  ∀ (c : syjson_content) (v : syjson_value) ret rest v', c.size ≠ 1 → c.cur = 0x5B →
    array_pure strtod fuel c.json v = some (ret, rest, v') →
    returns_with (syjson_parse_array strtod fuel c v) ret rest v' c c.stack c.top

/-- With `fuel`, the loop of `syjson_parse_array` returns what `array_loop_pure`
computes, when the staged values `acc` are the top of the buffer. -/
def array_loop_sound (strtod : List Nat → Nat) (fuel : Nat) : Prop :=
  ∀ (c : syjson_content) (v : syjson_value) (acc : List syjson_value)
    (st0 : List stack_cell) (t0 : Nat) ret rest v', c.size ≠ 1 →
    c.stack = (acc.map stack_cell.value).reverse ++ st0 →
    c.top = t0 + acc.length * sizeof_syjson_value →
    array_loop_pure strtod fuel c.json v acc = some (ret, rest, v') →
    returns_with (syjson_parse_array_loop strtod fuel c v acc.length) ret rest v' c st0 t0

/-- With `fuel`, `syjson_parse_object` returns what `object_pure` computes. -/
def object_sound (strtod : List Nat → Nat) (fuel : Nat) : Prop :=
  ∀ (c : syjson_content) (v : syjson_value) ret rest v', c.size ≠ 1 → c.cur = 0x7B →
    object_pure strtod fuel c.json v = some (ret, rest, v') →
    returns_with (syjson_parse_object strtod fuel c v) ret rest v' c c.stack c.top

/-- With `fuel`, the loop of `syjson_parse_object` returns what `object_loop_pure`
computes, when the staged members `acc` are the top of the buffer. -/
def object_loop_sound (strtod : List Nat → Nat) (fuel : Nat) : Prop :=
  ∀ (c : syjson_content) (v : syjson_value) (m : syjson_member) (acc : List syjson_member)
    (st0 : List stack_cell) (t0 : Nat) ret rest v', c.size ≠ 1 →
    c.stack = (acc.map stack_cell.member).reverse ++ st0 →
    c.top = t0 + sizeof_syjson_member * acc.length →
    object_loop_pure strtod fuel c.json v m.v acc = some (ret, rest, v') →
    returns_with (syjson_parse_object_loop strtod fuel c v m acc.length) ret rest v' c st0 t0



/-- A result of a buffer-free function on `json` and `v`: on success the cursor has
moved forward, on failure the type of the value is unchanged or `SYJSON_NULL`. -/
def pure_ok (r : Option (syjson_parse_ret × List Nat × syjson_value)) (json : List Nat)
    (v : syjson_value) : Prop :=
  ∀ ret rest v', r = some (ret, rest, v') →
    (ret = SYJSON_PARSE_OK → rest.length < json.length)
      ∧ (ret ≠ SYJSON_PARSE_OK → v'.type = v.type ∨ v'.type = SYJSON_NULL)

/-! ## Sample data for instances of the theorems -/

/-- The bytes of a text. -/
def bytes (s : String) : List Nat := s.toList.map Char.toNat

/-- The bit pattern of the double nearest to the natural number `n` (ties to even;
+infinity when `n` is beyond the largest double). -/
def f64_of_nat (n : Nat) : Nat :=
  if n = 0 then 0
  else if Nat.log2 n ≤ 52 then
    (Nat.log2 n + 1023) * 2 ^ 52 + (n * 2 ^ (52 - Nat.log2 n) - 2 ^ 52)
  else
    let q := n / 2 ^ (Nat.log2 n - 52)
    let r := n % 2 ^ (Nat.log2 n - 52)
    let half := 2 ^ (Nat.log2 n - 53)
    let q1 := if r > half ∨ (r = half ∧ q % 2 = 1) then q + 1 else q
    if (Nat.log2 n + 1023) * 2 ^ 52 + (q1 - 2 ^ 52) ≥ 0x7FF * 2 ^ 52 then HUGE_VAL
    else (Nat.log2 n + 1023) * 2 ^ 52 + (q1 - 2 ^ 52)

/-- The value of the decimal digits a text begins with. -/
def digits_value : List Nat → Nat → Nat
  | [], acc => acc
  | d :: ds, acc => if ISDIGIT d then digits_value ds (10 * acc + (d - 0x30)) else acc

/-- A stand-in for `strtod` of the C library on texts that begin with a decimal
integer (an optional `-` and digits, not continued by a fraction or an exponent): the
double nearest to that integer.  It instantiates the parameter `strtod` where a theorem
is applied to a concrete text. -/
def strtod_int (s : List Nat) : Nat :=
  if s.headD 0 = 0x2D then 2 ^ 63 + f64_of_nat (digits_value s.tail 0)
  else f64_of_nat (digits_value s 0)

/-- A root value as `syjson_init` leaves a fresh variable. -/
def v_init : syjson_value := .mk SYJSON_NULL .uninit

/-- The return code of a call, `none` if the call did not return. -/
def ret_of {α : Type} : outcome (syjson_parse_ret × α) → Option syjson_parse_ret
  | .ok r => some r.1
  | _ => none

/-- The type of the root value after a call, `none` if the call did not return. -/
def type_of : outcome (syjson_parse_ret × syjson_value) → Option syjson_type
  | .ok r => some r.2.type
  | _ => none

/-- A context in the middle of a parse: two values staged, capacity 256. -/
def c_sample (json : List Nat) : syjson_content :=
  { json := json,
    stack := [stack_cell.value v_init, stack_cell.value v_init],
    size := 256, top := 48 }

/-- The string buffer of the root value after a call, `none` if the call did not return
or the root is not a string. -/
def string_of : outcome (syjson_parse_ret × syjson_value) → Option (List Nat)
  | .ok r => if r.2.type = SYJSON_STR then some r.2.val.str_s else none
  | _ => none

/-- The root value after a call, `v_init` if the call did not return. -/
def value_of : outcome (syjson_parse_ret × syjson_value) → syjson_value
  | .ok r => r.2
  | _ => v_init

/-- The chars in the scratch buffer after a call, in address order. -/
def pushed_of : outcome syjson_content → Option (List Nat)
  | .ok c => some (cell_chars c.stack.reverse)
  | _ => none

/-- The UTF-8 encoding of a code point as the specification states it: one byte `u`
up to 0x7F; two bytes `0xC0|(u>>6)`, `0x80|(u&0x3F)` up to 0x7FF; three bytes
`0xE0|(u>>12)`, `0x80|((u>>6)&0x3F)`, `0x80|(u&0x3F)` up to 0xFFFF; otherwise four bytes
`0xF0|((u>>18)&0x07)`, `0x80|((u>>12)&0x3F)`, `0x80|((u>>6)&0x3F)`, `0x80|(u&0x3F)`. -/
def utf8_standard (u : Nat) : List Nat :=
  if u ≤ 0x7F then [u]
  else if u ≤ 0x7FF then [0xC0 ||| (u >>> 6), 0x80 ||| (u &&& 0x3F)]
  else if u ≤ 0xFFFF then
    [0xE0 ||| (u >>> 12), 0x80 ||| ((u >>> 6) &&& 0x3F), 0x80 ||| (u &&& 0x3F)]
  else
    [0xF0 ||| ((u >>> 18) &&& 0x07), 0x80 ||| ((u >>> 12) &&& 0x3F),
      0x80 ||| ((u >>> 6) &&& 0x3F), 0x80 ||| (u &&& 0x3F)]

/-- The code point of a surrogate pair as the specification states it. -/
def surrogate_code_point (h l : Nat) : Nat :=
  0x10000 + (((h - 0xD800) <<< 10) ||| (l - 0xDC00))

/-- Whether a call returned (no assertion failed). -/
def outcome.returned {α : Type} : outcome α → Bool
  | .ok _ => true
  | _ => false

/-- Whether a getter returned a pointer to an element. -/
def outcome.points {α : Type} : outcome (Option α) → Bool
  | .ok (some _) => true
  | _ => false

/-! ## The number grammar of the specification -/

/-- The integer part of a number as the specification describes it: `0`, or a digit
`1`-`9` followed by any digits. -/
def json_int (t : List Nat) : Prop :=
  t = [0x30] ∨ ∃ d ds, t = d :: ds ∧ ISDIGIT1TO9 d = true ∧ ∀ x ∈ ds, ISDIGIT x = true

/-- The optional fraction: nothing, or `.` followed by one or more digits. -/
def json_frac (t : List Nat) : Prop :=
  t = [] ∨ ∃ ds, t = 0x2E :: ds ∧ ds ≠ [] ∧ ∀ x ∈ ds, ISDIGIT x = true

/-- The optional exponent: nothing, or `e` or `E`, an optional `+` or `-`, and one or
more digits. -/
def json_exp (t : List Nat) : Prop :=
  t = [] ∨ ∃ e sg ds, t = e :: (sg ++ ds) ∧ (e = 0x65 ∨ e = 0x45)
    ∧ (sg = [] ∨ sg = [0x2B] ∨ sg = [0x2D]) ∧ ds ≠ [] ∧ ∀ x ∈ ds, ISDIGIT x = true

/-- A number as the specification describes it: an optional `-`, the integer part, the
optional fraction and the optional exponent. -/
def json_number (t : List Nat) : Prop :=
  ∃ sg i f e, t = sg ++ (i ++ (f ++ e)) ∧ (sg = [] ∨ sg = [0x2D])
    ∧ json_int i ∧ json_frac f ∧ json_exp e

/-- A text that departs from the number grammar where a digit is required: after the
optional `-`, after the `.` of a fraction, or after the `e`/`E` and optional sign of an
exponent, the next byte is not a digit.  (The optional signs are taken when present.) -/
def missing_digit (r : List Nat) : Prop :=
  (∃ sg x, r = sg ++ x ∧ (sg = [0x2D] ∨ (sg = [] ∧ x.headD 0 ≠ 0x2D))
      ∧ ISDIGIT (x.headD 0) = false)
    ∨ (∃ sg i x, r = sg ++ (i ++ 0x2E :: x) ∧ (sg = [] ∨ sg = [0x2D]) ∧ json_int i
      ∧ ISDIGIT (x.headD 0) = false)
    ∨ (∃ sg i f e es x, r = sg ++ (i ++ (f ++ e :: (es ++ x))) ∧ (sg = [] ∨ sg = [0x2D])
      ∧ json_int i ∧ json_frac f ∧ (e = 0x65 ∨ e = 0x45)
      ∧ (es = [0x2B] ∨ es = [0x2D] ∨ (es = [] ∧ x.headD 0 ≠ 0x2B ∧ x.headD 0 ≠ 0x2D))
      ∧ ISDIGIT (x.headD 0) = false)

/-- The bytes on which the dispatcher calls the number scanner: all but `n`, `f`, `t`,
the double quote, `[`, `{` and NUL. -/
def number_lead (b : Nat) : Prop :=
  b ≠ 0x6E ∧ b ≠ 0x66 ∧ b ≠ 0x74 ∧ b ≠ 0x22 ∧ b ≠ 0x5B ∧ b ≠ 0x7B ∧ b ≠ 0

/-- A byte that cannot continue a number: not a digit, `.`, `e` or `E`. -/
def number_stop (b : Nat) : Prop :=
  ISDIGIT b = false ∧ b ≠ 0x2E ∧ b ≠ 0x65 ∧ b ≠ 0x45

/-! ## String bodies of the specification -/

/-- A piece of a string body: a raw byte, or a backslash followed by a character. -/
inductive str_item where
  | raw (b : Nat)
  | esc (e : Nat)

/-- The pieces the claim on byte-exact decoding speaks of: a raw byte that is at least
0x20 and is not 0x7F, the double quote or the backslash; or one of the eight
one-character escapes. -/
def str_item.valid : str_item → Prop
  | .raw b => 0x20 ≤ b ∧ b < 256 ∧ b ≠ 0x7F ∧ b ≠ 0x22 ∧ b ≠ 0x5C
  | .esc e => e = 0x22 ∨ e = 0x5C ∨ e = 0x2F ∨ e = 0x62 ∨ e = 0x66 ∨ e = 0x6E ∨ e = 0x72
      ∨ e = 0x74

/-- The bytes of a piece in the JSON text. -/
def str_item.text : str_item → List Nat
  | .raw b => [b]
  | .esc e => [0x5C, e]

/-- The byte a piece stands for, as the specification lists them: a raw byte stands
for itself, and the escapes of the double quote, the backslash, `/`, `b`, `f`, `n`,
`r`, `t` for 0x22, 0x5C, 0x2F, 0x08, 0x0C, 0x0A, 0x0D, 0x09. -/
def str_item.byte : str_item → Nat
  | .raw b => b
  | .esc e =>
    if e = 0x22 then 0x22 else if e = 0x5C then 0x5C else if e = 0x2F then 0x2F
    else if e = 0x62 then 0x08 else if e = 0x66 then 0x0C else if e = 0x6E then 0x0A
    else if e = 0x72 then 0x0D else 0x09

/-- The JSON text of a string with the given body: the body between double quotes. -/
def string_text (body : List str_item) : List Nat :=
  0x22 :: ((body.map str_item.text).flatten ++ [0x22])

/-! ## Statements on composite texts -/

/-- A byte that ends a value inside a text: NUL, whitespace, `,`, `]` or `}`. -/
def delimiter (b : Nat) : Prop :=
  b = 0 ∨ is_space b = true ∨ b = 0x2C ∨ b = 0x5D ∨ b = 0x7D

/-- The assumption on `strtod` of the C library that the composite claims need: on a
number of the JSON grammar it converts that number, whatever follows a delimiter after
it (the text `strtod` is given runs to the end of the document). -/
def strtod_local (strtod : List Nat → Nat) : Prop :=
  ∀ N d : List Nat, json_number N → delimiter (d.headD 0) → strtod (N ++ d) = strtod N

/-- Structural equality of two values: the same type and, unless the type is one of
the three literals (whose union is not meaningful), the same payload, elements and
members included. -/
def same_value (a b : syjson_value) : Prop :=
  a.type = b.type
    ∧ (a.type ≠ SYJSON_NULL → a.type ≠ SYJSON_TRUE → a.type ≠ SYJSON_FALSE → a.val = b.val)

/-- The texts `t1`, ..., `tn` separated by commas. -/
def join_comma : List (List Nat) → List Nat
  | [] => []
  | [t] => t
  | t :: t' :: ts => t ++ 0x2C :: join_comma (t' :: ts)

/-- The array text `[` t1 `,` ... `,` tn `]`. -/
def array_text (ts : List (List Nat)) : List Nat :=
  0x5B :: (join_comma ts ++ [0x5D])

/-- A member of an object text with what it stands for: the quoted key text and the
bytes it decodes to, the value text and the value it parses to. -/
structure member_case where
  key_text : List Nat
  value_text : List Nat
  key : List Nat
  value : syjson_value

/-- The member is well formed: the key text begins with the double quote and parses,
on its own, to the string `key`; the value text parses, on its own, to `value`; neither
text has a NUL byte. -/
def member_case.ok (strtod : List Nat → Nat) (m : member_case) : Prop :=
  m.key_text.headD 0 = 0x22 ∧ (∀ b ∈ m.key_text, b ≠ 0) ∧ (∀ b ∈ m.value_text, b ≠ 0)
    ∧ (∃ u w, syjson_parse strtod u m.key_text = .ok (SYJSON_PARSE_OK, w)
        ∧ syjson_get_string w = .ok (m.key ++ [0]))
    ∧ (∃ u, syjson_parse strtod u m.value_text = .ok (SYJSON_PARSE_OK, m.value))

/-- The member texts k1 `:` t1, ..., kn `:` tn. -/
def member_texts : List member_case → List (List Nat)
  | [] => []
  | m :: ms => (m.key_text ++ 0x3A :: m.value_text) :: member_texts ms

/-- The object text `{` k1 `:` t1 `,` ... `,` kn `:` tn `}`, with nothing after the
commas. -/
def object_text (ms : List member_case) : List Nat :=
  0x7B :: (join_comma (member_texts ms) ++ [0x7D])

/-- A stored member agrees with a member of the text: its key buffer is the key and a
NUL, its key length the number of key bytes, its value structurally equal. -/
def member_matches (s : syjson_member) (m : member_case) : Prop :=
  s.k = m.key ++ [0] ∧ s.kl = m.key.length ∧ same_value s.v m.value

/-- A successful run of `value_pure` on `json` is also one on `json` followed by `r`,
with at least as much fuel and any initial value `u`, provided the value ended at a
delimiter and `r` begins with one. -/
def value_frame (strtod : List Nat → Nat) (fuel : Nat) : Prop :=
  ∀ (json : List Nat) (v u : syjson_value) (rest : List Nat) (v' : syjson_value)
    (r : List Nat) (fuel2 : Nat),
    value_pure strtod fuel json v = some (SYJSON_PARSE_OK, rest, v') → fuel ≤ fuel2 →
    delimiter (rest.headD 0) → delimiter (r.headD 0) →
    ∃ v'', value_pure strtod fuel2 (json ++ r) u = some (SYJSON_PARSE_OK, rest ++ r, v'')
      ∧ same_value v'' v' ∧ (u = v → v'' = v')

/-- The same for `array_pure`, whose result does not depend on the initial value. -/
def array_frame (strtod : List Nat → Nat) (fuel : Nat) : Prop :=
  ∀ (json : List Nat) (v u : syjson_value) (rest : List Nat) (v' : syjson_value)
    (r : List Nat) (fuel2 : Nat), json.headD 0 = 0x5B →
    array_pure strtod fuel json v = some (SYJSON_PARSE_OK, rest, v') → fuel ≤ fuel2 →
    delimiter (r.headD 0) →
    array_pure strtod fuel2 (json ++ r) u = some (SYJSON_PARSE_OK, rest ++ r, v')

/-- The same for `array_loop_pure`. -/
def array_loop_frame (strtod : List Nat → Nat) (fuel : Nat) : Prop :=
  ∀ (json : List Nat) (v u : syjson_value) (acc : List syjson_value) (rest : List Nat)
    (v' : syjson_value) (r : List Nat) (fuel2 : Nat),
    array_loop_pure strtod fuel json v acc = some (SYJSON_PARSE_OK, rest, v') → fuel ≤ fuel2 →
    delimiter (r.headD 0) →
    array_loop_pure strtod fuel2 (json ++ r) u acc = some (SYJSON_PARSE_OK, rest ++ r, v')

/-- The same for `object_pure`. -/
def object_frame (strtod : List Nat → Nat) (fuel : Nat) : Prop :=
  ∀ (json : List Nat) (v u : syjson_value) (rest : List Nat) (v' : syjson_value)
    (r : List Nat) (fuel2 : Nat), json.headD 0 = 0x7B →
    object_pure strtod fuel json v = some (SYJSON_PARSE_OK, rest, v') → fuel ≤ fuel2 →
    delimiter (r.headD 0) →
    object_pure strtod fuel2 (json ++ r) u = some (SYJSON_PARSE_OK, rest ++ r, v')

/-- The same for `object_loop_pure`. -/
def object_loop_frame (strtod : List Nat → Nat) (fuel : Nat) : Prop :=
  ∀ (json : List Nat) (v u mv : syjson_value) (acc : List syjson_member) (rest : List Nat)
    (v' : syjson_value) (r : List Nat) (fuel2 : Nat),
    object_loop_pure strtod fuel json v mv acc = some (SYJSON_PARSE_OK, rest, v') →
    fuel ≤ fuel2 → delimiter (r.headD 0) →
    object_loop_pure strtod fuel2 (json ++ r) u mv acc
      = some (SYJSON_PARSE_OK, rest ++ r, v')

/-- The element a getter's pointer points to, `v_init` if there is none. -/
def pointee : outcome (Option syjson_value) → syjson_value
  | .ok (some e) => e
  | _ => v_init

/-- The four texts of the witness of the array claim: `1`, `2`, `[3,4]`, `"a"`. -/
def sample_texts : List (List Nat) :=
  [bytes "1", bytes "2", bytes "[3,4]", bytes "\"a\""]

/-- The members of the witness of the object claim: `"a":1`, `"b":[true,false]` and
`"a":2`, with the values `syjson_parse` gives their value texts. -/
def sample_members : List member_case :=
  [{ key_text := bytes "\"a\"", value_text := bytes "1", key := [0x61],
     value := value_of (syjson_parse strtod_int v_init (bytes "1")) },
   { key_text := bytes "\"b\"", value_text := bytes "[true,false]", key := [0x62],
     value := value_of (syjson_parse strtod_int v_init (bytes "[true,false]")) },
   { key_text := bytes "\"a\"", value_text := bytes "2", key := [0x61],
     value := value_of (syjson_parse strtod_int v_init (bytes "2")) }]

/-! ## The boolean accessors -/

/-- The integer value of an enumerator of `syjson_type` (declaration order, from 0). -/
def syjson_type.value : syjson_type → Int
  | SYJSON_NULL => 0
  | SYJSON_TRUE => 1
  | SYJSON_FALSE => 2
  | SYJSON_NUM => 3
  | SYJSON_STR => 4
  | SYJSON_ARR => 5
  | SYJSON_OBJ => 6

/-- The function `syjson_set_boolean`: the value afterwards and the blocks passed to
`free`.  The assertion admits the two enumerators `SYJSON_TRUE` and `SYJSON_FALSE`, and
`v->type = boolean` stores the enumerator with that value. -/
def syjson_set_boolean (v : syjson_value) (boolean : Int) :
    outcome (syjson_value × List heap_block) :=
  if boolean = SYJSON_TRUE.value ∨ boolean = SYJSON_FALSE.value then
    .ok (v.set_type (if boolean = SYJSON_TRUE.value then SYJSON_TRUE else SYJSON_FALSE),
      if v.type = SYJSON_STR then [.chars v.val.str_s] else [])
  else .assert_failed

/-- The function `syjson_get_boolean`: the `int` value of `v->type == SYJSON_TRUE`. -/
def syjson_get_boolean (v : syjson_value) : outcome Int :=
  if v.type = SYJSON_TRUE ∨ v.type = SYJSON_FALSE then
    .ok (if v.type = SYJSON_TRUE then 1 else 0)
  else .assert_failed

/-! ## Ownership as the specification states it -/

mutual
/-- The blocks a value owns, in the words of the specification: a string owns its byte
buffer; an array owns its element storage and, through it, what every element owns; an
object owns its member storage, every member's key buffer and what every member's
value owns. -/
def owned_blocks : syjson_value → List heap_block
  | .mk SYJSON_STR (.str s _) => [.chars s]
  | .mk SYJSON_ARR (.arr e _) => .values e :: owned_values e
  | .mk SYJSON_OBJ (.obj m _) => .members m :: owned_members m
  | _ => []
/-- What the elements of an array own. -/
def owned_values : List syjson_value → List heap_block
  | [] => []
  | v :: vs => owned_blocks v ++ owned_values vs
/-- What the members of an object own. -/
def owned_members : List syjson_member → List heap_block
  | [] => []
  | .mk k _ v :: ms => .chars k :: (owned_blocks v ++ owned_members ms)
end

/-- The number of char buffers, element arrays and member arrays among some blocks. -/
def block_census : List heap_block → Nat × Nat × Nat
  | [] => (0, 0, 0)
  | .chars _ :: bs => ((block_census bs).1 + 1, (block_census bs).2.1, (block_census bs).2.2)
  | .values _ :: bs => ((block_census bs).1, (block_census bs).2.1 + 1, (block_census bs).2.2)
  | .members _ :: bs => ((block_census bs).1, (block_census bs).2.1, (block_census bs).2.2 + 1)

mutual
/-- A value without arrays whose objects have as many members as their size says. -/
def array_free : syjson_value → Prop
  | .mk SYJSON_ARR _ => False
  | .mk SYJSON_OBJ (.obj m n) => n = m.length ∧ array_free_members m
  | _ => True
/-- The same for the values of the members of an object. -/
def array_free_members : List syjson_member → Prop
  | [] => True
  | .mk _ _ v :: ms => array_free v ∧ array_free_members ms
end

/-- The capacity of the scratch buffer after a push, `none` if the call did not return. -/
def capacity_after : outcome (syjson_content × Nat) → Option Nat
  | .ok r => some r.1.size
  | _ => none

/-- The top of the scratch buffer after a push or pop, `none` if the call did not
return. -/
def top_after {α : Type} : outcome (syjson_content × α) → Option Nat
  | .ok r => some r.1.top
  | _ => none

/-- An empty context with the given capacity and top. -/
def c_buffer (size top : Nat) : syjson_content :=
  { json := [], stack := [], size := size, top := top }

/-! ## Hexadecimal digits of the specification -/

/-- The value of a hexadecimal digit, upper or lower case; `none` for any other byte. -/
def hex_digit (ch : Nat) : Option Nat :=
  if 0x30 ≤ ch ∧ ch ≤ 0x39 then some (ch - 0x30)
  else if 0x41 ≤ ch ∧ ch ≤ 0x46 then some (ch - 0x41 + 10)
  else if 0x61 ≤ ch ∧ ch ≤ 0x66 then some (ch - 0x61 + 10)
  else none

/-- The 16-bit value `d0*4096 + d1*256 + d2*16 + d3` of four hexadecimal digits; `none`
if one of the four bytes is not a hexadecimal digit. -/
def hex4_value (a b c d : Nat) : Option Nat :=
  (hex_digit a).bind fun d0 => (hex_digit b).bind fun d1 => (hex_digit c).bind fun d2 =>
    (hex_digit d).bind fun d3 => some (d0 * 4096 + d1 * 256 + d2 * 16 + d3)

/-- The byte at offset `i` from the cursor, NUL past the end of the text. -/
def byte_at (p : List Nat) (i : Nat) : Nat := (p.drop i).headD 0

/-! ## Pieces of a string the scanner passes over -/

/-- A piece of a string body that does not end the scan: a raw byte or one-character
escape (`plain`), a `\u` escape of four hexadecimal digits, or two such escapes that
form a surrogate pair. -/
inductive scan_item where
  | plain (it : str_item)
  | unicode (a b c d : Nat)
  | pair (a b c d a2 b2 c2 d2 : Nat)

/-- The valid pieces: a valid raw byte or one-character escape; a `\u` escape whose four
hexadecimal digits are not a high surrogate; a high surrogate escape followed by a low
surrogate escape. -/
def scan_item.valid : scan_item → Prop
  | .plain it => it.valid
  | .unicode a b c d => ∃ u, hex4_value a b c d = some u ∧ ¬ (0xD800 ≤ u ∧ u ≤ 0xDBFF)
  | .pair a b c d a2 b2 c2 d2 =>
    ∃ u u2, hex4_value a b c d = some u ∧ (0xD800 ≤ u ∧ u ≤ 0xDBFF)
      ∧ hex4_value a2 b2 c2 d2 = some u2 ∧ (0xDC00 ≤ u2 ∧ u2 ≤ 0xDFFF)

/-- The bytes of a piece in the JSON text. -/
def scan_item.text : scan_item → List Nat
  | .plain it => it.text
  | .unicode a b c d => [0x5C, 0x75, a, b, c, d]
  | .pair a b c d a2 b2 c2 d2 => [0x5C, 0x75, a, b, c, d, 0x5C, 0x75, a2, b2, c2, d2]

/-- The JSON text of a sequence of pieces. -/
def scan_text (items : List scan_item) : List Nat := (items.map scan_item.text).flatten

/-- The text `r` begins with a low surrogate escape: a backslash, the letter `u` and
four hexadecimal digits with a value from 0xDC00 to 0xDFFF. -/
def low_surrogate_follows (r : List Nat) : Prop :=
  byte_at r 0 = 0x5C ∧ byte_at r 1 = 0x75
    ∧ ∃ u2, hex4_value (byte_at r 2) (byte_at r 3) (byte_at r 4) (byte_at r 5) = some u2
      ∧ 0xDC00 ≤ u2 ∧ u2 ≤ 0xDFFF

/-- The text `r` begins with a backslash and the letter `u` that are not followed by
four hexadecimal digits. -/
def bad_hex_follows (r : List Nat) : Prop :=
  byte_at r 0 = 0x5C ∧ byte_at r 1 = 0x75
    ∧ hex4_value (byte_at r 2) (byte_at r 3) (byte_at r 4) (byte_at r 5) = none

/-- The context and the value after a call of a parsing function, a blank context and
`v_init` if the call did not return. -/
def state_of : outcome (syjson_parse_ret × syjson_content × syjson_value) →
    syjson_content × syjson_value
  | .ok r => r.2
  | _ => (blank [], v_init)

/-! ## The parser returns what the buffer-free functions compute -/


/-! ## The scratch buffer: push and pop -/

theorem stack_grow_ok (need : Nat) :
    ∀ (g cap : Nat), 2 ≤ cap → need + 1 ≤ g + cap →
      ∃ n, stack_grow need (g + 1) cap = .ok n ∧ need < n ∧ cap ≤ n := by
  intro g
  induction g with
  | zero =>
    intro cap h2 h
    refine ⟨cap, ?_, by omega, le_refl _⟩
    have : ¬ need ≥ cap := by omega
    simp [stack_grow, this]
  | succ g ih =>
    intro cap h2 h
    by_cases hc : need ≥ cap
    · obtain ⟨n, hn, h1, h3⟩ := ih (cap + cap / 2) (by omega) (by omega)
      refine ⟨n, ?_, h1, by omega⟩
      rw [stack_grow]
      simp only [hc, if_true]
      exact hn
    · refine ⟨cap, ?_, by omega, le_refl _⟩
      rw [stack_grow]
      simp [hc]

theorem push_ok (c : syjson_content) (n : Nat) (hcap : c.size ≠ 1) (hn : 0 < n) :
    ∃ sz, syjson_content_push c n
        = .ok ({ json := c.json, stack := stack_cell.reserved n :: c.stack, size := sz,
                 top := c.top + n }, c.top)
      ∧ c.size ≤ sz ∧ c.top + n < sz := by
  unfold syjson_content_push
  have hn0 : ¬ n = 0 := by omega
  simp only [hn0, if_false]
  by_cases hge : c.top + n ≥ c.size
  · simp only [hge, if_true]
    by_cases h0 : c.size = 0
    · obtain ⟨m, hm, h1, h2⟩ := stack_grow_ok (c.top + n) (c.top + n + 1)
        SYJSON_PARSE_STACK_INIT_SIZE (by decide) (by omega)
      refine ⟨m, ?_, by omega, h1⟩
      simp [h0, hm, outcome.bind]
    · obtain ⟨m, hm, h1, h2⟩ := stack_grow_ok (c.top + n) (c.top + n + 1)
        c.size (by omega) (by omega)
      refine ⟨m, ?_, h2, h1⟩
      simp [h0, hm, outcome.bind]
  · refine ⟨c.size, ?_, le_refl _, by omega⟩
    simp [hge, outcome.bind]

theorem PUTC_ok (c : syjson_content) (ch : Nat) (hcap : c.size ≠ 1) :
    ∃ sz, PUTC c ch
        = .ok { json := c.json, stack := stack_cell.byte (ch % 256) :: c.stack, size := sz,
                top := c.top + 1 }
      ∧ c.size ≤ sz ∧ c.top + 1 < sz := by
  obtain ⟨sz, h, h1, h2⟩ := push_ok c 1 hcap (by decide)
  exact ⟨sz, by simp [PUTC, h, outcome.bind, stack_store], h1, h2⟩



theorem encode_utf8_ok (c : syjson_content) (u : Nat) (hcap : c.size ≠ 1) :
    ∃ sz, syjson_encode_utf8 c u
        = .ok { json := c.json,
                stack := ((utf8_pushed u).map stack_cell.byte).reverse ++ c.stack,
                size := sz, top := c.top + (utf8_pushed u).length }
      ∧ c.size ≤ sz ∧ sz ≠ 1 ∧ (utf8_pushed u ≠ [] → sz ≠ 0) := by
  unfold syjson_encode_utf8 utf8_pushed
  by_cases h1 : u ≤ 0x007f
  · obtain ⟨s1, e1, a1, b1⟩ := PUTC_ok c (u &&& 0xff) hcap
    exact ⟨s1, by simp [h1, e1], a1, by omega, fun _ => by omega⟩
  by_cases h2 : u ≤ 0x07ff
  · obtain ⟨s1, e1, a1, b1⟩ := PUTC_ok c (((u >>> 6) &&& 0x1f) ||| 0xc0) hcap
    obtain ⟨s2, e2, a2, b2⟩ := PUTC_ok _ ((u &&& 0x3f) ||| 0x80)
      (show ({ json := c.json, stack := stack_cell.byte ((((u >>> 6) &&& 0x1f) ||| 0xc0) % 256)
                :: c.stack, size := s1, top := c.top + 1 } : syjson_content).size ≠ 1 by
        simp only; omega)
    refine ⟨s2, ?_, ?_, ?_, fun _ => ?_⟩
    · simp [h1, h2, e1, e2, outcome.bind, Nat.add_assoc]
    · simp only at a2; omega
    · simp only at b2; omega
    · simp only at b2; omega
  by_cases h3 : u ≤ 0xffff
  · obtain ⟨s1, e1, a1, b1⟩ := PUTC_ok c (((u >>> 12) &&& 0x0f) ||| 0xe0) hcap
    obtain ⟨s2, e2, a2, b2⟩ := PUTC_ok _ (((u >>> 6) &&& 0x3f) ||| 0x80)
      (show ({ json := c.json, stack := stack_cell.byte ((((u >>> 12) &&& 0x0f) ||| 0xe0) % 256)
                :: c.stack, size := s1, top := c.top + 1 } : syjson_content).size ≠ 1 by
        simp only; omega)
    obtain ⟨s3, e3, a3, b3⟩ := PUTC_ok _ ((u &&& 0x3f) ||| 0x80)
      (show ({ json := c.json, stack := stack_cell.byte ((((u >>> 6) &&& 0x3f) ||| 0x80) % 256)
                :: stack_cell.byte ((((u >>> 12) &&& 0x0f) ||| 0xe0) % 256)
                :: c.stack, size := s2, top := c.top + 1 + 1 } : syjson_content).size ≠ 1 by
        simp only at b2 ⊢; omega)
    refine ⟨s3, ?_, ?_, ?_, fun _ => ?_⟩
    · simp [h1, h2, h3, e1, e2, e3, outcome.bind, Nat.add_assoc]
    · simp only at a2 a3; omega
    · simp only at b3; omega
    · simp only at b3; omega
  by_cases h4 : u ≤ 0x10ffff
  · obtain ⟨s1, e1, a1, b1⟩ := PUTC_ok c (((u >>> 18) &&& 0x08) ||| 0xf0) hcap
    obtain ⟨s2, e2, a2, b2⟩ := PUTC_ok _ (((u >>> 12) &&& 0x3f) ||| 0x80)
      (show ({ json := c.json, stack := stack_cell.byte ((((u >>> 18) &&& 0x08) ||| 0xf0) % 256)
                :: c.stack, size := s1, top := c.top + 1 } : syjson_content).size ≠ 1 by
        simp only; omega)
    obtain ⟨s3, e3, a3, b3⟩ := PUTC_ok _ (((u >>> 6) &&& 0x3f) ||| 0x80)
      (show ({ json := c.json, stack := stack_cell.byte ((((u >>> 12) &&& 0x3f) ||| 0x80) % 256)
                :: stack_cell.byte ((((u >>> 18) &&& 0x08) ||| 0xf0) % 256)
                :: c.stack, size := s2, top := c.top + 1 + 1 } : syjson_content).size ≠ 1 by
        simp only at b2 ⊢; omega)
    obtain ⟨s4, e4, a4, b4⟩ := PUTC_ok _ ((u &&& 0x3f) ||| 0x80)
      (show ({ json := c.json, stack := stack_cell.byte ((((u >>> 6) &&& 0x3f) ||| 0x80) % 256)
                :: stack_cell.byte ((((u >>> 12) &&& 0x3f) ||| 0x80) % 256)
                :: stack_cell.byte ((((u >>> 18) &&& 0x08) ||| 0xf0) % 256)
                :: c.stack, size := s3, top := c.top + 1 + 1 + 1 } : syjson_content).size ≠ 1 by
        simp only at b3 ⊢; omega)
    refine ⟨s4, ?_, ?_, ?_, fun _ => ?_⟩
    · simp [h1, h2, h3, h4, e1, e2, e3, e4, outcome.bind, Nat.add_assoc]
    · simp only at a2 a3 a4; omega
    · simp only at b4; omega
    · simp only at b4; omega
  · exact ⟨c.size, by simp [h1, h2, h3, h4], le_refl _, hcap, fun h => by simp [h1, h2, h3, h4] at h⟩

theorem stack_split_bytes (bs : List Nat) (st : List stack_cell) :
    stack_split ((bs.map stack_cell.byte).reverse ++ st) bs.length
      = (bs.map stack_cell.byte, st) := by
  induction bs using List.reverseRecOn generalizing st with
  | nil => cases st <;> simp [stack_split]
  | append_singleton bs b ih =>
    simp only [List.map_append, List.map_cons, List.map_nil, List.reverse_append,
      List.reverse_cons, List.reverse_nil, List.nil_append, List.singleton_append,
      List.cons_append, List.length_append, List.length_singleton]
    rw [stack_split]
    simp [stack_cell.bytes, ih]

theorem cell_chars_bytes (bs : List Nat) : cell_chars (bs.map stack_cell.byte) = bs := by
  induction bs with
  | nil => rfl
  | cons b bs ih => simp [cell_chars, ih]



theorem STRING_ERROR_spec (c : syjson_content) (head : Nat) (acc : List Nat)
    (st0 : List stack_cell)
    (hst : c.stack = (acc.map stack_cell.byte).reverse ++ st0)
    (htop : c.top = head + acc.length) :
    STRING_ERROR c head = { json := c.json, stack := st0, size := c.size, top := head } := by
  have : c.top - head = acc.length := by omega
  simp [STRING_ERROR, this, hst, stack_split_bytes]

theorem string_loop_sound (head : Nat) :
    ∀ (fuel : Nat) (c : syjson_content) (p acc : List Nat) (st0 : List stack_cell),
      c.size ≠ 1 → c.stack = (acc.map stack_cell.byte).reverse ++ st0 →
      c.top = head + acc.length → (acc ≠ [] → c.size ≠ 0) →
      ∀ ret rest bytes, string_decode fuel p acc = some (ret, rest, bytes) →
        ∃ c', syjson_string_loop head fuel c p = .ok (ret, c', bytes, bytes.length)
          ∧ c'.stack = st0 ∧ c'.top = head ∧ c.size ≤ c'.size ∧ c'.size ≠ 1
          ∧ (ret = SYJSON_PARSE_OK → c'.json = rest ∧ (bytes ≠ [] → c'.size ≠ 0))
          ∧ (ret ≠ SYJSON_PARSE_OK → c'.json = c.json) := by
  intro fuel
  induction fuel with
  | zero => intro c p acc st0 _ _ _ _ ret rest bytes h; simp [string_decode] at h
  | succ fuel ih =>
    intro c p acc st0 hcap hst htop hne ret rest bytes h
    have herr : ∀ r : syjson_parse_ret, r ≠ SYJSON_PARSE_OK →
        ∃ c', (outcome.ok (r, STRING_ERROR c head, ([] : List Nat), 0)
              : outcome (syjson_parse_ret × syjson_content × List Nat × Nat))
            = .ok (r, c', [], ([] : List Nat).length)
          ∧ c'.stack = st0 ∧ c'.top = head ∧ c.size ≤ c'.size ∧ c'.size ≠ 1
          ∧ (r = SYJSON_PARSE_OK → c'.json = rest ∧ (([] : List Nat) ≠ [] → c'.size ≠ 0))
          ∧ (r ≠ SYJSON_PARSE_OK → c'.json = c.json) := by
      intro r hr
      refine ⟨STRING_ERROR c head, rfl, ?_⟩
      rw [STRING_ERROR_spec c head acc st0 hst htop]
      exact ⟨rfl, rfl, le_refl _, hcap, fun h => absurd h hr, fun _ => rfl⟩
    have hstep : ∀ (bs : List Nat) (c1 : syjson_content) (q : List Nat),
        c1.json = c.json → c1.stack = (bs.map stack_cell.byte).reverse ++ c.stack →
        c1.top = c.top + bs.length → c.size ≤ c1.size → c1.size ≠ 1 →
        (bs ≠ [] → c1.size ≠ 0) →
        string_decode fuel q (acc ++ bs) = some (ret, rest, bytes) →
        ∃ c', syjson_string_loop head fuel c1 q = .ok (ret, c', bytes, bytes.length)
          ∧ c'.stack = st0 ∧ c'.top = head ∧ c.size ≤ c'.size ∧ c'.size ≠ 1
          ∧ (ret = SYJSON_PARSE_OK → c'.json = rest ∧ (bytes ≠ [] → c'.size ≠ 0))
          ∧ (ret ≠ SYJSON_PARSE_OK → c'.json = c.json) := by
      intro bs c1 q hj hs ht hsz hc1 hn0 hd
      obtain ⟨c', e, a1, a2, a3, a4, a5, a6⟩ := ih c1 q (acc ++ bs) st0 hc1
        (by simp [hs, hst]) (by simp [ht, htop]; omega)
        (by
          intro hab
          by_cases hb : bs = []
          · subst hb
            have : acc ≠ [] := by simpa using hab
            have := hne this
            omega
          · exact hn0 hb)
        ret rest bytes hd
      exact ⟨c', e, a1, a2, by omega, a4, a5, fun h => (a6 h).trans hj⟩
    rw [string_decode] at h
    rw [syjson_string_loop]
    simp only at h ⊢
    by_cases h1 : p.headD 0 = 0x22
    · simp only [h1, if_true] at h ⊢
      simp only [Option.some.injEq, Prod.mk.injEq] at h
      obtain ⟨rfl, rfl, rfl⟩ := h
      have hlen : c.top - head = acc.length := by omega
      refine ⟨{ json := p.tail, stack := st0, size := c.size, top := head }, ?_, rfl, rfl,
        le_refl _, hcap, fun _ => ⟨rfl, hne⟩, fun h => absurd rfl h⟩
      simp [syjson_content_pop, outcome.bind, hlen, hst, stack_split_bytes, cell_chars_bytes,
        htop]
    simp only [h1, if_false] at h ⊢
    by_cases h2 : p.headD 0 = 0x5C
    · simp only [h2, if_true] at h ⊢
      cases hesc : string_escape (p.tail.headD 0) with
      | some b =>
        simp only [hesc] at h ⊢
        obtain ⟨sz, e, a1, a2⟩ := PUTC_ok c b hcap
        rw [e]
        simp only [outcome.bind]
        exact hstep [b % 256] _ _ rfl (by simp) (by simp) a1 (by simp only; omega)
          (fun _ => by simp only; omega) h
      | none =>
        simp only [hesc] at h ⊢
        by_cases h3 : p.tail.headD 0 = 0x75
        · simp only [h3, if_true] at h ⊢
          cases hu : string_unicode p.tail.tail with
          | error r =>
            simp only [hu] at h ⊢
            simp only [Option.some.injEq, Prod.mk.injEq] at h
            obtain ⟨rfl, rfl, rfl⟩ := h
            have hr : r ≠ SYJSON_PARSE_OK := by
              unfold string_unicode at hu
              intro hr
              subst hr
              split at hu
              · simp at hu
              · split at hu
                · split at hu
                  · simp at hu
                  · split at hu
                    · simp at hu
                    · split at hu
                      · simp at hu
                      · split at hu <;> simp at hu
                · simp at hu
            exact herr r hr
          | ok pu =>
            obtain ⟨q, u⟩ := pu
            simp only [hu] at h ⊢
            obtain ⟨sz, e, a1, a2, a3⟩ := encode_utf8_ok c u hcap
            rw [e]
            simp only [outcome.bind]
            exact hstep (utf8_pushed u) _ _ rfl rfl rfl a1 a2 a3 h
        · simp only [h3, if_false] at h ⊢
          simp only [Option.some.injEq, Prod.mk.injEq] at h
          obtain ⟨rfl, rfl, rfl⟩ := h
          exact herr _ (by decide)
    simp only [h2, if_false] at h ⊢
    by_cases h4 : p.headD 0 = 0
    · simp only [h4, if_true] at h ⊢
      simp only [Option.some.injEq, Prod.mk.injEq] at h
      obtain ⟨rfl, rfl, rfl⟩ := h
      exact herr _ (by decide)
    simp only [h4, if_false] at h ⊢
    by_cases h5 : p.headD 0 < 0x20 ∨ p.headD 0 = 0x7F
    · simp only [h5, if_true] at h ⊢
      simp only [Option.some.injEq, Prod.mk.injEq] at h
      obtain ⟨rfl, rfl, rfl⟩ := h
      exact herr _ (by decide)
    simp only [h5, if_false] at h ⊢
    obtain ⟨sz, e, a1, a2⟩ := PUTC_ok c (p.headD 0) hcap
    rw [e]
    simp only [outcome.bind]
    exact hstep [p.headD 0 % 256] _ _ rfl (by simp) (by simp) a1 (by simp only; omega)
      (fun _ => by simp only; omega) h



theorem stack_split_values (vs : List syjson_value) (st : List stack_cell) :
    stack_split ((vs.map stack_cell.value).reverse ++ st) (vs.length * sizeof_syjson_value)
      = (vs.map stack_cell.value, st) := by
  induction vs using List.reverseRecOn generalizing st with
  | nil => cases st <;> simp [stack_split]
  | append_singleton vs b ih =>
    simp only [List.map_append, List.map_cons, List.map_nil, List.reverse_append,
      List.reverse_cons, List.reverse_nil, List.nil_append, List.singleton_append,
      List.cons_append, List.length_append, List.length_singleton]
    rw [stack_split]
    have h : ¬ (vs.length + 1) * sizeof_syjson_value = 0 := by simp [sizeof_syjson_value]
    have h2 : (vs.length + 1) * sizeof_syjson_value - sizeof_syjson_value
        = vs.length * sizeof_syjson_value := by
      rw [Nat.add_mul]; simp
    simp [stack_cell.bytes, ih, h, h2]

theorem stack_split_members (ms : List syjson_member) (st : List stack_cell) :
    stack_split ((ms.map stack_cell.member).reverse ++ st) (sizeof_syjson_member * ms.length)
      = (ms.map stack_cell.member, st) := by
  induction ms using List.reverseRecOn generalizing st with
  | nil => cases st <;> simp [stack_split]
  | append_singleton ms b ih =>
    simp only [List.map_append, List.map_cons, List.map_nil, List.reverse_append,
      List.reverse_cons, List.reverse_nil, List.nil_append, List.singleton_append,
      List.cons_append, List.length_append, List.length_singleton]
    rw [stack_split]
    have h : ¬ sizeof_syjson_member * (ms.length + 1) = 0 := by simp [sizeof_syjson_member]
    have h2 : sizeof_syjson_member * (ms.length + 1) - sizeof_syjson_member
        = sizeof_syjson_member * ms.length := by
      rw [Nat.mul_add]; simp
    simp [stack_cell.bytes, ih, h, h2]

theorem cell_values_map (vs : List syjson_value) :
    cell_values (vs.map stack_cell.value) = vs := by
  induction vs with
  | nil => rfl
  | cons b bs ih => simp [cell_values, ih]

theorem cell_members_map (ms : List syjson_member) :
    cell_members (ms.map stack_cell.member) = ms := by
  induction ms with
  | nil => rfl
  | cons b bs ih => simp [cell_members, ih]

theorem array_unwind_ok (vs : List syjson_value) :
    ∀ (c : syjson_content) (st0 : List stack_cell) (t0 : Nat),
      c.stack = (vs.map stack_cell.value).reverse ++ st0 →
      c.top = t0 + vs.length * sizeof_syjson_value →
      array_unwind vs.length c
        = .ok { json := c.json, stack := st0, size := c.size, top := t0 } := by
  induction vs using List.reverseRecOn with
  | nil =>
    intro c st0 t0 hs ht
    simp at hs ht
    simp [array_unwind, ← hs, ← ht]
  | append_singleton vs b ih =>
    intro c st0 t0 hs ht
    simp only [List.length_append, List.length_singleton]
    rw [array_unwind]
    have hlt : ¬ c.top < sizeof_syjson_value := by
      rw [ht]; simp only [List.length_append, List.length_singleton, Nat.add_mul, Nat.one_mul]; omega
    have hsp : stack_split c.stack sizeof_syjson_value
        = ([stack_cell.value b], (vs.map stack_cell.value).reverse ++ st0) := by
      have := stack_split_values [b] ((vs.map stack_cell.value).reverse ++ st0)
      simpa [hs] using this
    simp only [syjson_content_pop, hlt, if_false, outcome.bind, hsp]
    rw [ih _ st0 t0 rfl (by simp only [ht, List.length_append, List.length_singleton,
      Nat.add_mul, Nat.one_mul]; omega)]

theorem object_unwind_ok (ms : List syjson_member) :
    ∀ (c : syjson_content) (st0 : List stack_cell) (t0 : Nat),
      c.stack = (ms.map stack_cell.member).reverse ++ st0 →
      c.top = t0 + sizeof_syjson_member * ms.length →
      object_unwind ms.length c
        = .ok { json := c.json, stack := st0, size := c.size, top := t0 } := by
  induction ms using List.reverseRecOn with
  | nil =>
    intro c st0 t0 hs ht
    simp at hs ht
    simp [object_unwind, ← hs, ← ht]
  | append_singleton ms b ih =>
    intro c st0 t0 hs ht
    simp only [List.length_append, List.length_singleton]
    rw [object_unwind]
    have hlt : ¬ c.top < sizeof_syjson_member := by
      rw [ht]; simp only [List.length_append, List.length_singleton, Nat.mul_add, Nat.mul_one]; omega
    have hsp : stack_split c.stack sizeof_syjson_member
        = ([stack_cell.member b], (ms.map stack_cell.member).reverse ++ st0) := by
      have := stack_split_members [b] ((ms.map stack_cell.member).reverse ++ st0)
      simpa [hs] using this
    simp only [syjson_content_pop, hlt, if_false, outcome.bind, hsp]
    rw [ih _ st0 t0 rfl (by simp only [ht, List.length_append, List.length_singleton,
      Nat.mul_add, Nat.mul_one]; omega)]

theorem string_to_value_sound (c : syjson_content) (hcap : c.size ≠ 1)
    (hq : c.cur = 0x22) (ret : syjson_parse_ret) (rest bytes : List Nat)
    (h : string_pure c.json = some (ret, rest, bytes)) :
    ∃ c', syjson_string_to_value c = .ok (ret, c', bytes, bytes.length)
      ∧ c'.stack = c.stack ∧ c'.top = c.top ∧ c.size ≤ c'.size ∧ c'.size ≠ 1
      ∧ (ret = SYJSON_PARSE_OK → c'.json = rest ∧ (bytes ≠ [] → c'.size ≠ 0)) := by
  unfold string_pure at h
  obtain ⟨c', e, a1, a2, a3, a4, a5, _⟩ := string_loop_sound c.top
    (c.json.tail.length + 1) c.advance c.json.tail [] c.stack hcap (by simp [syjson_content.advance])
    (by simp [syjson_content.advance]) (fun h => absurd rfl h) ret rest bytes h
  refine ⟨c', ?_, a1, a2, a3, a4, a5⟩
  simp only [syjson_string_to_value, hq, ne_eq, not_true_eq_false, if_false]
  exact e

theorem parse_string_sound (c : syjson_content) (v : syjson_value) (hcap : c.size ≠ 1)
    (hq : c.cur = 0x22) (ret : syjson_parse_ret) (rest bytes : List Nat)
    (h : string_pure c.json = some (ret, rest, bytes)) :
    ∃ c', syjson_parse_string c v
        = .ok (ret, c', if ret = SYJSON_PARSE_OK then
                          .mk SYJSON_STR (.str (bytes ++ [0]) bytes.length) else v)
      ∧ c'.stack = c.stack ∧ c'.top = c.top ∧ c.size ≤ c'.size ∧ c'.size ≠ 1
      ∧ (ret = SYJSON_PARSE_OK → c'.json = rest) := by
  obtain ⟨c', e, a1, a2, a3, a4, a5⟩ := string_to_value_sound c hcap hq ret rest bytes h
  refine ⟨c', ?_, a1, a2, a3, a4, fun hr => (a5 hr).1⟩
  unfold syjson_parse_string
  rw [e]
  simp only [outcome.bind]
  by_cases hr : ret = SYJSON_PARSE_OK
  · simp only [hr, if_true]
    have hsz := (a5 hr).2
    by_cases hb : bytes = []
    · subst hb
      by_cases h0 : c'.size = 0 <;>
        simp [syjson_set_string, h0, outcome.bind, syjson_value.set_type, syjson_value.type,
          syjson_free]
    · have h0 := hsz hb
      simp [syjson_set_string, h0, outcome.bind, syjson_value.set_type, syjson_value.type,
        syjson_free]
  · simp [hr]



theorem literal_sound (c : syjson_content) (v : syjson_value) (lit : List Nat)
    (t : syjson_type) (h : c.cur = lit.headD 0) :
    syjson_parse_literal c v lit t
      = .ok ((literal_pure c.json v lit t).1,
             { json := (literal_pure c.json v lit t).2.1, stack := c.stack, size := c.size,
               top := c.top },
             (literal_pure c.json v lit t).2.2) := by
  unfold syjson_parse_literal literal_pure
  simp only [h, ne_eq, not_true_eq_false, if_false, syjson_content.advance]
  split <;> rfl

theorem number_sound (strtod : List Nat → Nat) (c : syjson_content) (v : syjson_value) :
    syjson_parse_number strtod c v
      = ((number_pure strtod c.json v).1,
         { json := (number_pure strtod c.json v).2.1, stack := c.stack, size := c.size,
           top := c.top },
         (number_pure strtod c.json v).2.2) := by
  unfold number_pure syjson_parse_number blank
  simp only
  cases syjson_number_scan c.json with
  | none => rfl
  | some p => simp only; split <;> rfl

theorem returns_with_same (ret : syjson_parse_ret) (c : syjson_content) (v : syjson_value)
    (rest : List Nat) (hcap : c.size ≠ 1) :
    returns_with (.ok (ret, { json := rest, stack := c.stack, size := c.size, top := c.top }, v))
      ret rest v c c.stack c.top :=
  ⟨_, rfl, rfl, rfl, le_refl _, hcap, fun _ => rfl⟩

theorem value_sound_step (strtod : List Nat → Nat) (fuel : Nat)
    (iha : array_sound strtod fuel) (iho : object_sound strtod fuel) :
    value_sound strtod (fuel + 1) := by
  intro c v ret rest v' hcap h
  rw [value_pure] at h
  rw [syjson_parse_value]
  have hcur : c.cur = c.json.headD 0 := rfl
  simp only [hcur]
  by_cases h1 : c.json.headD 0 = 0x6E
  · simp only [h1, if_true] at h ⊢
    rw [literal_sound c v lit_null SYJSON_NULL (by rw [hcur, h1]; rfl)]
    simp only [Option.some.injEq] at h
    rw [h]
    exact returns_with_same ret c v' rest hcap
  simp only [h1, if_false] at h ⊢
  by_cases h2 : c.json.headD 0 = 0x66
  · simp only [h2, if_true] at h ⊢
    rw [literal_sound c v lit_false SYJSON_FALSE (by rw [hcur, h2]; rfl)]
    simp only [Option.some.injEq] at h
    rw [h]
    exact returns_with_same ret c v' rest hcap
  simp only [h2, if_false] at h ⊢
  by_cases h3 : c.json.headD 0 = 0x74
  · simp only [h3, if_true] at h ⊢
    rw [literal_sound c v lit_true SYJSON_TRUE (by rw [hcur, h3]; rfl)]
    simp only [Option.some.injEq] at h
    rw [h]
    exact returns_with_same ret c v' rest hcap
  simp only [h3, if_false] at h ⊢
  by_cases h4 : c.json.headD 0 = 0x22
  · simp only [h4, if_true] at h ⊢
    cases hs : string_pure c.json with
    | none => simp [hs] at h
    | some r =>
      obtain ⟨r1, r2, r3⟩ := r
      simp only [hs, Option.map_some', Option.some.injEq] at h
      obtain ⟨c', e, a1, a2, a3, a4, a5⟩ := parse_string_sound c v hcap h4 r1 r2 r3 hs
      by_cases hr : r1 = SYJSON_PARSE_OK
      · simp only [hr, if_true, Prod.mk.injEq] at h e
        obtain ⟨rfl, rfl, rfl⟩ := h
        exact ⟨c', e, a1, a2, a3, a4, fun _ => a5 hr⟩
      · simp only [hr, if_false, Prod.mk.injEq] at h e
        obtain ⟨rfl, rfl, rfl⟩ := h
        exact ⟨c', e, a1, a2, a3, a4, fun h => absurd h hr⟩
  simp only [h4, if_false] at h ⊢
  by_cases h5 : c.json.headD 0 = 0x5B
  · simp only [h5, if_true] at h ⊢
    exact iha c v ret rest v' hcap h5 h
  simp only [h5, if_false] at h ⊢
  by_cases h6 : c.json.headD 0 = 0x7B
  · simp only [h6, if_true] at h ⊢
    exact iho c v ret rest v' hcap h6 h
  simp only [h6, if_false] at h ⊢
  by_cases h7 : c.json.headD 0 = 0
  · simp only [h7, if_true] at h ⊢
    simp only [Option.some.injEq, Prod.mk.injEq] at h
    obtain ⟨rfl, rfl, rfl⟩ := h
    exact ⟨c, rfl, rfl, rfl, le_refl _, hcap, fun h => by cases h⟩
  simp only [h7, if_false] at h ⊢
  rw [number_sound]
  simp only [Option.some.injEq] at h
  rw [h]
  exact returns_with_same ret c v' rest hcap

theorem array_sound_step (strtod : List Nat → Nat) (fuel : Nat)
    (ihl : array_loop_sound strtod fuel) : array_sound strtod (fuel + 1) := by
  intro c v ret rest v' hcap hcur h
  rw [array_pure] at h
  rw [syjson_parse_array]
  simp only [hcur, ne_eq, not_true_eq_false, if_false]
  have hws : (syjson_parse_whitespace c.advance).cur
      = (c.json.tail.dropWhile is_space).headD 0 := rfl
  simp only [hws]
  by_cases h1 : (c.json.tail.dropWhile is_space).headD 0 = 0x5D
  · simp only [h1, if_true] at h ⊢
    simp only [Option.some.injEq, Prod.mk.injEq] at h
    obtain ⟨rfl, rfl, rfl⟩ := h
    exact ⟨_, rfl, rfl, rfl, le_refl _, hcap, fun _ => rfl⟩
  · simp only [h1, if_false] at h ⊢
    exact ihl (syjson_parse_whitespace c.advance) v [] c.stack c.top ret rest v' hcap
      rfl (by simp [syjson_parse_whitespace, syjson_content.advance]) h



theorem array_loop_sound_step (strtod : List Nat → Nat) (fuel : Nat)
    (ihv : value_sound strtod fuel) (ihl : array_loop_sound strtod fuel) :
    array_loop_sound strtod (fuel + 1) := by
  intro c v acc st0 t0 ret rest v' hcap hst htop h
  have hpos : 0 < sizeof_syjson_value := by decide
  rw [array_loop_pure] at h
  rw [syjson_parse_array_loop]
  cases hv : value_pure strtod fuel c.json (.mk SYJSON_NULL .uninit) with
  | none => simp [hv] at h
  | some r =>
    obtain ⟨r1, r2, e⟩ := r
    simp only [hv, Option.some_bind] at h
    obtain ⟨c1, e1, s1, t1, z1, k1, j1⟩ := ihv c _ r1 r2 e hcap hv
    rw [e1]
    simp only [outcome.bind]
    by_cases hr : r1 = SYJSON_PARSE_OK
    · have hj := j1 hr
      simp only [hr, ne_eq, not_true_eq_false, if_false] at h ⊢
      obtain ⟨sz, ep, p1, p2⟩ := push_ok c1 sizeof_syjson_value k1 (by decide)
      rw [ep]
      simp only [outcome.bind, stack_store, List.tail_cons]
      have hws : (syjson_parse_whitespace
          { json := c1.json, stack := stack_cell.value e :: c1.stack, size := sz,
            top := c1.top + sizeof_syjson_value }).cur
          = (r2.dropWhile is_space).headD 0 := by
        simp [syjson_parse_whitespace, syjson_content.cur, hj]
      simp only [hws]
      have hstk : stack_cell.value e :: c1.stack
          = ((acc ++ [e]).map stack_cell.value).reverse ++ st0 := by
        simp [s1, hst]
      have htp : c1.top + sizeof_syjson_value
          = t0 + (acc ++ [e]).length * sizeof_syjson_value := by
        rw [t1, htop, List.length_append, List.length_singleton, Nat.add_mul, Nat.one_mul,
          Nat.add_assoc]
      by_cases h1 : (r2.dropWhile is_space).headD 0 = 0x2C
      · simp only [h1, if_true] at h ⊢
        have := ihl (syjson_parse_whitespace (syjson_parse_whitespace
          { json := c1.json, stack := stack_cell.value e :: c1.stack, size := sz,
            top := c1.top + sizeof_syjson_value }).advance) v (acc ++ [e]) st0 t0 ret rest v'
          (by simp only [syjson_parse_whitespace, syjson_content.advance]; omega)
          (by simp only [syjson_parse_whitespace, syjson_content.advance]; exact hstk)
          (by simp only [syjson_parse_whitespace, syjson_content.advance]; exact htp)
          (by simpa [syjson_parse_whitespace, syjson_content.advance, hj] using h)
        simp only [List.length_append, List.length_singleton] at this
        obtain ⟨c', a0, a1, a2, a3, a4, a5⟩ := this
        refine ⟨c', a0, a1, a2, ?_, a4, a5⟩
        simp only [syjson_parse_whitespace, syjson_content.advance] at a3
        omega
      · simp only [h1, if_false] at h ⊢
        by_cases h2 : (r2.dropWhile is_space).headD 0 = 0x5D
        · simp only [h2, if_true] at h ⊢
          simp only [Option.some.injEq, Prod.mk.injEq] at h
          obtain ⟨rfl, rfl, rfl⟩ := h
          have hsp := stack_split_values (acc ++ [e]) st0
          rw [← hstk] at hsp
          simp only [List.length_append, List.length_singleton] at hsp htp
          have hlt : ¬ c1.top + sizeof_syjson_value
              < (acc.length + 1) * sizeof_syjson_value := by omega
          refine ⟨{ json := (r2.dropWhile is_space).tail, stack := st0, size := sz,
                    top := t0 }, ?_, rfl, rfl, by simp only; omega, by simp only; omega,
                  fun _ => rfl⟩
          simp only [syjson_content_pop, syjson_parse_whitespace, syjson_content.advance,
            hlt, if_false, outcome.bind, hsp, cell_values_map, hj]
          congr 3
          simp only [syjson_content.mk.injEq, true_and]
          omega
        · simp only [h2, if_false] at h ⊢
          simp only [Option.some.injEq, Prod.mk.injEq] at h
          obtain ⟨rfl, rfl, rfl⟩ := h
          have hu := array_unwind_ok (acc ++ [e]) (syjson_parse_whitespace
            { json := c1.json, stack := stack_cell.value e :: c1.stack, size := sz,
              top := c1.top + sizeof_syjson_value }) st0 t0
            (by simp only [syjson_parse_whitespace]; exact hstk)
            (by simp only [syjson_parse_whitespace]; exact htp)
          simp only [List.length_append, List.length_singleton] at hu
          refine ⟨{ json := r2.dropWhile is_space, stack := st0, size := sz, top := t0 },
            ?_, rfl, rfl, ?_, ?_, fun h => by cases h⟩
          · rw [array_fail, hu]
            simp only [outcome.bind, syjson_parse_whitespace, hj]
          · simp only; omega
          · simp only; omega
    · simp only [hr, ne_eq, not_false_eq_true, if_true] at h ⊢
      simp only [Option.some.injEq, Prod.mk.injEq] at h
      obtain ⟨rfl, rfl, rfl⟩ := h
      have hu := array_unwind_ok acc c1 st0 t0 (by rw [s1, hst]) (by rw [t1, htop])
      refine ⟨{ json := c1.json, stack := st0, size := c1.size, top := t0 },
        ?_, rfl, rfl, z1, k1, fun h => absurd h hr⟩
      simp only [array_fail, hu, outcome.bind]



theorem object_sound_step (strtod : List Nat → Nat) (fuel : Nat)
    (ihl : object_loop_sound strtod fuel) : object_sound strtod (fuel + 1) := by
  intro c v ret rest v' hcap hcur h
  rw [object_pure] at h
  rw [syjson_parse_object]
  simp only [hcur, ne_eq, not_true_eq_false, if_false]
  have hws : (syjson_parse_whitespace c.advance).cur
      = (c.json.tail.dropWhile is_space).headD 0 := rfl
  simp only [hws]
  by_cases h1 : (c.json.tail.dropWhile is_space).headD 0 = 0x7D
  · simp only [h1, if_true] at h ⊢
    simp only [Option.some.injEq, Prod.mk.injEq] at h
    obtain ⟨rfl, rfl, rfl⟩ := h
    exact ⟨_, rfl, rfl, rfl, le_refl _, hcap, fun _ => rfl⟩
  · simp only [h1, if_false] at h ⊢
    exact ihl (syjson_parse_whitespace c.advance) v (.mk [] 0 (.mk SYJSON_NULL .uninit)) []
      c.stack c.top ret rest v' hcap
      rfl (by simp [syjson_parse_whitespace, syjson_content.advance]) h

theorem object_fail_ok (acc : List syjson_member) (c : syjson_content)
    (st0 : List stack_cell) (t0 : Nat) (ret : syjson_parse_ret) (v : syjson_value)
    (hs : c.stack = (acc.map stack_cell.member).reverse ++ st0)
    (ht : c.top = t0 + sizeof_syjson_member * acc.length) :
    object_fail c acc.length ret v
      = .ok (ret, { json := c.json, stack := st0, size := c.size, top := t0 },
             v.set_type SYJSON_NULL) := by
  rw [object_fail, object_unwind_ok acc c st0 t0 hs ht]
  rfl

theorem object_loop_sound_step (strtod : List Nat → Nat) (fuel : Nat)
    (ihv : value_sound strtod fuel) (ihl : object_loop_sound strtod fuel) :
    object_loop_sound strtod (fuel + 1) := by
  intro c v m acc st0 t0 ret rest v' hcap hst htop h
  have hpos : 0 < sizeof_syjson_member := by decide
  rw [object_loop_pure] at h
  rw [syjson_parse_object_loop]
  have hcur : c.cur = c.json.headD 0 := rfl
  simp only [hcur]
  by_cases hq : c.json.headD 0 = 0x22
  swap
  · simp only [ne_eq, hq, not_false_eq_true, if_true] at h ⊢
    simp only [Option.some.injEq, Prod.mk.injEq] at h
    obtain ⟨rfl, rfl, rfl⟩ := h
    exact ⟨_, object_fail_ok acc c st0 t0 _ v hst htop, rfl, rfl, le_refl _, hcap,
      fun h => by cases h⟩
  simp only [ne_eq, hq, not_true_eq_false, if_false] at h ⊢
  cases hs : string_pure c.json with
  | none => simp [hs] at h
  | some sr =>
    obtain ⟨k1, k2, k3⟩ := sr
    simp only [hs, Option.some_bind] at h
    obtain ⟨c0, e0, s0, t0', z0, cap0, j0⟩ :=
      string_to_value_sound c hcap hq k1 k2 k3 hs
    rw [e0]
    simp only [outcome.bind]
    by_cases hk : k1 = SYJSON_PARSE_OK
    swap
    · simp only [ne_eq, hk, not_false_eq_true, if_true] at h ⊢
      simp only [Option.some.injEq, Prod.mk.injEq] at h
      obtain ⟨rfl, rfl, rfl⟩ := h
      exact ⟨_, object_fail_ok acc c0 st0 t0 _ v (by rw [s0, hst]) (by rw [t0', htop]),
        rfl, rfl, z0, cap0, fun h => absurd h hk⟩
    have hj0 := (j0 hk).1
    simp only [ne_eq, hk, not_true_eq_false, if_false] at h ⊢
    have hws0 : (syjson_parse_whitespace c0).cur = (k2.dropWhile is_space).headD 0 := by
      simp [syjson_parse_whitespace, syjson_content.cur, hj0]
    simp only [hws0]
    by_cases hc : (k2.dropWhile is_space).headD 0 = 0x3A
    swap
    · simp only [hc, not_false_eq_true, if_true] at h ⊢
      simp only [Option.some.injEq, Prod.mk.injEq] at h
      obtain ⟨rfl, rfl, rfl⟩ := h
      exact ⟨_, object_fail_ok acc (syjson_parse_whitespace c0) st0 t0 _ v
          (by simp only [syjson_parse_whitespace]; rw [s0, hst])
          (by simp only [syjson_parse_whitespace]; rw [t0', htop]),
        rfl, rfl, z0, cap0, fun h => by cases h⟩
    simp only [hc, not_true_eq_false, if_false] at h ⊢
    have hjs : (syjson_parse_whitespace (syjson_parse_whitespace c0).advance).json
        = (k2.dropWhile is_space).tail.dropWhile is_space := by
      simp [syjson_parse_whitespace, syjson_content.advance, hj0]
    cases hv : value_pure strtod fuel ((k2.dropWhile is_space).tail.dropWhile is_space)
        (m.v.set_type SYJSON_NULL) with
    | none => simp [hv] at h
    | some r =>
      obtain ⟨r1, r2, e⟩ := r
      simp only [hv, Option.some_bind] at h
      obtain ⟨c1, e1, s1, t1, z1, cap1, j1⟩ :=
        ihv (syjson_parse_whitespace (syjson_parse_whitespace c0).advance) _ r1 r2 e
          (by simpa [syjson_parse_whitespace, syjson_content.advance] using cap0)
          (by rw [hjs]; exact hv)
      rw [e1]
      simp only [outcome.bind]
      have s1' : c1.stack = (acc.map stack_cell.member).reverse ++ st0 := by
        rw [s1]; simp only [syjson_parse_whitespace, syjson_content.advance]; rw [s0, hst]
      have t1' : c1.top = t0 + sizeof_syjson_member * acc.length := by
        rw [t1]; simp only [syjson_parse_whitespace, syjson_content.advance]; rw [t0', htop]
      have z1' : c.size ≤ c1.size := by
        simp only [syjson_parse_whitespace, syjson_content.advance] at z1; omega
      by_cases hr : r1 = SYJSON_PARSE_OK
      swap
      · simp only [ne_eq, hr, not_false_eq_true, if_true] at h ⊢
        simp only [Option.some.injEq, Prod.mk.injEq] at h
        obtain ⟨rfl, rfl, rfl⟩ := h
        exact ⟨_, object_fail_ok acc c1 st0 t0 _ v s1' t1', rfl, rfl, z1', cap1,
          fun h => absurd h hr⟩
      have hj := j1 hr
      simp only [ne_eq, hr, not_true_eq_false, if_false] at h ⊢
      obtain ⟨sz, ep, p1, p2⟩ := push_ok c1 sizeof_syjson_member cap1 hpos
      rw [ep]
      simp only [outcome.bind, stack_store, List.tail_cons]
      have htake : List.take k3.length k3 = k3 := List.take_length k3
      simp only [htake]
      have hws : (syjson_parse_whitespace
          { json := c1.json,
            stack := stack_cell.member (syjson_member.mk (k3 ++ [0]) k3.length e) :: c1.stack, size := sz,
            top := c1.top + sizeof_syjson_member }).cur
          = (r2.dropWhile is_space).headD 0 := by
        simp [syjson_parse_whitespace, syjson_content.cur, hj]
      simp only [hws]
      have hstk : stack_cell.member (syjson_member.mk (k3 ++ [0]) k3.length e) :: c1.stack
          = ((acc ++ [syjson_member.mk (k3 ++ [0]) k3.length e]).map
              stack_cell.member).reverse ++ st0 := by
        simp [s1']
      have htp : c1.top + sizeof_syjson_member
          = t0 + sizeof_syjson_member * (acc ++ [syjson_member.mk (k3 ++ [0]) k3.length e]).length := by
        rw [t1', List.length_append, List.length_singleton, Nat.mul_add, Nat.mul_one,
          Nat.add_assoc]
      by_cases h1 : (r2.dropWhile is_space).headD 0 = 0x2C
      · simp only [h1, if_true] at h ⊢
        have := ihl (syjson_parse_whitespace
          { json := c1.json,
            stack := stack_cell.member (syjson_member.mk (k3 ++ [0]) k3.length e) :: c1.stack, size := sz,
            top := c1.top + sizeof_syjson_member }).advance v (syjson_member.mk [] k3.length e)
          (acc ++ [syjson_member.mk (k3 ++ [0]) k3.length e]) st0 t0 ret rest v'
          (by simp only [syjson_parse_whitespace, syjson_content.advance]; omega)
          (by simp only [syjson_parse_whitespace, syjson_content.advance]; exact hstk)
          (by simp only [syjson_parse_whitespace, syjson_content.advance]; exact htp)
          (by simpa [syjson_parse_whitespace, syjson_content.advance, hj, syjson_member.v]
              using h)
        simp only [List.length_append, List.length_singleton] at this
        obtain ⟨c', a0, a1, a2, a3, a4, a5⟩ := this
        refine ⟨c', a0, a1, a2, ?_, a4, a5⟩
        simp only [syjson_parse_whitespace, syjson_content.advance] at a3
        omega
      · simp only [h1, if_false] at h ⊢
        by_cases h2 : (r2.dropWhile is_space).headD 0 = 0x7D
        · simp only [h2, if_true] at h ⊢
          simp only [Option.some.injEq, Prod.mk.injEq] at h
          obtain ⟨rfl, rfl, rfl⟩ := h
          have hsp := stack_split_members (acc ++ [syjson_member.mk (k3 ++ [0]) k3.length e]) st0
          rw [← hstk] at hsp
          simp only [List.length_append, List.length_singleton] at hsp htp
          have hlt : ¬ c1.top + sizeof_syjson_member
              < sizeof_syjson_member * (acc.length + 1) := by omega
          refine ⟨{ json := (r2.dropWhile is_space).tail, stack := st0, size := sz,
                    top := t0 }, ?_, rfl, rfl, by simp only; omega, by simp only; omega,
                  fun _ => rfl⟩
          simp only [syjson_content_pop, syjson_parse_whitespace, syjson_content.advance,
            hlt, if_false, outcome.bind, hsp, cell_members_map, hj]
          congr 3
          simp only [syjson_content.mk.injEq, true_and]
          omega
        · simp only [h2, if_false] at h ⊢
          simp only [Option.some.injEq, Prod.mk.injEq] at h
          obtain ⟨rfl, rfl, rfl⟩ := h
          have hu := object_fail_ok (acc ++ [syjson_member.mk (k3 ++ [0]) k3.length e])
            (syjson_parse_whitespace
              { json := c1.json,
                stack := stack_cell.member (syjson_member.mk (k3 ++ [0]) k3.length e) :: c1.stack,
                size := sz, top := c1.top + sizeof_syjson_member }) st0 t0
            SYJSON_PARSE_MISS_COMMA_OR_CURLY_BRACKET v
            (by simp only [syjson_parse_whitespace]; exact hstk)
            (by simp only [syjson_parse_whitespace]; exact htp)
          simp only [List.length_append, List.length_singleton] at hu
          refine ⟨{ json := r2.dropWhile is_space, stack := st0, size := sz, top := t0 },
            ?_, rfl, rfl, ?_, ?_, fun h => by cases h⟩
          · rw [hu]
            simp only [syjson_parse_whitespace, hj]
          · simp only; omega
          · simp only; omega

theorem parser_sound (strtod : List Nat → Nat) : ∀ fuel : Nat,
    value_sound strtod fuel ∧ array_sound strtod fuel ∧ array_loop_sound strtod fuel
      ∧ object_sound strtod fuel ∧ object_loop_sound strtod fuel := by
  intro fuel
  induction fuel with
  | zero =>
    refine ⟨?_, ?_, ?_, ?_, ?_⟩
    · intro c v ret rest v' _ h; simp [value_pure] at h
    · intro c v ret rest v' _ _ h; simp [array_pure] at h
    · intro c v acc st0 t0 ret rest v' _ _ _ h; simp [array_loop_pure] at h
    · intro c v ret rest v' _ _ h; simp [object_pure] at h
    · intro c v m acc st0 t0 ret rest v' _ _ _ h; simp [object_loop_pure] at h
  | succ fuel ih =>
    obtain ⟨hv, ha, hal, ho, hol⟩ := ih
    exact ⟨value_sound_step strtod fuel ha ho, array_sound_step strtod fuel hal,
      array_loop_sound_step strtod fuel hv hal, object_sound_step strtod fuel hol,
      object_loop_sound_step strtod fuel hv hol⟩


/-! ## What the buffer-free functions compute: progress and the type on failure -/

theorem headD_pos {l : List Nat} {x : Nat} (h : l.headD 0 = x) (hx : x ≠ 0) :
    0 < l.length := by
  cases l with
  | nil => simp at h; omega
  | cons a t => simp

theorem length_dropWhile_le (p : Nat → Bool) (l : List Nat) :
    (l.dropWhile p).length ≤ l.length :=
  (List.dropWhile_suffix p).length_le

theorem hex4_loop_length :
    ∀ (i : Nat) (p : List Nat) (u : Nat) (q : List Nat) (w : Nat),
      hex4_loop i p u = some (q, w) → q.length ≤ p.length := by
  intro i
  induction i with
  | zero =>
    intro p u q w h
    simp only [hex4_loop, Option.some.injEq, Prod.mk.injEq] at h
    rw [← h.1]
  | succ i ih =>
    intro p u q w h
    rw [hex4_loop] at h
    try simp only at h
    have ht : p.tail.length ≤ p.length := by simp
    split at h
    · exact (ih _ _ _ _ h).trans ht
    · split at h
      · exact (ih _ _ _ _ h).trans ht
      · split at h
        · exact (ih _ _ _ _ h).trans ht
        · cases h

theorem string_unicode_length (p q : List Nat) (u : Nat)
    (h : string_unicode p = .ok (q, u)) : q.length ≤ p.length := by
  unfold string_unicode at h
  cases h1 : syjson_parse_hex4 p with
  | none => simp [h1] at h
  | some r =>
    obtain ⟨p1, u1⟩ := r
    have l1 := hex4_loop_length 4 p 0 p1 u1 h1
    simp only [h1] at h
    split at h
    · split at h
      · cases h
      · split at h
        · cases h
        · cases h2 : syjson_parse_hex4 p1.tail.tail with
          | none => simp [h2] at h
          | some r2 =>
            obtain ⟨p2, u2⟩ := r2
            have l2 := hex4_loop_length 4 _ 0 p2 u2 h2
            simp only [h2] at h
            split at h
            · cases h
            · simp only [Except.ok.injEq, Prod.mk.injEq] at h
              rw [← h.1]
              have : p1.tail.tail.length ≤ p1.length := by simp; omega
              omega
    · simp only [Except.ok.injEq, Prod.mk.injEq] at h
      rw [← h.1]
      exact l1

theorem string_unicode_error (p : List Nat) (r : syjson_parse_ret)
    (hu : string_unicode p = .error r) : r ≠ SYJSON_PARSE_OK := by
  unfold string_unicode at hu
  intro hr
  subst hr
  split at hu
  · simp at hu
  · split at hu
    · split at hu
      · simp at hu
      · split at hu
        · simp at hu
        · split at hu
          · simp at hu
          · split at hu <;> simp at hu
    · simp at hu

theorem string_decode_shrinks :
    ∀ (fuel : Nat) (p acc rest bytes : List Nat),
      string_decode fuel p acc = some (SYJSON_PARSE_OK, rest, bytes) →
      rest.length < p.length := by
  intro fuel
  induction fuel with
  | zero => intro p acc rest bytes h; simp [string_decode] at h
  | succ fuel ih =>
    intro p acc rest bytes h
    rw [string_decode] at h
    try simp only at h
    have ht : p.tail.length = p.length - 1 := by simp
    by_cases h1 : p.headD 0 = 0x22
    · have hp := headD_pos h1 (by decide)
      simp only [h1, if_true, Option.some.injEq, Prod.mk.injEq, true_and] at h
      rw [← h.1]; omega
    simp only [h1, if_false] at h
    by_cases h2 : p.headD 0 = 0x5C
    · have hp := headD_pos h2 (by decide)
      simp only [h2, if_true] at h
      cases hesc : string_escape (p.tail.headD 0) with
      | some b =>
        simp only [hesc] at h
        have := ih _ _ _ _ h
        have : p.tail.tail.length ≤ p.tail.length := by simp
        omega
      | none =>
        simp only [hesc] at h
        by_cases h3 : p.tail.headD 0 = 0x75
        · simp only [h3, if_true] at h
          cases hu : string_unicode p.tail.tail with
          | error r =>
            simp only [hu, Option.some.injEq, Prod.mk.injEq] at h
            exact absurd h.1 (string_unicode_error _ _ hu)
          | ok pu =>
            obtain ⟨q, u⟩ := pu
            simp only [hu] at h
            have := ih _ _ _ _ h
            have := string_unicode_length _ _ _ hu
            have : p.tail.tail.length ≤ p.tail.length := by simp
            omega
        · simp only [h3, if_false] at h; simp at h
    simp only [h2, if_false] at h
    by_cases h4 : p.headD 0 = 0
    · simp only [h4, if_true] at h; simp at h
    simp only [h4, if_false] at h
    have hp := headD_pos rfl h4
    by_cases h5 : p.headD 0 < 0x20 ∨ p.headD 0 = 0x7F
    · simp only [h5, if_true] at h; simp at h
    simp only [h5, if_false] at h
    have := ih _ _ _ _ h
    omega

theorem string_decode_total :
    ∀ (fuel : Nat) (p acc : List Nat), p.length < fuel →
      ∃ r, string_decode fuel p acc = some r := by
  intro fuel
  induction fuel with
  | zero => intro p acc h; omega
  | succ fuel ih =>
    intro p acc hf
    rw [string_decode]
    try simp only
    have ht : p.tail.length = p.length - 1 := by simp
    by_cases h1 : p.headD 0 = 0x22
    · simp only [h1, if_true]; exact ⟨_, rfl⟩
    simp only [h1, if_false]
    by_cases h2 : p.headD 0 = 0x5C
    · have hp := headD_pos h2 (by decide)
      simp only [h2, if_true]
      have htt : p.tail.tail.length ≤ p.tail.length := by simp
      cases hesc : string_escape (p.tail.headD 0) with
      | some b => exact ih _ _ (by omega)
      | none =>
        try simp only
        by_cases h3 : p.tail.headD 0 = 0x75
        · simp only [h3, if_true]
          cases hu : string_unicode p.tail.tail with
          | error r => exact ⟨_, rfl⟩
          | ok pu =>
            obtain ⟨q, u⟩ := pu
            have := string_unicode_length _ _ _ hu
            exact ih _ _ (by omega)
        · simp only [h3, if_false]; exact ⟨_, rfl⟩
    simp only [h2, if_false]
    by_cases h4 : p.headD 0 = 0
    · simp only [h4, if_true]; exact ⟨_, rfl⟩
    simp only [h4, if_false]
    have hp := headD_pos rfl h4
    by_cases h5 : p.headD 0 < 0x20 ∨ p.headD 0 = 0x7F
    · simp only [h5, if_true]; exact ⟨_, rfl⟩
    simp only [h5, if_false]
    exact ih _ _ (by omega)

theorem string_pure_total (json : List Nat) : ∃ r, string_pure json = some r :=
  string_decode_total _ _ _ (Nat.lt_succ_self _)

theorem string_pure_shrinks (json rest bytes : List Nat)
    (h : string_pure json = some (SYJSON_PARSE_OK, rest, bytes)) :
    rest.length < json.length := by
  have := string_decode_shrinks _ _ _ _ _ h
  have : json.tail.length ≤ json.length := by simp
  omega

theorem number_scan_shrinks (json p : List Nat) (h : syjson_number_scan json = some p) :
    p.length < json.length := by
  unfold syjson_number_scan at h
  have hs : (number_sign json).length ≤ json.length := by
    unfold number_sign; split <;> simp
  cases hi : number_int (number_sign json) with
  | none => simp [hi] at h
  | some p1 =>
    simp only [hi, Option.some_bind] at h
    have l1 : p1.length < (number_sign json).length := by
      unfold number_int at hi
      split at hi
      · rename_i h0
        have := headD_pos h0 (by decide)
        simp only [Option.some.injEq] at hi
        rw [← hi]; simp; omega
      · split at hi
        · rename_i h0 h9
          have hpos : 0 < (number_sign json).length := by
            cases hj : number_sign json with
            | nil => rw [hj] at h9; simp [ISDIGIT1TO9] at h9
            | cons a t => simp
          simp only [Option.some.injEq] at hi
          rw [← hi]
          have := length_dropWhile_le ISDIGIT (number_sign json).tail
          have : (number_sign json).tail.length = (number_sign json).length - 1 := by simp
          omega
        · cases hi
    cases hf : number_frac p1 with
    | none => simp [hf] at h
    | some p2 =>
      simp only [hf, Option.some_bind] at h
      have l2 : p2.length ≤ p1.length := by
        unfold number_frac at hf
        by_cases hd : p1.headD 0 = 0x2E
        · by_cases hg : ISDIGIT (p1.tail.headD 0) = true
          · simp only [hd, hg, if_true, Option.some.injEq] at hf
            rw [← hf]
            have := length_dropWhile_le ISDIGIT p1.tail.tail
            have : p1.tail.tail.length ≤ p1.length := by simp; omega
            omega
          · simp only [hd, hg, if_true, if_false] at hf
            cases hf
        · simp only [hd, if_false, Option.some.injEq] at hf
          rw [hf]
      have l3 : p.length ≤ p2.length := by
        unfold number_exp at h
        by_cases he : p2.headD 0 = 0x65 ∨ p2.headD 0 = 0x45
        · rw [if_pos he] at h
          by_cases hsg : p2.tail.headD 0 = 0x2D ∨ p2.tail.headD 0 = 0x2B
          · by_cases hg : ISDIGIT (p2.tail.tail.headD 0) = true
            · simp only [hsg, hg, if_true, Option.some.injEq] at h
              rw [← h]
              refine (length_dropWhile_le ISDIGIT _).trans ?_
              simp; omega
            · simp only [hsg, hg, if_true, if_false] at h
              cases h
          · by_cases hg : ISDIGIT (p2.tail.headD 0) = true
            · simp only [hsg, hg, if_true, if_false, Option.some.injEq] at h
              rw [← h]
              refine (length_dropWhile_le ISDIGIT _).trans ?_
              simp; omega
            · simp only [hsg, hg, if_true, if_false] at h
              cases h
        · rw [if_neg he] at h
          simp only [Option.some.injEq] at h
          rw [h]
      omega

theorem set_type_type (v : syjson_value) (t : syjson_type) : (v.set_type t).type = t := rfl

theorem literal_pure_ok (json : List Nat) (v : syjson_value) (lit : List Nat)
    (t : syjson_type) (x : Nat) (hx : x ≠ 0) (h : json.headD 0 = x) :
    pure_ok (some (literal_pure json v lit t)) json v := by
  intro ret rest v' hr
  simp only [Option.some.injEq] at hr
  unfold literal_pure at hr
  have hp := headD_pos h hx
  split at hr
  · simp only [Prod.mk.injEq] at hr
    obtain ⟨rfl, rfl, rfl⟩ := hr
    refine ⟨fun _ => ?_, fun h => absurd rfl h⟩
    simp only [List.length_drop, List.length_tail]
    omega
  · simp only [Prod.mk.injEq] at hr
    obtain ⟨rfl, rfl, rfl⟩ := hr
    exact ⟨fun h => (by cases h), fun _ => Or.inl rfl⟩

theorem number_pure_ok (strtod : List Nat → Nat) (json : List Nat) (v : syjson_value) :
    pure_ok (some (number_pure strtod json v)) json v := by
  intro ret rest v' hr
  simp only [Option.some.injEq] at hr
  unfold number_pure syjson_parse_number blank at hr
  simp only at hr
  cases hs : syjson_number_scan json with
  | none =>
    simp only [hs, Prod.mk.injEq] at hr
    obtain ⟨rfl, rfl, rfl⟩ := hr
    exact ⟨fun h => (by cases h), fun _ => Or.inl rfl⟩
  | some p =>
    simp only [hs] at hr
    by_cases hb : number_too_big (strtod json) = true
    · simp only [hb, if_true, Prod.mk.injEq] at hr
      obtain ⟨rfl, rfl, rfl⟩ := hr
      exact ⟨fun h => (by cases h), fun _ => Or.inl rfl⟩
    · simp only [hb, if_false, Prod.mk.injEq] at hr
      obtain ⟨rfl, rfl, rfl⟩ := hr
      exact ⟨fun _ => number_scan_shrinks _ _ hs, fun h => absurd rfl h⟩

theorem pure_facts (strtod : List Nat → Nat) : ∀ fuel : Nat,
    (∀ json v, pure_ok (value_pure strtod fuel json v) json v)
      ∧ (∀ json v, pure_ok (array_pure strtod fuel json v) json v)
      ∧ (∀ json v acc, pure_ok (array_loop_pure strtod fuel json v acc) json v)
      ∧ (∀ json v, pure_ok (object_pure strtod fuel json v) json v)
      ∧ (∀ json v mv acc, pure_ok (object_loop_pure strtod fuel json v mv acc) json v) := by
  intro fuel
  induction fuel with
  | zero =>
    refine ⟨?_, ?_, ?_, ?_, ?_⟩ <;> intros <;> intro ret rest v' h
    · simp [value_pure] at h
    · simp [array_pure] at h
    · simp [array_loop_pure] at h
    · simp [object_pure] at h
    · simp [object_loop_pure] at h
  | succ fuel ih =>
    obtain ⟨hv, ha, hal, ho, hol⟩ := ih
    refine ⟨?_, ?_, ?_, ?_, ?_⟩
    · intro json v
      rw [value_pure]
      by_cases h1 : json.headD 0 = 0x6E
      · simp only [h1, if_true]
        exact literal_pure_ok json v _ _ _ (by decide) h1
      simp only [h1, if_false]
      by_cases h2 : json.headD 0 = 0x66
      · simp only [h2, if_true]
        exact literal_pure_ok json v _ _ _ (by decide) h2
      simp only [h2, if_false]
      by_cases h3 : json.headD 0 = 0x74
      · simp only [h3, if_true]
        exact literal_pure_ok json v _ _ _ (by decide) h3
      simp only [h3, if_false]
      by_cases h4 : json.headD 0 = 0x22
      · simp only [h4, if_true]
        intro ret rest v' h
        cases hs : string_pure json with
        | none => simp [hs] at h
        | some r =>
          obtain ⟨r1, r2, r3⟩ := r
          simp only [hs, Option.map_some', Option.some.injEq] at h
          by_cases hr : r1 = SYJSON_PARSE_OK
          · simp only [hr, if_true, Prod.mk.injEq] at h
            obtain ⟨rfl, rfl, rfl⟩ := h
            subst hr
            exact ⟨fun _ => string_pure_shrinks _ _ _ hs, fun h => absurd rfl h⟩
          · simp only [hr, if_false, Prod.mk.injEq] at h
            obtain ⟨rfl, rfl, rfl⟩ := h
            exact ⟨fun h => absurd h hr, fun _ => Or.inl rfl⟩
      simp only [h4, if_false]
      by_cases h5 : json.headD 0 = 0x5B
      · simp only [h5, if_true]; exact ha json v
      simp only [h5, if_false]
      by_cases h6 : json.headD 0 = 0x7B
      · simp only [h6, if_true]; exact ho json v
      simp only [h6, if_false]
      by_cases h7 : json.headD 0 = 0
      · simp only [h7, if_true]
        intro ret rest v' h
        simp only [Option.some.injEq, Prod.mk.injEq] at h
        obtain ⟨rfl, rfl, rfl⟩ := h
        exact ⟨fun h => (by cases h), fun _ => Or.inl rfl⟩
      simp only [h7, if_false]
      exact number_pure_ok strtod json v
    · intro json v
      rw [array_pure]
      have hl := length_dropWhile_le is_space json.tail
      have ht : json.tail.length = json.length - 1 := by simp
      by_cases h1 : (json.tail.dropWhile is_space).headD 0 = 0x5D
      · simp only [h1, if_true]
        intro ret rest v' h
        simp only [Option.some.injEq, Prod.mk.injEq] at h
        obtain ⟨rfl, rfl, rfl⟩ := h
        have := headD_pos h1 (by decide)
        refine ⟨fun _ => ?_, fun h => absurd rfl h⟩
        simp only [List.length_tail]
        omega
      · simp only [h1, if_false]
        intro ret rest v' h
        obtain ⟨a, b⟩ := hal _ v [] ret rest v' h
        exact ⟨fun hr => by have := a hr; omega, b⟩
    · intro json v acc
      rw [array_loop_pure]
      intro ret rest v' h
      cases hvv : value_pure strtod fuel json (.mk SYJSON_NULL .uninit) with
      | none => simp [hvv] at h
      | some r =>
        obtain ⟨r1, r2, e⟩ := r
        simp only [hvv, Option.some_bind] at h
        obtain ⟨a, _⟩ := hv _ _ _ _ _ hvv
        by_cases hr : r1 = SYJSON_PARSE_OK
        swap
        · simp only [ne_eq, hr, not_false_eq_true, if_true, Option.some.injEq,
            Prod.mk.injEq] at h
          obtain ⟨rfl, rfl, rfl⟩ := h
          exact ⟨fun h => absurd h hr, fun _ => Or.inl rfl⟩
        have hlen := a hr
        have hl := length_dropWhile_le is_space r2
        simp only [ne_eq, hr, not_true_eq_false, if_false] at h
        by_cases h1 : (r2.dropWhile is_space).headD 0 = 0x2C
        · simp only [h1, if_true] at h
          obtain ⟨a2, b2⟩ := hal _ v _ ret rest v' h
          have := headD_pos h1 (by decide)
          have := length_dropWhile_le is_space (r2.dropWhile is_space).tail
          have : (r2.dropWhile is_space).tail.length = (r2.dropWhile is_space).length - 1 := by
            simp
          exact ⟨fun hr => by have := a2 hr; omega, b2⟩
        simp only [h1, if_false] at h
        by_cases h2 : (r2.dropWhile is_space).headD 0 = 0x5D
        · simp only [h2, if_true, Option.some.injEq, Prod.mk.injEq] at h
          obtain ⟨rfl, rfl, rfl⟩ := h
          refine ⟨fun _ => ?_, fun h => absurd rfl h⟩
          simp only [List.length_tail]
          omega
        · simp only [h2, if_false, Option.some.injEq, Prod.mk.injEq] at h
          obtain ⟨rfl, rfl, rfl⟩ := h
          exact ⟨fun h => (by cases h), fun _ => Or.inl rfl⟩
    · intro json v
      rw [object_pure]
      have hl := length_dropWhile_le is_space json.tail
      have ht : json.tail.length = json.length - 1 := by simp
      by_cases h1 : (json.tail.dropWhile is_space).headD 0 = 0x7D
      · simp only [h1, if_true]
        intro ret rest v' h
        simp only [Option.some.injEq, Prod.mk.injEq] at h
        obtain ⟨rfl, rfl, rfl⟩ := h
        have := headD_pos h1 (by decide)
        refine ⟨fun _ => ?_, fun h => absurd rfl h⟩
        simp only [List.length_tail]
        omega
      · simp only [h1, if_false]
        intro ret rest v' h
        obtain ⟨a, b⟩ := hol _ v _ [] ret rest v' h
        exact ⟨fun hr => by have := a hr; omega, b⟩
    · intro json v mv acc
      rw [object_loop_pure]
      intro ret rest v' h
      have hfail : ∀ (r : syjson_parse_ret) (q : List Nat), r ≠ SYJSON_PARSE_OK →
          some (r, q, v.set_type SYJSON_NULL) = some (ret, rest, v') →
          (ret = SYJSON_PARSE_OK → rest.length < json.length)
            ∧ (ret ≠ SYJSON_PARSE_OK → v'.type = v.type ∨ v'.type = SYJSON_NULL) := by
        intro r q hr h
        simp only [Option.some.injEq, Prod.mk.injEq] at h
        obtain ⟨rfl, rfl, rfl⟩ := h
        exact ⟨fun h => absurd h hr, fun _ => Or.inr rfl⟩
      by_cases hq : json.headD 0 = 0x22
      swap
      · simp only [ne_eq, hq, not_false_eq_true, if_true] at h
        exact hfail _ _ (by decide) h
      simp only [ne_eq, hq, not_true_eq_false, if_false] at h
      cases hs : string_pure json with
      | none => simp [hs] at h
      | some sr =>
        obtain ⟨k1, k2, k3⟩ := sr
        simp only [hs, Option.some_bind] at h
        by_cases hk : k1 = SYJSON_PARSE_OK
        swap
        · simp only [hk, not_false_eq_true, if_true] at h
          exact hfail _ _ hk h
        subst hk
        have hk2 := string_pure_shrinks _ _ _ hs
        simp only [not_true_eq_false, if_false] at h
        by_cases hc : (k2.dropWhile is_space).headD 0 = 0x3A
        swap
        · simp only [hc, not_false_eq_true, if_true] at h
          exact hfail _ _ (by decide) h
        simp only [hc, not_true_eq_false, if_false] at h
        cases hvv : value_pure strtod fuel ((k2.dropWhile is_space).tail.dropWhile is_space)
            (mv.set_type SYJSON_NULL) with
        | none => simp [hvv] at h
        | some r =>
          obtain ⟨r1, r2, e⟩ := r
          simp only [hvv, Option.some_bind] at h
          obtain ⟨a, _⟩ := hv _ _ _ _ _ hvv
          by_cases hr : r1 = SYJSON_PARSE_OK
          swap
          · simp only [hr, not_false_eq_true, if_true] at h
            exact hfail _ _ hr h
          have hlen := a hr
          have hl1 := length_dropWhile_le is_space k2
          have hl2 := length_dropWhile_le is_space (k2.dropWhile is_space).tail
          have hl3 : (k2.dropWhile is_space).tail.length ≤ (k2.dropWhile is_space).length := by
            simp
          have hl := length_dropWhile_le is_space r2
          simp only [hr, not_true_eq_false, if_false] at h
          by_cases h1 : (r2.dropWhile is_space).headD 0 = 0x2C
          · simp only [h1, if_true] at h
            obtain ⟨a2, b2⟩ := hol _ v _ _ ret rest v' h
            have : (r2.dropWhile is_space).tail.length ≤ (r2.dropWhile is_space).length := by
              simp
            exact ⟨fun hr => by have := a2 hr; omega, b2⟩
          simp only [h1, if_false] at h
          by_cases h2 : (r2.dropWhile is_space).headD 0 = 0x7D
          · simp only [h2, if_true, Option.some.injEq, Prod.mk.injEq] at h
            obtain ⟨rfl, rfl, rfl⟩ := h
            refine ⟨fun _ => ?_, fun h => absurd rfl h⟩
            simp only [List.length_tail]
            omega
          · simp only [h2, if_false] at h
            exact hfail _ _ (by decide) h

/-! ## Enough fuel -/

theorem pure_total (strtod : List Nat → Nat) : ∀ fuel : Nat,
    (∀ json v, 3 * json.length + 1 ≤ fuel → ∃ r, value_pure strtod fuel json v = some r)
      ∧ (∀ json v, 0 < json.length → 3 * json.length ≤ fuel →
          ∃ r, array_pure strtod fuel json v = some r)
      ∧ (∀ json v acc, 3 * json.length + 2 ≤ fuel →
          ∃ r, array_loop_pure strtod fuel json v acc = some r)
      ∧ (∀ json v, 0 < json.length → 3 * json.length ≤ fuel →
          ∃ r, object_pure strtod fuel json v = some r)
      ∧ (∀ json v mv acc, 3 * json.length + 2 ≤ fuel →
          ∃ r, object_loop_pure strtod fuel json v mv acc = some r) := by
  intro fuel
  induction fuel with
  | zero =>
    refine ⟨?_, ?_, ?_, ?_, ?_⟩ <;> intros <;> omega
  | succ fuel ih =>
    obtain ⟨hv, ha, hal, ho, hol⟩ := ih
    refine ⟨?_, ?_, ?_, ?_, ?_⟩
    · intro json v hf
      rw [value_pure]
      by_cases h1 : json.headD 0 = 0x6E
      · simp only [h1, if_true]; exact ⟨_, rfl⟩
      simp only [h1, if_false]
      by_cases h2 : json.headD 0 = 0x66
      · simp only [h2, if_true]; exact ⟨_, rfl⟩
      simp only [h2, if_false]
      by_cases h3 : json.headD 0 = 0x74
      · simp only [h3, if_true]; exact ⟨_, rfl⟩
      simp only [h3, if_false]
      by_cases h4 : json.headD 0 = 0x22
      · simp only [h4, if_true]
        obtain ⟨r, hr⟩ := string_pure_total json
        rw [hr]
        exact ⟨_, rfl⟩
      simp only [h4, if_false]
      by_cases h5 : json.headD 0 = 0x5B
      · simp only [h5, if_true]
        exact ha json v (headD_pos h5 (by decide)) (by omega)
      simp only [h5, if_false]
      by_cases h6 : json.headD 0 = 0x7B
      · simp only [h6, if_true]
        exact ho json v (headD_pos h6 (by decide)) (by omega)
      simp only [h6, if_false]
      by_cases h7 : json.headD 0 = 0
      · simp only [h7, if_true]; exact ⟨_, rfl⟩
      simp only [h7, if_false]
      exact ⟨_, rfl⟩
    · intro json v hpos hf
      rw [array_pure]
      have hl := length_dropWhile_le is_space json.tail
      have ht : json.tail.length = json.length - 1 := by simp
      by_cases h1 : (json.tail.dropWhile is_space).headD 0 = 0x5D
      · simp only [h1, if_true]; exact ⟨_, rfl⟩
      · simp only [h1, if_false]
        exact hal _ v [] (by omega)
    · intro json v acc hf
      rw [array_loop_pure]
      obtain ⟨r, hr⟩ := hv json (.mk SYJSON_NULL .uninit) (by omega)
      obtain ⟨r1, r2, e⟩ := r
      rw [hr]
      simp only [Option.some_bind]
      obtain ⟨a, _⟩ := (pure_facts strtod fuel).1 _ _ _ _ _ hr
      by_cases hok : r1 = SYJSON_PARSE_OK
      swap
      · simp only [ne_eq, hok, not_false_eq_true, if_true]; exact ⟨_, rfl⟩
      have hlen := a hok
      simp only [ne_eq, hok, not_true_eq_false, if_false]
      by_cases h1 : (r2.dropWhile is_space).headD 0 = 0x2C
      · simp only [h1, if_true]
        have := headD_pos h1 (by decide)
        have := length_dropWhile_le is_space (r2.dropWhile is_space).tail
        have : (r2.dropWhile is_space).tail.length = (r2.dropWhile is_space).length - 1 := by
          simp
        have := length_dropWhile_le is_space r2
        exact hal _ v _ (by omega)
      simp only [h1, if_false]
      by_cases h2 : (r2.dropWhile is_space).headD 0 = 0x5D
      · simp only [h2, if_true]; exact ⟨_, rfl⟩
      · simp only [h2, if_false]; exact ⟨_, rfl⟩
    · intro json v hpos hf
      rw [object_pure]
      have hl := length_dropWhile_le is_space json.tail
      have ht : json.tail.length = json.length - 1 := by simp
      by_cases h1 : (json.tail.dropWhile is_space).headD 0 = 0x7D
      · simp only [h1, if_true]; exact ⟨_, rfl⟩
      · simp only [h1, if_false]
        exact hol _ v _ [] (by omega)
    · intro json v mv acc hf
      rw [object_loop_pure]
      by_cases hq : json.headD 0 = 0x22
      swap
      · simp only [ne_eq, hq, not_false_eq_true, if_true]; exact ⟨_, rfl⟩
      simp only [ne_eq, hq, not_true_eq_false, if_false]
      obtain ⟨sr, hs⟩ := string_pure_total json
      obtain ⟨k1, k2, k3⟩ := sr
      rw [hs]
      simp only [Option.some_bind]
      by_cases hk : k1 = SYJSON_PARSE_OK
      swap
      · simp only [hk, not_false_eq_true, if_true]; exact ⟨_, rfl⟩
      subst hk
      have hk2 := string_pure_shrinks _ _ _ hs
      simp only [not_true_eq_false, if_false]
      by_cases hc : (k2.dropWhile is_space).headD 0 = 0x3A
      swap
      · simp only [hc, not_false_eq_true, if_true]; exact ⟨_, rfl⟩
      simp only [hc, not_true_eq_false, if_false]
      have hl1 := length_dropWhile_le is_space k2
      have hl2 := length_dropWhile_le is_space (k2.dropWhile is_space).tail
      have hl3 : (k2.dropWhile is_space).tail.length ≤ (k2.dropWhile is_space).length := by
        simp
      obtain ⟨r, hr⟩ := hv ((k2.dropWhile is_space).tail.dropWhile is_space)
        (mv.set_type SYJSON_NULL) (by omega)
      obtain ⟨r1, r2, e⟩ := r
      rw [hr]
      simp only [Option.some_bind]
      obtain ⟨a, _⟩ := (pure_facts strtod fuel).1 _ _ _ _ _ hr
      by_cases hok : r1 = SYJSON_PARSE_OK
      swap
      · simp only [hok, not_false_eq_true, if_true]; exact ⟨_, rfl⟩
      have hlen := a hok
      simp only [hok, not_true_eq_false, if_false]
      by_cases h1 : (r2.dropWhile is_space).headD 0 = 0x2C
      · simp only [h1, if_true]
        have : (r2.dropWhile is_space).tail.length ≤ (r2.dropWhile is_space).length := by
          simp
        have := length_dropWhile_le is_space r2
        exact hol _ v _ _ (by omega)
      simp only [h1, if_false]
      by_cases h2 : (r2.dropWhile is_space).headD 0 = 0x7D
      · simp only [h2, if_true]; exact ⟨_, rfl⟩
      · simp only [h2, if_false]; exact ⟨_, rfl⟩

/-- With three units of fuel per byte of text, `syjson_parse_value` returns, restores
the scratch buffer, and returns what `value_pure` computes. -/
theorem parse_value_returns (strtod : List Nat → Nat) (fuel : Nat) (c : syjson_content)
    (v : syjson_value) (hcap : c.size ≠ 1) (hf : 3 * c.json.length + 1 ≤ fuel) :
    ∃ ret rest v' c', value_pure strtod fuel c.json v = some (ret, rest, v')
      ∧ syjson_parse_value strtod fuel c v = .ok (ret, c', v')
      ∧ c'.stack = c.stack ∧ c'.top = c.top ∧ c.size ≤ c'.size ∧ c'.size ≠ 1
      ∧ (ret = SYJSON_PARSE_OK → c'.json = rest ∧ rest.length < c.json.length)
      ∧ (ret ≠ SYJSON_PARSE_OK → v'.type = v.type ∨ v'.type = SYJSON_NULL) := by
  obtain ⟨r, hr⟩ := (pure_total strtod fuel).1 c.json v hf
  obtain ⟨ret, rest, v'⟩ := r
  obtain ⟨c', e, a1, a2, a3, a4, a5⟩ := (parser_sound strtod fuel).1 c v ret rest v' hcap hr
  obtain ⟨b1, b2⟩ := (pure_facts strtod fuel).1 _ _ _ _ _ hr
  exact ⟨ret, rest, v', c', hr, e, a1, a2, a3, a4, fun h => ⟨a5 h, b1 h⟩, b2⟩

theorem parse_string_returns (c : syjson_content) (v : syjson_value) (hcap : c.size ≠ 1)
    (hq : c.cur = 0x22) :
    ∃ ret c' v', syjson_parse_string c v = .ok (ret, c', v') ∧ c'.top = c.top := by
  obtain ⟨r, hr⟩ := string_pure_total c.json
  obtain ⟨r1, r2, r3⟩ := r
  obtain ⟨c', e, _, a2, _⟩ := parse_string_sound c v hcap hq r1 r2 r3 hr
  exact ⟨_, c', _, e, a2⟩

theorem parse_array_returns (strtod : List Nat → Nat) (fuel : Nat) (c : syjson_content)
    (v : syjson_value) (hcap : c.size ≠ 1) (hq : c.cur = 0x5B)
    (hf : 3 * c.json.length ≤ fuel) :
    ∃ ret c' v', syjson_parse_array strtod fuel c v = .ok (ret, c', v') ∧ c'.top = c.top := by
  obtain ⟨r, hr⟩ := (pure_total strtod fuel).2.1 c.json v (headD_pos hq (by decide)) hf
  obtain ⟨r1, r2, r3⟩ := r
  obtain ⟨c', e, _, a2, _⟩ := (parser_sound strtod fuel).2.1 c v r1 r2 r3 hcap hq hr
  exact ⟨_, c', _, e, a2⟩

theorem parse_object_returns (strtod : List Nat → Nat) (fuel : Nat) (c : syjson_content)
    (v : syjson_value) (hcap : c.size ≠ 1) (hq : c.cur = 0x7B)
    (hf : 3 * c.json.length ≤ fuel) :
    ∃ ret c' v', syjson_parse_object strtod fuel c v = .ok (ret, c', v') ∧ c'.top = c.top := by
  obtain ⟨r, hr⟩ := (pure_total strtod fuel).2.2.2.1 c.json v (headD_pos hq (by decide)) hf
  obtain ⟨r1, r2, r3⟩ := r
  obtain ⟨c', e, _, a2, _⟩ := (parser_sound strtod fuel).2.2.2.1 c v r1 r2 r3 hcap hq hr
  exact ⟨_, c', _, e, a2⟩

/-- What `syjson_parse` does, in terms of `value_pure`: the dispatcher returns what
`value_pure` computes on the text after the leading whitespace, with the scratch top
back at 0, and the root check follows on success. -/
theorem parse_run_eq (strtod : List Nat → Nat) (v : syjson_value) (json : List Nat) :
    ∃ ret rest v' c',
      value_pure strtod (parse_fuel json) (json.dropWhile is_space) (v.set_type SYJSON_NULL)
          = some (ret, rest, v')
        ∧ c'.top = 0
        ∧ (ret = SYJSON_PARSE_OK → c'.json = rest)
        ∧ (ret ≠ SYJSON_PARSE_OK → v'.type = SYJSON_NULL)
        ∧ syjson_parse_run strtod v json
            = .ok (if ret = SYJSON_PARSE_OK then syjson_parse_root_not_singular c' v'
                   else (ret, c', v')) := by
  have hl := length_dropWhile_le is_space json
  obtain ⟨ret, rest, v', c', hp, e, _, a2, _, _, a5, a6⟩ :=
    parse_value_returns strtod (parse_fuel json)
      (syjson_parse_whitespace { json := json, stack := [], size := 0, top := 0 })
      (v.set_type SYJSON_NULL) (by simp [syjson_parse_whitespace])
      (by simp only [syjson_parse_whitespace, parse_fuel]; omega)
  refine ⟨ret, rest, v', c', hp, a2, fun h => (a5 h).1, fun h => ?_, ?_⟩
  · rcases a6 h with h1 | h1 <;> simpa [set_type_type] using h1
  · unfold syjson_parse_run
    simp only
    rw [e]
    simp only [outcome.bind]
    split <;> rfl

theorem root_not_singular_top (c : syjson_content) (v : syjson_value) :
    (syjson_parse_root_not_singular c v).2.1.top = c.top := by
  unfold syjson_parse_root_not_singular
  simp only
  split <;> rfl

/-! ## The claims -/

/-- C1: for every input text, `syjson_parse` reaches `assert(c.top == 0)` with the
scratch top equal to 0, so the assertion passes and the call returns; this holds for
every return code.  More generally, from a context whose capacity is a reachable one
(not 1) and with three units of fuel per byte of remaining text, `syjson_parse_value`
returns with `top` equal to its value on entry, and so do the string, array and object
parsers when called on their opening character. -/
theorem parse_top_restored (strtod : List Nat → Nat) :
    (∀ (v : syjson_value) (json : List Nat), ∃ ret c v',
        syjson_parse_run strtod v json = .ok (ret, c, v') ∧ c.top = 0
          ∧ syjson_parse strtod v json = .ok (ret, v'))
      ∧ (∀ (fuel : Nat) (c : syjson_content) (v : syjson_value),
          c.size ≠ 1 → 3 * c.json.length + 1 ≤ fuel →
          ∃ ret c' v', syjson_parse_value strtod fuel c v = .ok (ret, c', v')
            ∧ c'.top = c.top)
      ∧ (∀ (c : syjson_content) (v : syjson_value), c.size ≠ 1 → c.cur = 0x22 →
          ∃ ret c' v', syjson_parse_string c v = .ok (ret, c', v') ∧ c'.top = c.top)
      ∧ (∀ (fuel : Nat) (c : syjson_content) (v : syjson_value),
          c.size ≠ 1 → c.cur = 0x5B → 3 * c.json.length ≤ fuel →
          ∃ ret c' v', syjson_parse_array strtod fuel c v = .ok (ret, c', v')
            ∧ c'.top = c.top)
      ∧ (∀ (fuel : Nat) (c : syjson_content) (v : syjson_value),
          c.size ≠ 1 → c.cur = 0x7B → 3 * c.json.length ≤ fuel →
          ∃ ret c' v', syjson_parse_object strtod fuel c v = .ok (ret, c', v')
            ∧ c'.top = c.top) := by
  refine ⟨?_, ?_, ?_, ?_, ?_⟩
  · intro v json
    obtain ⟨ret, rest, v', c', _, htop, _, _, e⟩ := parse_run_eq strtod v json
    by_cases hr : ret = SYJSON_PARSE_OK
    · simp only [hr, if_true] at e
      have ht : (syjson_parse_root_not_singular c' v').2.1.top = 0 := by
        rw [root_not_singular_top, htop]
      cases hrn : syjson_parse_root_not_singular c' v' with
      | mk r1 p =>
        obtain ⟨rc, rv⟩ := p
        rw [hrn] at e ht
        simp only at ht
        refine ⟨r1, rc, rv, e, ht, ?_⟩
        simp only [syjson_parse, e, outcome.bind, ht, ne_eq, not_true_eq_false, if_false]
    · simp only [hr, if_false] at e
      refine ⟨ret, c', v', e, htop, ?_⟩
      simp only [syjson_parse, e, outcome.bind, htop, ne_eq, not_true_eq_false, if_false]
  · intro fuel c v hcap hf
    obtain ⟨ret, rest, v', c', _, e, _, a2, _⟩ := parse_value_returns strtod fuel c v hcap hf
    exact ⟨ret, c', v', e, a2⟩
  · intro c v hcap hq
    exact parse_string_returns c v hcap hq
  · intro fuel c v hcap hq hf
    exact parse_array_returns strtod fuel c v hcap hq hf
  · intro fuel c v hcap hq hf
    exact parse_object_returns strtod fuel c v hcap hq hf

/-- C1, instance: on the text `[1,2` the parse returns
`SYJSON_PARSE_MISS_COMMA_OR_SQUARE_BRACKET` with the scratch top at 0, and the
dispatcher, the array parser, the string parser and the object parser return with the
top they were entered with from a context whose top is 48 (`c_sample`). -/
theorem parse_top_restored_witness :
    (∃ ret c v', syjson_parse_run strtod_int v_init (bytes "[1,2") = .ok (ret, c, v')
        ∧ c.top = 0 ∧ syjson_parse strtod_int v_init (bytes "[1,2") = .ok (ret, v'))
      ∧ ret_of (syjson_parse strtod_int v_init (bytes "[1,2"))
          = some SYJSON_PARSE_MISS_COMMA_OR_SQUARE_BRACKET
      ∧ (∃ ret c' v', syjson_parse_value strtod_int 16 (c_sample (bytes "[1,2")) v_init
              = .ok (ret, c', v') ∧ c'.top = (c_sample (bytes "[1,2")).top)
      ∧ (∃ ret c' v', syjson_parse_string (c_sample (bytes "\"a")) v_init
              = .ok (ret, c', v') ∧ c'.top = (c_sample (bytes "\"a")).top)
      ∧ (∃ ret c' v', syjson_parse_array strtod_int 16 (c_sample (bytes "[1,2")) v_init
              = .ok (ret, c', v') ∧ c'.top = (c_sample (bytes "[1,2")).top)
      ∧ (∃ ret c' v', syjson_parse_object strtod_int 24 (c_sample (bytes "\x7b\"a\":1")) v_init
              = .ok (ret, c', v') ∧ c'.top = (c_sample (bytes "\x7b\"a\":1")).top) :=
  ⟨(parse_top_restored strtod_int).1 v_init (bytes "[1,2"),
   by decide!,
   (parse_top_restored strtod_int).2.1 16 (c_sample (bytes "[1,2")) v_init
     (by decide) (by decide!),
   (parse_top_restored strtod_int).2.2.1 (c_sample (bytes "\"a")) v_init
     (by decide) (by decide!),
   (parse_top_restored strtod_int).2.2.2.1 16 (c_sample (bytes "[1,2")) v_init
     (by decide) (by decide!) (by decide!),
   (parse_top_restored strtod_int).2.2.2.2 24 (c_sample (bytes "\x7b\"a\":1")) v_init
     (by decide) (by decide!) (by decide!)⟩

/-- C2: for every input text `syjson_parse` returns, and whenever its return code is not
`SYJSON_PARSE_OK` the type of the root value afterwards is `SYJSON_NULL`. -/
theorem parse_failure_null (strtod : List Nat → Nat) (v : syjson_value) (json : List Nat) :
    ∃ ret v', syjson_parse strtod v json = .ok (ret, v')
      ∧ (ret ≠ SYJSON_PARSE_OK → v'.type = SYJSON_NULL) := by
  obtain ⟨ret, rest, v', c', _, htop, _, hty, e⟩ := parse_run_eq strtod v json
  by_cases hr : ret = SYJSON_PARSE_OK
  · simp only [hr, if_true] at e
    have ht : (syjson_parse_root_not_singular c' v').2.1.top = 0 := by
      rw [root_not_singular_top, htop]
    have hn : (syjson_parse_root_not_singular c' v').1 ≠ SYJSON_PARSE_OK →
        (syjson_parse_root_not_singular c' v').2.2.type = SYJSON_NULL := by
      unfold syjson_parse_root_not_singular
      simp only
      split
      · intro h; exact absurd rfl h
      · intro _; rfl
    cases hrn : syjson_parse_root_not_singular c' v' with
    | mk r1 p =>
      obtain ⟨rc, rv⟩ := p
      rw [hrn] at e ht hn
      simp only at ht hn
      refine ⟨r1, rv, ?_, hn⟩
      simp only [syjson_parse, e, outcome.bind, ht, ne_eq, not_true_eq_false, if_false]
  · simp only [hr, if_false] at e
    refine ⟨ret, v', ?_, hty⟩
    simp only [syjson_parse, e, outcome.bind, htop, ne_eq, not_true_eq_false, if_false]

/-- C2, instance: the text `[1,2` gives `SYJSON_PARSE_MISS_COMMA_OR_SQUARE_BRACKET`
and a root of type `SYJSON_NULL`; so do `1e` (invalid value) and `1 x` (root not
singular). -/
theorem parse_failure_null_witness :
    (∃ ret v', syjson_parse strtod_int v_init (bytes "[1,2") = .ok (ret, v')
        ∧ (ret ≠ SYJSON_PARSE_OK → v'.type = SYJSON_NULL))
      ∧ ret_of (syjson_parse strtod_int v_init (bytes "[1,2"))
          = some SYJSON_PARSE_MISS_COMMA_OR_SQUARE_BRACKET
      ∧ type_of (syjson_parse strtod_int v_init (bytes "[1,2")) = some SYJSON_NULL
      ∧ ret_of (syjson_parse strtod_int v_init (bytes "1e")) = some SYJSON_PARSE_INVALID_VALUE
      ∧ type_of (syjson_parse strtod_int v_init (bytes "1e")) = some SYJSON_NULL
      ∧ ret_of (syjson_parse strtod_int v_init (bytes "1 x"))
          = some SYJSON_PARSE_ROOT_NOT_SINGULAR
      ∧ type_of (syjson_parse strtod_int v_init (bytes "1 x")) = some SYJSON_NULL :=
  ⟨parse_failure_null strtod_int v_init (bytes "[1,2"), by decide!, by decide!, by decide!,
    by decide!, by decide!, by decide!⟩

/-- C3, at the failing input: for the code point 0x10FFFF (the escapes `\udbff\udfff`)
`syjson_encode_utf8` pushes F0 8F BF BF, where the encoding the specification states is
F4 8F BF BF; the first byte is built with the mask 0x08 where UTF-8 has 0x07, so it is
F0 for every code point above 0xFFFF.  The parser stores the same four bytes.  A code
point below 0x40000 is encoded as specified (here 0x1D11E, the escapes `\ud834\udd1e`). -/
theorem encode_utf8_first_byte :
    pushed_of (syjson_encode_utf8 (blank []) 0x10FFFF) = some [0xF0, 0x8F, 0xBF, 0xBF]
      ∧ utf8_standard 0x10FFFF = [0xF4, 0x8F, 0xBF, 0xBF]
      ∧ surrogate_code_point 0xDBFF 0xDFFF = 0x10FFFF
      ∧ string_of (syjson_parse strtod_int v_init (bytes "\"\\udbff\\udfff\""))
          = some [0xF0, 0x8F, 0xBF, 0xBF, 0]
      ∧ pushed_of (syjson_encode_utf8 (blank []) 0x40000) = some [0xF0, 0x80, 0x80, 0x80]
      ∧ utf8_standard 0x40000 = [0xF1, 0x80, 0x80, 0x80]
      ∧ pushed_of (syjson_encode_utf8 (blank []) 0x1D11E) = some (utf8_standard 0x1D11E)
      ∧ string_of (syjson_parse strtod_int v_init (bytes "\"\\ud834\\udd1e\""))
          = some (utf8_standard (surrogate_code_point 0xD834 0xDD1E) ++ [0]) := by
  decide!

/-- C3, where the code agrees with the specification: up to 0xFFFF the bytes pushed
are the specified encoding. -/
theorem encode_utf8_bmp (u : Nat) (h : u ≤ 0xFFFF) : utf8_pushed u = utf8_standard u := by
  unfold utf8_pushed utf8_standard
  by_cases h1 : u ≤ 0x7F
  · have : u &&& 0xff = u := by
      have := Nat.and_pow_two_sub_one_eq_mod u 8
      simp only [Nat.reducePow, Nat.reduceSub] at this
      rw [this]; omega
    simp only [h1, if_true, this]
    congr 1
    omega
  by_cases h2 : u ≤ 0x7FF
  · have a : u >>> 6 &&& 0x1f = u >>> 6 := by
      have := Nat.and_pow_two_sub_one_eq_mod (u >>> 6) 5
      simp only [Nat.reducePow, Nat.reduceSub] at this
      rw [this, Nat.shiftRight_eq_div_pow]; omega
    have b1 : (u >>> 6 ||| 0xc0) < 256 :=
      Nat.or_lt_two_pow (n := 8) (by rw [Nat.shiftRight_eq_div_pow]; omega) (by decide)
    have b2 : (u &&& 0x3f ||| 0x80) < 256 :=
      Nat.or_lt_two_pow (n := 8)
        (lt_of_le_of_lt Nat.and_le_right (by decide)) (by decide)
    simp only [h1, h2, if_true, if_false, a, Nat.mod_eq_of_lt b1, Nat.mod_eq_of_lt b2,
      Nat.lor_comm]
  · have h3 : u ≤ 0xffff := h
    have a : u >>> 12 &&& 0x0f = u >>> 12 := by
      have := Nat.and_pow_two_sub_one_eq_mod (u >>> 12) 4
      simp only [Nat.reducePow, Nat.reduceSub] at this
      rw [this, Nat.shiftRight_eq_div_pow]; omega
    have b1 : (u >>> 12 ||| 0xe0) < 256 :=
      Nat.or_lt_two_pow (n := 8) (by rw [Nat.shiftRight_eq_div_pow]; omega) (by decide)
    have b2 : (u >>> 6 &&& 0x3f ||| 0x80) < 256 :=
      Nat.or_lt_two_pow (n := 8)
        (lt_of_le_of_lt Nat.and_le_right (by decide)) (by decide)
    have b3 : (u &&& 0x3f ||| 0x80) < 256 :=
      Nat.or_lt_two_pow (n := 8)
        (lt_of_le_of_lt Nat.and_le_right (by decide)) (by decide)
    simp only [h1, h2, h3, if_true, if_false, a, Nat.mod_eq_of_lt b1, Nat.mod_eq_of_lt b2,
      Nat.mod_eq_of_lt b3, Nat.lor_comm]

/-- C6, at the failing input: the text `{"a":1, "b":2}`, with one space after the comma,
is rejected with `SYJSON_PARSE_MISS_KEY`, while the same text without the space parses
to an object of size 2 and the array text `[1, 2]` parses to an array of size 2.  After
a `,` the object loop does not call `syjson_parse_whitespace` (the source names the
function without calling it); the array loop does. -/
theorem object_comma_whitespace :
    ret_of (syjson_parse strtod_int v_init (bytes "\x7b\"a\":1, \"b\":2\x7d"))
        = some SYJSON_PARSE_MISS_KEY
      ∧ ret_of (syjson_parse strtod_int v_init (bytes "\x7b\"a\":1,\"b\":2\x7d"))
          = some SYJSON_PARSE_OK
      ∧ syjson_get_object_size
          (value_of (syjson_parse strtod_int v_init (bytes "\x7b\"a\":1,\"b\":2\x7d")))
          = .ok 2
      ∧ ret_of (syjson_parse strtod_int v_init (bytes "[1, 2]")) = some SYJSON_PARSE_OK
      ∧ syjson_get_array_size (value_of (syjson_parse strtod_int v_init (bytes "[1, 2]")))
          = .ok 2 := by
  decide!

/-- C10, at the failing input: on the array of size 2 parsed from `[1,2]`,
`syjson_get_array_element` with index 2 passes its assertions (the source asserts
`index <= size`) and returns a pointer that is not to an element; index 3 fails the
assertion.  The three object getters on the object of size 2 parsed from
`{"a":1,"b":2}` fail their assertion at index 2 and return the member at index 1. -/
theorem array_element_range :
    (syjson_get_array_element
        (value_of (syjson_parse strtod_int v_init (bytes "[1,2]"))) 2).returned = true
      ∧ (syjson_get_array_element
          (value_of (syjson_parse strtod_int v_init (bytes "[1,2]"))) 2).points = false
      ∧ (syjson_get_array_element
          (value_of (syjson_parse strtod_int v_init (bytes "[1,2]"))) 1).points = true
      ∧ (syjson_get_array_element
          (value_of (syjson_parse strtod_int v_init (bytes "[1,2]"))) 3).returned = false
      ∧ (syjson_get_object_value
          (value_of (syjson_parse strtod_int v_init (bytes "\x7b\"a\":1,\"b\":2\x7d")))
            2).returned = false
      ∧ (syjson_get_object_key
          (value_of (syjson_parse strtod_int v_init (bytes "\x7b\"a\":1,\"b\":2\x7d")))
            2).returned = false
      ∧ (syjson_get_object_key_length
          (value_of (syjson_parse strtod_int v_init (bytes "\x7b\"a\":1,\"b\":2\x7d")))
            2).returned = false
      ∧ (syjson_get_object_value
          (value_of (syjson_parse strtod_int v_init (bytes "\x7b\"a\":1,\"b\":2\x7d")))
            1).points = true := by
  decide!

/-- C10, in general: `syjson_get_array_element` passes its assertions exactly when the
value is an array and `index <= size` (so also at `index = size`), and the object
getters exactly when the value is an object and `index < size`. -/
theorem getter_assertions (v : syjson_value) (i : Nat) :
    ((syjson_get_array_element v i).returned = true
        ↔ v.type = SYJSON_ARR ∧ i ≤ v.val.arr_s)
      ∧ ((syjson_get_object_key v i).returned = true
        ↔ v.type = SYJSON_OBJ ∧ i < v.val.obj_s)
      ∧ ((syjson_get_object_key_length v i).returned = true
        ↔ v.type = SYJSON_OBJ ∧ i < v.val.obj_s)
      ∧ ((syjson_get_object_value v i).returned = true
        ↔ v.type = SYJSON_OBJ ∧ i < v.val.obj_s) := by
  refine ⟨?_, ?_, ?_, ?_⟩
  · unfold syjson_get_array_element
    by_cases h1 : v.type = SYJSON_ARR <;> by_cases h2 : i ≤ v.val.arr_s <;>
      simp [h1, h2, outcome.returned]
  · unfold syjson_get_object_key
    by_cases h1 : v.type = SYJSON_OBJ <;> by_cases h2 : i < v.val.obj_s <;>
      simp [h1, h2, outcome.returned]
  · unfold syjson_get_object_key_length
    by_cases h1 : v.type = SYJSON_OBJ <;> by_cases h2 : i < v.val.obj_s <;>
      simp [h1, h2, outcome.returned]
  · unfold syjson_get_object_value
    by_cases h1 : v.type = SYJSON_OBJ <;> by_cases h2 : i < v.val.obj_s <;>
      simp [h1, h2, outcome.returned]

/-- The result of `syjson_parse` in terms of `value_pure`: what the dispatcher computes
on the text after the leading whitespace, followed on success by the root check. -/
theorem parse_eq (strtod : List Nat → Nat) (v : syjson_value) (json : List Nat) :
    ∃ ret rest v',
      value_pure strtod (parse_fuel json) (json.dropWhile is_space) (v.set_type SYJSON_NULL)
          = some (ret, rest, v')
        ∧ syjson_parse strtod v json
            = .ok (if ret = SYJSON_PARSE_OK then
                    (if (rest.dropWhile is_space).headD 0 = 0 then (SYJSON_PARSE_OK, v')
                     else (SYJSON_PARSE_ROOT_NOT_SINGULAR, v'.set_type SYJSON_NULL))
                   else (ret, v')) := by
  obtain ⟨ret, rest, v', c', hp, htop, hj, _, e⟩ := parse_run_eq strtod v json
  refine ⟨ret, rest, v', hp, ?_⟩
  by_cases hr : ret = SYJSON_PARSE_OK
  · have hjj := hj hr
    simp only [hr, if_true] at e ⊢
    simp only [syjson_parse, e, outcome.bind]
    unfold syjson_parse_root_not_singular
    have hc : (syjson_parse_whitespace c').cur = (rest.dropWhile is_space).headD 0 := by
      simp [syjson_parse_whitespace, syjson_content.cur, hjj]
    simp only [hc]
    by_cases h0 : (rest.dropWhile is_space).headD 0 = 0
    · simp only [h0, if_true]
      simp [syjson_parse_whitespace, htop]
    · simp only [h0, if_false]
      simp [syjson_parse_whitespace, htop]
  · simp only [hr, if_false] at e ⊢
    simp only [syjson_parse, e, outcome.bind, htop, ne_eq, not_true_eq_false, if_false]

theorem dropWhile_space_of_head {l : List Nat} (h : is_space (l.headD 0) = false) :
    l.dropWhile is_space = l := by
  cases l with
  | nil => rfl
  | cons a t =>
    simp only [List.headD_cons] at h
    simp [List.dropWhile_cons, h]

theorem isdigit_bounds {d : Nat} (h : ISDIGIT d = true) : 0x30 ≤ d ∧ d ≤ 0x39 := by
  simpa [ISDIGIT] using h

theorem isdigit_not_space {d : Nat} (h : ISDIGIT d = true) : is_space d = false := by
  have := isdigit_bounds h
  simp only [is_space, Bool.or_eq_false_iff, beq_eq_false_iff_ne, ne_eq]
  omega

/-- The dispatcher sends a text that begins with `-` or a digit to the number scanner. -/
theorem value_pure_number (strtod : List Nat → Nat) (fuel : Nat) (json : List Nat)
    (v : syjson_value) (h : json.headD 0 = 0x2D ∨ ISDIGIT (json.headD 0) = true) :
    value_pure strtod (fuel + 1) json v = some (number_pure strtod json v) := by
  rw [value_pure]
  have hb : json.headD 0 = 0x2D ∨ (0x30 ≤ json.headD 0 ∧ json.headD 0 ≤ 0x39) := by
    rcases h with h | h
    · exact Or.inl h
    · exact Or.inr (isdigit_bounds h)
  have h1 : ¬ json.headD 0 = 0x6E := by omega
  have h2 : ¬ json.headD 0 = 0x66 := by omega
  have h3 : ¬ json.headD 0 = 0x74 := by omega
  have h4 : ¬ json.headD 0 = 0x22 := by omega
  have h5 : ¬ json.headD 0 = 0x5B := by omega
  have h6 : ¬ json.headD 0 = 0x7B := by omega
  have h7 : ¬ json.headD 0 = 0 := by omega
  simp only [h1, h2, h3, h4, h5, h6, h7, if_false]

theorem number_pure_eq (strtod : List Nat → Nat) (json : List Nat) (v : syjson_value) :
    number_pure strtod json v
      = match syjson_number_scan json with
        | none => (SYJSON_PARSE_INVALID_VALUE, json, v)
        | some p =>
          if number_too_big (strtod json) then
            (SYJSON_PARSE_NUMBER_TOO_BIG, json, .mk v.type (.num (strtod json)))
          else (SYJSON_PARSE_OK, p, .mk SYJSON_NUM (.num (strtod json))) := by
  unfold number_pure syjson_parse_number blank
  simp only
  cases syjson_number_scan json with
  | none => rfl
  | some p => simp only; split <;> rfl

theorem leading_zero_scan (sign ds : List Nat) (hs : sign = [] ∨ sign = [0x2D])
    (hne : ds ≠ []) (hd : ∀ d ∈ ds, ISDIGIT d = true) :
    syjson_number_scan (sign ++ 0x30 :: ds) = some ds := by
  cases ds with
  | nil => exact absurd rfl hne
  | cons d t =>
    have hb := isdigit_bounds (hd d (List.mem_cons_self d t))
    have e1 : ¬ d = 0x2E := by omega
    have e2 : ¬ (d = 0x65 ∨ d = 0x45) := by omega
    rcases hs with rfl | rfl <;>
      simp [syjson_number_scan, number_sign, number_int, number_frac, number_exp, e1, e2]

/-- C5 as amended: for every input made of an optional `-`, a `0` and one or more
decimal digits, the number scanner takes the `0` as the whole number, so `syjson_parse`
returns `SYJSON_PARSE_ROOT_NOT_SINGULAR` for the digits that follow (and
`SYJSON_PARSE_NUMBER_TOO_BIG` when `strtod` of the text is an infinity); the root type
is `SYJSON_NULL`.  It never returns `SYJSON_PARSE_INVALID_VALUE`. -/
theorem leading_zero_result (strtod : List Nat → Nat) (v : syjson_value)
    (sign ds : List Nat) (hs : sign = [] ∨ sign = [0x2D]) (hne : ds ≠ [])
    (hd : ∀ d ∈ ds, ISDIGIT d = true) :
    ∃ v', syjson_parse strtod v (sign ++ 0x30 :: ds)
        = .ok (if number_too_big (strtod (sign ++ 0x30 :: ds)) then SYJSON_PARSE_NUMBER_TOO_BIG
               else SYJSON_PARSE_ROOT_NOT_SINGULAR, v')
      ∧ v'.type = SYJSON_NULL := by
  obtain ⟨ret, rest, v', hp, e⟩ := parse_eq strtod v (sign ++ 0x30 :: ds)
  have hhead : (sign ++ 0x30 :: ds).headD 0 = 0x2D
      ∨ ISDIGIT ((sign ++ 0x30 :: ds).headD 0) = true := by
    rcases hs with rfl | rfl
    · right; rfl
    · left; rfl
  have hsp : is_space ((sign ++ 0x30 :: ds).headD 0) = false := by
    rcases hs with rfl | rfl <;> rfl
  rw [dropWhile_space_of_head hsp, parse_fuel, value_pure_number strtod _ _ _ hhead,
    number_pure_eq, leading_zero_scan sign ds hs hne hd] at hp
  simp only [Option.some.injEq] at hp
  by_cases hb : number_too_big (strtod (sign ++ 0x30 :: ds)) = true
  · simp only [hb, if_true, Prod.mk.injEq] at hp ⊢
    obtain ⟨rfl, rfl, rfl⟩ := hp
    exact ⟨_, e, rfl⟩
  · simp only [hb, if_false, Prod.mk.injEq] at hp ⊢
    obtain ⟨rfl, rfl, rfl⟩ := hp
    cases ds with
    | nil => exact absurd rfl hne
    | cons d t =>
      have hdd := hd d (List.mem_cons_self d t)
      have hb := isdigit_bounds hdd
      have h0 : ¬ ((d :: t).dropWhile is_space).headD 0 = 0 := by
        rw [dropWhile_space_of_head (by simpa using isdigit_not_space hdd)]
        simp only [List.headD_cons]
        omega
      simp only [h0, if_true, if_false] at e
      exact ⟨_, e, rfl⟩

/-- C5, instance of the amended claim: the texts `0123` and `-007`. -/
theorem leading_zero_result_witness :
    (∃ v', syjson_parse strtod_int v_init ([] ++ 0x30 :: bytes "123")
        = .ok (if number_too_big (strtod_int ([] ++ 0x30 :: bytes "123")) then
                 SYJSON_PARSE_NUMBER_TOO_BIG
               else SYJSON_PARSE_ROOT_NOT_SINGULAR, v')
      ∧ v'.type = SYJSON_NULL)
    ∧ (∃ v', syjson_parse strtod_int v_init ([0x2D] ++ 0x30 :: bytes "07")
        = .ok (if number_too_big (strtod_int ([0x2D] ++ 0x30 :: bytes "07")) then
                 SYJSON_PARSE_NUMBER_TOO_BIG
               else SYJSON_PARSE_ROOT_NOT_SINGULAR, v')
      ∧ v'.type = SYJSON_NULL) :=
  ⟨leading_zero_result strtod_int v_init [] (bytes "123") (Or.inl rfl) (by decide)
      (by decide),
   leading_zero_result strtod_int v_init [0x2D] (bytes "07") (Or.inr rfl) (by decide)
      (by decide)⟩

/-- C5, counterexample to the claim as stated: on the text `0123` the parse returns
`SYJSON_PARSE_ROOT_NOT_SINGULAR`, not `SYJSON_PARSE_INVALID_VALUE`. -/
theorem leading_zero_counterexample :
    ret_of (syjson_parse strtod_int v_init (bytes "0123"))
        = some SYJSON_PARSE_ROOT_NOT_SINGULAR
      ∧ ret_of (syjson_parse strtod_int v_init (bytes "0123"))
          ≠ some SYJSON_PARSE_INVALID_VALUE := by
  decide!

/-! ## Numbers -/
theorem dropWhile_digits_append (ds y : List Nat) (hd : ∀ x ∈ ds, ISDIGIT x = true)
    (hy : ISDIGIT (y.headD 0) = false) : (ds ++ y).dropWhile ISDIGIT = y := by
  induction ds with
  | nil =>
    cases y with
    | nil => rfl
    | cons a t =>
      simp only [List.headD_cons] at hy
      simp [List.dropWhile_cons, hy]
  | cons d t ih =>
    have := hd d (List.mem_cons_self d t)
    simp only [List.cons_append, List.dropWhile_cons, this, if_true]
    exact ih (fun x hx => hd x (List.mem_cons_of_mem d hx))

theorem digits_split (l : List Nat) :
    ∃ ds, l = ds ++ l.dropWhile ISDIGIT ∧ ∀ x ∈ ds, ISDIGIT x = true :=
  ⟨l.takeWhile ISDIGIT, (List.takeWhile_append_dropWhile ISDIGIT l).symm,
    fun _ hx => List.mem_takeWhile_imp hx⟩

theorem cons_of_headD {l : List Nat} {x : Nat} (h : l.headD 0 = x) (hx : x ≠ 0) :
    l = x :: l.tail := by
  cases l with
  | nil => simp at h; exact absurd h.symm hx
  | cons a t => simp only [List.headD_cons] at h; simp [h]

theorem isdigit_headD_cons {l : List Nat} (h : ISDIGIT (l.headD 0) = true) :
    l = l.headD 0 :: l.tail := by
  have := isdigit_bounds h
  exact cons_of_headD rfl (by omega)

theorem digit1to9_isdigit {d : Nat} (h : ISDIGIT1TO9 d = true) : ISDIGIT d = true := by
  simp [ISDIGIT1TO9, ISDIGIT] at h ⊢
  omega

/-! ### The sections of the number scanner accept the parts of the grammar -/

theorem number_int_sound (p q : List Nat) (h : number_int p = some q) :
    ∃ i, p = i ++ q ∧ json_int i := by
  unfold number_int at h
  by_cases h0 : p.headD 0 = 0x30
  · simp only [h0, if_true, Option.some.injEq] at h
    refine ⟨[0x30], ?_, Or.inl rfl⟩
    rw [← h]
    exact cons_of_headD h0 (by decide)
  · by_cases h9 : ISDIGIT1TO9 (p.headD 0) = true
    · simp only [h0, h9, if_true, if_false, Option.some.injEq] at h
      obtain ⟨ds, e, hd⟩ := digits_split p.tail
      refine ⟨p.headD 0 :: ds, ?_, Or.inr ⟨_, _, rfl, h9, hd⟩⟩
      rw [← h, List.cons_append, ← e]
      exact isdigit_headD_cons (digit1to9_isdigit h9)
    · simp only [h0, h9, if_false] at h
      cases h

theorem number_frac_sound (p q : List Nat) (h : number_frac p = some q) :
    ∃ f, p = f ++ q ∧ json_frac f := by
  unfold number_frac at h
  by_cases hd : p.headD 0 = 0x2E
  · by_cases hg : ISDIGIT (p.tail.headD 0) = true
    · simp only [hd, hg, if_true, Option.some.injEq] at h
      obtain ⟨ds, e, hds⟩ := digits_split p.tail.tail
      refine ⟨0x2E :: p.tail.headD 0 :: ds, ?_, Or.inr ⟨_, rfl, by simp, ?_⟩⟩
      · rw [← h, List.cons_append, List.cons_append, ← e, ← isdigit_headD_cons hg]
        exact cons_of_headD hd (by decide)
      · intro x hx
        rcases List.mem_cons.1 hx with rfl | hx
        · exact hg
        · exact hds x hx
    · simp only [hd, hg, if_true, if_false] at h
      cases h
  · simp only [hd, if_false, Option.some.injEq] at h
    exact ⟨[], by simp [h], Or.inl rfl⟩

theorem number_exp_sound (p q : List Nat) (h : number_exp p = some q) :
    ∃ e, p = e ++ q ∧ json_exp e := by
  unfold number_exp at h
  by_cases he : p.headD 0 = 0x65 ∨ p.headD 0 = 0x45
  · rw [if_pos he] at h
    have hp : p = p.headD 0 :: p.tail := cons_of_headD rfl (by omega)
    by_cases hsg : p.tail.headD 0 = 0x2D ∨ p.tail.headD 0 = 0x2B
    · have hpt : p.tail = p.tail.headD 0 :: p.tail.tail := cons_of_headD rfl (by omega)
      by_cases hg : ISDIGIT (p.tail.tail.headD 0) = true
      · simp only [hsg, hg, if_true, Option.some.injEq] at h
        obtain ⟨ds, e, hds⟩ := digits_split p.tail.tail.tail
        refine ⟨p.headD 0 :: ([p.tail.headD 0] ++ (p.tail.tail.headD 0 :: ds)), ?_,
          Or.inr ⟨_, _, _, rfl, he, ?_, by simp, ?_⟩⟩
        · rw [← h]
          simp only [List.singleton_append, List.cons_append, List.nil_append]
          rw [← e, ← isdigit_headD_cons hg, ← hpt, ← hp]
        · rcases hsg with h1 | h1
          · right; right; rw [h1]
          · right; left; rw [h1]
        · intro x hx
          rcases List.mem_cons.1 hx with rfl | hx
          · exact hg
          · exact hds x hx
      · simp only [hsg, hg, if_true, if_false] at h
        cases h
    · by_cases hg : ISDIGIT (p.tail.headD 0) = true
      · simp only [hsg, hg, if_true, if_false, Option.some.injEq] at h
        obtain ⟨ds, e, hds⟩ := digits_split p.tail.tail
        refine ⟨p.headD 0 :: ([] ++ (p.tail.headD 0 :: ds)), ?_,
          Or.inr ⟨_, _, _, rfl, he, Or.inl rfl, by simp, ?_⟩⟩
        · rw [← h]
          simp only [List.nil_append, List.cons_append]
          rw [← e, ← isdigit_headD_cons hg, ← hp]
        · intro x hx
          rcases List.mem_cons.1 hx with rfl | hx
          · exact hg
          · exact hds x hx
      · simp only [hsg, hg, if_true, if_false] at h
        cases h
  · rw [if_neg he] at h
    simp only [Option.some.injEq] at h
    exact ⟨[], by simp [h], Or.inl rfl⟩

theorem number_scan_sound (json rest : List Nat) (h : syjson_number_scan json = some rest) :
    ∃ t, json = t ++ rest ∧ json_number t := by
  unfold syjson_number_scan at h
  cases hi : number_int (number_sign json) with
  | none => simp [hi] at h
  | some p1 =>
    simp only [hi, Option.some_bind] at h
    cases hf : number_frac p1 with
    | none => simp [hf] at h
    | some p2 =>
      simp only [hf, Option.some_bind] at h
      obtain ⟨i, ei, hi'⟩ := number_int_sound _ _ hi
      obtain ⟨f, ef, hf'⟩ := number_frac_sound _ _ hf
      obtain ⟨e, ee, he'⟩ := number_exp_sound _ _ h
      have hsg : ∃ sg, json = sg ++ number_sign json ∧ (sg = [] ∨ sg = [0x2D]) := by
        unfold number_sign
        by_cases hm : json.headD 0 = 0x2D
        · simp only [hm, if_true]
          exact ⟨[0x2D], cons_of_headD hm (by decide), Or.inr rfl⟩
        · simp only [hm, if_false]
          exact ⟨[], rfl, Or.inl rfl⟩
      obtain ⟨sg, es, hsg'⟩ := hsg
      refine ⟨sg ++ (i ++ (f ++ e)), ?_, sg, i, f, e, rfl, hsg', hi', hf', he'⟩
      rw [List.append_assoc, List.append_assoc, List.append_assoc, ← ee, ← ef, ← ei]
      exact es

theorem json_int_head {i : List Nat} (hi : json_int i) (y : List Nat) :
    ISDIGIT ((i ++ y).headD 0) = true := by
  rcases hi with rfl | ⟨d, ds, rfl, hd, _⟩
  · rfl
  · simpa using digit1to9_isdigit hd

theorem number_sign_complete (sg y : List Nat) (hs : sg = [0x2D] ∨ (sg = [] ∧ y.headD 0 ≠ 0x2D)) :
    number_sign (sg ++ y) = y := by
  unfold number_sign
  rcases hs with rfl | ⟨rfl, hy⟩
  · simp
  · simp only [List.nil_append, hy, if_false]

theorem number_int_complete (i y : List Nat) (hi : json_int i)
    (hy : ISDIGIT (y.headD 0) = false) : number_int (i ++ y) = some y := by
  unfold number_int
  rcases hi with rfl | ⟨d, ds, rfl, hd, hds⟩
  · simp
  · have hb : 0x31 ≤ d ∧ d ≤ 0x39 := by simpa [ISDIGIT1TO9] using hd
    have h0 : ¬ d = 0x30 := by omega
    simp only [List.cons_append, List.headD_cons, h0, if_false, hd, if_true, List.tail_cons,
      dropWhile_digits_append ds y hds hy]

theorem number_int_none (x : List Nat) (hx : ISDIGIT (x.headD 0) = false) :
    number_int x = none := by
  unfold number_int
  have h0 : ¬ x.headD 0 = 0x30 := by
    intro h; rw [h] at hx; exact absurd hx (by decide)
  have h9 : ¬ ISDIGIT1TO9 (x.headD 0) = true := by
    intro h; rw [digit1to9_isdigit h] at hx; cases hx
  simp only [h0, h9, if_false, Bool.false_eq_true]

theorem number_frac_complete (f y : List Nat) (hf : json_frac f)
    (h1 : f = [] → y.headD 0 ≠ 0x2E) (h2 : f ≠ [] → ISDIGIT (y.headD 0) = false) :
    number_frac (f ++ y) = some y := by
  unfold number_frac
  rcases hf with rfl | ⟨ds, rfl, hne, hds⟩
  · simp only [List.nil_append, h1 rfl, if_false]
  · cases ds with
    | nil => exact absurd rfl hne
    | cons d t =>
      have hd := hds d (List.mem_cons_self d t)
      simp only [List.cons_append, List.headD_cons, if_true, List.tail_cons, hd]
      rw [dropWhile_digits_append t y (fun x hx => hds x (List.mem_cons_of_mem d hx))
        (h2 (by simp))]

theorem number_frac_none (x : List Nat) (hx : ISDIGIT (x.headD 0) = false) :
    number_frac (0x2E :: x) = none := by
  unfold number_frac
  simp only [List.headD_cons, if_true, List.tail_cons, hx, Bool.false_eq_true, if_false]

theorem number_exp_complete (e y : List Nat) (he : json_exp e)
    (h1 : e = [] → y.headD 0 ≠ 0x65 ∧ y.headD 0 ≠ 0x45)
    (h2 : e ≠ [] → ISDIGIT (y.headD 0) = false) :
    number_exp (e ++ y) = some y := by
  unfold number_exp
  rcases he with rfl | ⟨c, sg, ds, rfl, hc, hsg, hne, hds⟩
  · have := h1 rfl
    have hn : ¬ (y.headD 0 = 0x65 ∨ y.headD 0 = 0x45) := by omega
    simp only [List.nil_append, hn, if_false]
  · have hy := h2 (by simp)
    cases ds with
    | nil => exact absurd rfl hne
    | cons d t =>
      have hd := hds d (List.mem_cons_self d t)
      have hb := isdigit_bounds hd
      have hdt := dropWhile_digits_append t y
        (fun x hx => hds x (List.mem_cons_of_mem d hx)) hy
      have hd1 : ¬ (d = 0x2D ∨ d = 0x2B) := by omega
      rcases hsg with rfl | rfl | rfl <;>
        simp [hc, hd, hdt, hd1]

theorem number_exp_none (c : Nat) (es x : List Nat) (hc : c = 0x65 ∨ c = 0x45)
    (hes : es = [0x2B] ∨ es = [0x2D] ∨ (es = [] ∧ x.headD 0 ≠ 0x2B ∧ x.headD 0 ≠ 0x2D))
    (hx : ISDIGIT (x.headD 0) = false) :
    number_exp (c :: (es ++ x)) = none := by
  unfold number_exp
  rcases hes with rfl | rfl | ⟨rfl, h1, h2⟩
  · simp only [List.headD_cons, hc, if_true, List.tail_cons, List.cons_append,
      List.nil_append, true_or, or_true, hx, Bool.false_eq_true, if_false]
  · simp only [List.headD_cons, hc, if_true, List.tail_cons, List.cons_append,
      List.nil_append, true_or, or_true, hx, Bool.false_eq_true, if_false]
  · have hn : ¬ (x.headD 0 = 0x2D ∨ x.headD 0 = 0x2B) := by omega
    simp only [List.headD_cons, hc, if_true, List.tail_cons, List.nil_append, hn, if_false, hx,
      Bool.false_eq_true]

theorem json_frac_exp_head (f e y : List Nat) (hf : json_frac f) (he : json_exp e)
    (hy : number_stop (y.headD 0)) :
    ISDIGIT ((f ++ (e ++ y)).headD 0) = false := by
  rcases hf with rfl | ⟨ds, rfl, _, _⟩
  · rcases he with rfl | ⟨c, sg, ds, rfl, hc, _⟩
    · exact hy.1
    · rcases hc with rfl | rfl <;> rfl
  · rfl

theorem json_exp_head (e y : List Nat) (he : json_exp e) (hy : number_stop (y.headD 0)) :
    ISDIGIT ((e ++ y).headD 0) = false ∧ (e ++ y).headD 0 ≠ 0x2E := by
  rcases he with rfl | ⟨c, sg, ds, rfl, hc, _⟩
  · exact ⟨hy.1, hy.2.1⟩
  · rcases hc with rfl | rfl <;>
      exact ⟨rfl, by simp only [List.cons_append, List.headD_cons]; decide⟩

theorem number_scan_complete (t y : List Nat) (ht : json_number t)
    (hy : number_stop (y.headD 0)) : syjson_number_scan (t ++ y) = some y := by
  obtain ⟨sg, i, f, e, rfl, hsg, hi, hf, he⟩ := ht
  unfold syjson_number_scan
  have e1 : sg ++ (i ++ (f ++ e)) ++ y = sg ++ (i ++ (f ++ (e ++ y))) := by
    simp only [List.append_assoc]
  rw [e1, number_sign_complete sg _ (by
    rcases hsg with rfl | rfl
    · right
      refine ⟨rfl, ?_⟩
      have := isdigit_bounds (json_int_head hi (f ++ (e ++ y)))
      omega
    · left; rfl),
    number_int_complete i _ hi (json_frac_exp_head f e y hf he hy)]
  simp only [Option.some_bind]
  rw [number_frac_complete f _ hf (fun _ => (json_exp_head e y he hy).2)
    (fun _ => (json_exp_head e y he hy).1)]
  simp only [Option.some_bind]
  exact number_exp_complete e y he (fun _ => ⟨hy.2.2.1, hy.2.2.2⟩) (fun _ => hy.1)

theorem number_scan_missing_digit (r : List Nat) (h : missing_digit r) :
    syjson_number_scan r = none := by
  unfold syjson_number_scan
  rcases h with ⟨sg, x, rfl, hsg, hx⟩ | ⟨sg, i, x, rfl, hsg, hi, hx⟩
    | ⟨sg, i, f, c, es, x, rfl, hsg, hi, hf, hc, hes, hx⟩
  · rw [number_sign_complete sg x hsg, number_int_none x hx]
    rfl
  · rw [number_sign_complete sg _ (by
      rcases hsg with rfl | rfl
      · right
        refine ⟨rfl, ?_⟩
        have := isdigit_bounds (json_int_head hi (0x2E :: x))
        omega
      · left; rfl),
      number_int_complete i _ hi (by rfl)]
    simp only [Option.some_bind]
    rw [number_frac_none x hx]
    rfl
  · have hch : ISDIGIT ((c :: (es ++ x)).headD 0) = false
        ∧ (c :: (es ++ x)).headD 0 ≠ 0x2E := by
      rcases hc with rfl | rfl <;>
        exact ⟨rfl, by simp only [List.headD_cons]; decide⟩
    have hfh : ISDIGIT ((f ++ c :: (es ++ x)).headD 0) = false := by
      rcases hf with rfl | ⟨ds, rfl, _, _⟩
      · exact hch.1
      · rfl
    rw [number_sign_complete sg _ (by
      rcases hsg with rfl | rfl
      · right
        refine ⟨rfl, ?_⟩
        have := isdigit_bounds (json_int_head hi (f ++ c :: (es ++ x)))
        omega
      · left; rfl),
      number_int_complete i _ hi hfh]
    simp only [Option.some_bind]
    rw [number_frac_complete f _ hf (fun _ => hch.2) (fun _ => hch.1)]
    simp only [Option.some_bind]
    exact number_exp_none c es x hc hes hx

theorem array_loop_pure_type (strtod : List Nat → Nat) :
    ∀ (fuel : Nat) (json : List Nat) (v : syjson_value) (acc : List syjson_value)
      (rest : List Nat) (v' : syjson_value),
      array_loop_pure strtod fuel json v acc = some (SYJSON_PARSE_OK, rest, v') →
      v'.type = SYJSON_ARR := by
  intro fuel
  induction fuel with
  | zero => intro json v acc rest v' h; simp [array_loop_pure] at h
  | succ fuel ih =>
    intro json v acc rest v' h
    rw [array_loop_pure] at h
    cases hv : value_pure strtod fuel json (.mk SYJSON_NULL .uninit) with
    | none => simp [hv] at h
    | some r =>
      obtain ⟨r1, r2, e⟩ := r
      simp only [hv, Option.some_bind] at h
      by_cases hr : r1 = SYJSON_PARSE_OK
      swap
      · simp only [ne_eq, hr, not_false_eq_true, if_true, Option.some.injEq,
          Prod.mk.injEq] at h
        exact h.1.elim
      simp only [ne_eq, hr, not_true_eq_false, if_false] at h
      by_cases h1 : (r2.dropWhile is_space).headD 0 = 0x2C
      · simp only [h1, if_true] at h
        exact ih _ _ _ _ _ h
      simp only [h1, if_false] at h
      by_cases h2 : (r2.dropWhile is_space).headD 0 = 0x5D
      · simp only [h2, if_true, Option.some.injEq, Prod.mk.injEq] at h
        rw [← h.2.2]; rfl
      · simp only [h2, if_false, Option.some.injEq, Prod.mk.injEq] at h
        exact absurd h.1 (by decide)

theorem object_loop_pure_type (strtod : List Nat → Nat) :
    ∀ (fuel : Nat) (json : List Nat) (v mv : syjson_value) (acc : List syjson_member)
      (rest : List Nat) (v' : syjson_value),
      object_loop_pure strtod fuel json v mv acc = some (SYJSON_PARSE_OK, rest, v') →
      v'.type = SYJSON_OBJ := by
  intro fuel
  induction fuel with
  | zero => intro json v mv acc rest v' h; simp [object_loop_pure] at h
  | succ fuel ih =>
    intro json v mv acc rest v' h
    rw [object_loop_pure] at h
    by_cases hq : json.headD 0 = 0x22
    swap
    · simp only [ne_eq, hq, not_false_eq_true, if_true, Option.some.injEq,
        Prod.mk.injEq] at h
      exact absurd h.1 (by decide)
    simp only [ne_eq, hq, not_true_eq_false, if_false] at h
    cases hs : string_pure json with
    | none => simp [hs] at h
    | some sr =>
      obtain ⟨k1, k2, k3⟩ := sr
      simp only [hs, Option.some_bind] at h
      by_cases hk : k1 = SYJSON_PARSE_OK
      swap
      · simp only [hk, not_false_eq_true, if_true, Option.some.injEq, Prod.mk.injEq] at h
        exact h.1.elim
      simp only [hk, not_true_eq_false, if_false] at h
      by_cases hc : (k2.dropWhile is_space).headD 0 = 0x3A
      swap
      · simp only [hc, not_false_eq_true, if_true, Option.some.injEq, Prod.mk.injEq] at h
        exact absurd h.1 (by decide)
      simp only [hc, not_true_eq_false, if_false] at h
      cases hv : value_pure strtod fuel ((k2.dropWhile is_space).tail.dropWhile is_space)
          (mv.set_type SYJSON_NULL) with
      | none => simp [hv] at h
      | some r =>
        obtain ⟨r1, r2, e⟩ := r
        simp only [hv, Option.some_bind] at h
        by_cases hr : r1 = SYJSON_PARSE_OK
        swap
        · simp only [hr, not_false_eq_true, if_true, Option.some.injEq, Prod.mk.injEq] at h
          exact h.1.elim
        simp only [hr, not_true_eq_false, if_false] at h
        by_cases h1 : (r2.dropWhile is_space).headD 0 = 0x2C
        · simp only [h1, if_true] at h
          exact ih _ _ _ _ _ _ h
        simp only [h1, if_false] at h
        by_cases h2 : (r2.dropWhile is_space).headD 0 = 0x7D
        · simp only [h2, if_true, Option.some.injEq, Prod.mk.injEq] at h
          rw [← h.2.2]; rfl
        · simp only [h2, if_false, Option.some.injEq, Prod.mk.injEq] at h
          exact absurd h.1 (by decide)

/-- The type of the value a successful `syjson_parse_value` leaves, by the byte the
text begins with. -/
theorem value_pure_type (strtod : List Nat → Nat) (fuel : Nat) (json rest : List Nat)
    (v v' : syjson_value)
    (h : value_pure strtod fuel json v = some (SYJSON_PARSE_OK, rest, v')) :
    (json.headD 0 = 0x6E ∧ v'.type = SYJSON_NULL)
      ∨ (json.headD 0 = 0x66 ∧ v'.type = SYJSON_FALSE)
      ∨ (json.headD 0 = 0x74 ∧ v'.type = SYJSON_TRUE)
      ∨ (json.headD 0 = 0x22 ∧ v'.type = SYJSON_STR)
      ∨ (json.headD 0 = 0x5B ∧ v'.type = SYJSON_ARR)
      ∨ (json.headD 0 = 0x7B ∧ v'.type = SYJSON_OBJ)
      ∨ (number_lead (json.headD 0) ∧ v'.type = SYJSON_NUM
          ∧ number_pure strtod json v = (SYJSON_PARSE_OK, rest, v')) := by
  cases fuel with
  | zero => simp [value_pure] at h
  | succ fuel =>
    rw [value_pure] at h
    have hlit : ∀ (lit : List Nat) (t : syjson_type),
        some (literal_pure json v lit t) = some (SYJSON_PARSE_OK, rest, v') →
        v'.type = t := by
      intro lit t hl
      simp only [Option.some.injEq] at hl
      unfold literal_pure at hl
      split at hl
      · simp only [Prod.mk.injEq] at hl
        rw [← hl.2.2]; rfl
      · simp only [Prod.mk.injEq] at hl
        exact absurd hl.1 (by decide)
    by_cases h1 : json.headD 0 = 0x6E
    · simp only [h1, if_true] at h
      exact Or.inl ⟨h1, hlit _ _ h⟩
    simp only [h1, if_false] at h
    by_cases h2 : json.headD 0 = 0x66
    · simp only [h2, if_true] at h
      exact Or.inr (Or.inl ⟨h2, hlit _ _ h⟩)
    simp only [h2, if_false] at h
    by_cases h3 : json.headD 0 = 0x74
    · simp only [h3, if_true] at h
      exact Or.inr (Or.inr (Or.inl ⟨h3, hlit _ _ h⟩))
    simp only [h3, if_false] at h
    by_cases h4 : json.headD 0 = 0x22
    · simp only [h4, if_true] at h
      refine Or.inr (Or.inr (Or.inr (Or.inl ⟨h4, ?_⟩)))
      cases hs : string_pure json with
      | none => simp [hs] at h
      | some r =>
        obtain ⟨r1, r2, r3⟩ := r
        simp only [hs, Option.map_some', Option.some.injEq] at h
        by_cases hr : r1 = SYJSON_PARSE_OK
        · simp only [hr, if_true, Prod.mk.injEq] at h
          rw [← h.2.2]; rfl
        · simp only [hr, if_false, Prod.mk.injEq] at h
          exact h.1.elim
    simp only [h4, if_false] at h
    by_cases h5 : json.headD 0 = 0x5B
    · simp only [h5, if_true] at h
      refine Or.inr (Or.inr (Or.inr (Or.inr (Or.inl ⟨h5, ?_⟩))))
      cases fuel with
      | zero => simp [array_pure] at h
      | succ fuel =>
        rw [array_pure] at h
        split at h
        · simp only [Option.some.injEq, Prod.mk.injEq] at h
          rw [← h.2.2]; rfl
        · exact array_loop_pure_type strtod _ _ _ _ _ _ h
    simp only [h5, if_false] at h
    by_cases h6 : json.headD 0 = 0x7B
    · simp only [h6, if_true] at h
      refine Or.inr (Or.inr (Or.inr (Or.inr (Or.inr (Or.inl ⟨h6, ?_⟩)))))
      cases fuel with
      | zero => simp [object_pure] at h
      | succ fuel =>
        rw [object_pure] at h
        split at h
        · simp only [Option.some.injEq, Prod.mk.injEq] at h
          rw [← h.2.2]; rfl
        · exact object_loop_pure_type strtod _ _ _ _ _ _ _ h
    simp only [h6, if_false] at h
    by_cases h7 : json.headD 0 = 0
    · simp only [h7, if_true, Option.some.injEq, Prod.mk.injEq] at h
      exact absurd h.1 (by decide)
    simp only [h7, if_false, Option.some.injEq] at h
    refine Or.inr (Or.inr (Or.inr (Or.inr (Or.inr (Or.inr
      ⟨⟨h1, h2, h3, h4, h5, h6, h7⟩, ?_, h⟩)))))
    rw [number_pure_eq] at h
    cases hs : syjson_number_scan json with
    | none => simp only [hs, Prod.mk.injEq] at h; exact absurd h.1 (by decide)
    | some p =>
      simp only [hs] at h
      split at h
      · simp only [Prod.mk.injEq] at h; exact absurd h.1 (by decide)
      · simp only [Prod.mk.injEq] at h
        rw [← h.2.2]; rfl

theorem value_pure_lead (strtod : List Nat → Nat) (fuel : Nat) (json : List Nat)
    (v : syjson_value) (h : number_lead (json.headD 0)) :
    value_pure strtod (fuel + 1) json v = some (number_pure strtod json v) := by
  rw [value_pure]
  obtain ⟨h1, h2, h3, h4, h5, h6, h7⟩ := h
  simp only [h1, h2, h3, h4, h5, h6, h7, if_false]

theorem dropWhile_space_append (W y : List Nat) (hW : ∀ b ∈ W, is_space b = true)
    (hy : is_space (y.headD 0) = false) : (W ++ y).dropWhile is_space = y := by
  induction W with
  | nil => exact dropWhile_space_of_head hy
  | cons a t ih =>
    have := hW a (List.mem_cons_self a t)
    simp only [List.cons_append, List.dropWhile_cons, this, if_true]
    exact ih (fun b hb => hW b (List.mem_cons_of_mem a hb))

theorem space_split (l : List Nat) :
    ∃ W, l = W ++ l.dropWhile is_space ∧ ∀ b ∈ W, is_space b = true :=
  ⟨l.takeWhile is_space, (List.takeWhile_append_dropWhile is_space l).symm,
    fun _ hx => List.mem_takeWhile_imp hx⟩

theorem headD_zero_nil {l : List Nat} (h : l.headD 0 = 0) (h0 : ∀ b ∈ l, b ≠ 0) : l = [] := by
  cases l with
  | nil => rfl
  | cons a t =>
    simp only [List.headD_cons] at h
    exact absurd h (h0 a (List.mem_cons_self a t))

theorem spaces_stop (W : List Nat) (hW : ∀ b ∈ W, is_space b = true) :
    number_stop (W.headD 0) ∧ (W.dropWhile is_space).headD 0 = 0 := by
  have hd : W.dropWhile is_space = [] := by
    rw [List.dropWhile_eq_nil_iff]; exact hW
  refine ⟨?_, by rw [hd]; rfl⟩
  cases W with
  | nil => exact ⟨rfl, by decide, by decide, by decide⟩
  | cons a t =>
    have ha := hW a (List.mem_cons_self a t)
    simp only [List.headD_cons]
    simp only [is_space, Bool.or_eq_true, beq_iff_eq] at ha
    unfold number_stop ISDIGIT
    rcases ha with ((rfl | rfl) | rfl) | rfl <;> decide

theorem json_number_head {t : List Nat} (ht : json_number t) (y : List Nat) :
    number_lead ((t ++ y).headD 0) ∧ is_space ((t ++ y).headD 0) = false := by
  obtain ⟨sg, i, f, e, rfl, hsg, hi, _, _⟩ := ht
  rcases hsg with rfl | rfl
  · have h := json_int_head hi (f ++ e ++ y)
    have hb := isdigit_bounds h
    have e1 : ([] ++ (i ++ (f ++ e)) ++ y).headD 0 = (i ++ (f ++ e ++ y)).headD 0 := by
      simp only [List.nil_append, List.append_assoc]
    rw [e1]
    refine ⟨⟨?_, ?_, ?_, ?_, ?_, ?_, ?_⟩, isdigit_not_space h⟩ <;> omega
  · refine ⟨?_, rfl⟩
    simp only [List.singleton_append, List.cons_append, List.headD_cons]
    unfold number_lead
    decide

/-- C4: for every input text `s` (without a NUL byte), `syjson_parse` returns
`SYJSON_PARSE_OK` with a root of type `SYJSON_NUM` exactly when `s` is whitespace, a
number `N` of the grammar (optional `-`; `0` or `1`-`9` and digits; optional `.` and
digits; optional `e`/`E`, optional sign and digits) and whitespace, and the result of
`strtod` on the text from `N` on is not an infinity.  And every input whose first
significant byte goes to the number scanner and that lacks a digit where the grammar
requires one (after the optional `-`, after `.`, after the exponent marker and its
optional sign) yields `SYJSON_PARSE_INVALID_VALUE`. -/
theorem number_accept_iff (strtod : List Nat → Nat) (v : syjson_value) (s : List Nat)
    (h0 : ∀ b ∈ s, b ≠ 0) :
    ((∃ v', syjson_parse strtod v s = .ok (SYJSON_PARSE_OK, v') ∧ v'.type = SYJSON_NUM)
        ↔ ∃ W N W', s = W ++ (N ++ W') ∧ (∀ b ∈ W, is_space b = true)
            ∧ (∀ b ∈ W', is_space b = true) ∧ json_number N
            ∧ number_too_big (strtod (N ++ W')) = false)
      ∧ (∀ W r : List Nat, (∀ b ∈ W, is_space b = true) → number_lead (r.headD 0) →
          is_space (r.headD 0) = false → missing_digit r →
          ∃ v', syjson_parse strtod v (W ++ r) = .ok (SYJSON_PARSE_INVALID_VALUE, v')) := by
  refine ⟨⟨?_, ?_⟩, ?_⟩
  · rintro ⟨v', hp, hty⟩
    obtain ⟨ret, rest, w, hv, e⟩ := parse_eq strtod v s
    rw [hp] at e
    simp only [outcome.ok.injEq] at e
    by_cases hr : ret = SYJSON_PARSE_OK
    swap
    · simp only [hr, if_false, Prod.mk.injEq] at e
      exact absurd e.1.symm hr
    subst hr
    simp only [if_true] at e
    by_cases hz : (rest.dropWhile is_space).headD 0 = 0
    swap
    · simp only [hz, if_false, Prod.mk.injEq] at e
      exact absurd e.1 (by decide)
    simp only [hz, if_true, Prod.mk.injEq, true_and] at e
    subst e
    rcases value_pure_type strtod _ _ _ _ _ hv with h | h | h | h | h | h | h
    · rw [h.2] at hty; cases hty
    · rw [h.2] at hty; cases hty
    · rw [h.2] at hty; cases hty
    · rw [h.2] at hty; cases hty
    · rw [h.2] at hty; cases hty
    · rw [h.2] at hty; cases hty
    · obtain ⟨_, _, hn⟩ := h
      rw [number_pure_eq] at hn
      cases hs : syjson_number_scan (s.dropWhile is_space) with
      | none => simp only [hs, Prod.mk.injEq] at hn; exact absurd hn.1 (by decide)
      | some p =>
        simp only [hs] at hn
        by_cases hb : number_too_big (strtod (s.dropWhile is_space)) = true
        · simp only [hb, if_true, Prod.mk.injEq] at hn; exact absurd hn.1 (by decide)
        simp only [hb, Bool.false_eq_true, if_false, Prod.mk.injEq, true_and] at hn
        have hpr : p = rest := hn.1
        rw [← hpr] at hz
        obtain ⟨N, eN, hN⟩ := number_scan_sound _ _ hs
        obtain ⟨W, eW, hW⟩ := space_split s
        have hsub : ∀ b ∈ p, b ∈ s := by
          intro b hb
          rw [eW, eN]
          simp [hb]
        have hp0 : ∀ b ∈ p.dropWhile is_space, b ≠ 0 := fun b hb =>
          h0 b (hsub b ((List.dropWhile_suffix is_space).subset hb))
        have hnil := headD_zero_nil hz hp0
        rw [List.dropWhile_eq_nil_iff] at hnil
        refine ⟨W, N, p, ?_, hW, hnil, hN, ?_⟩
        · rw [← eN]; exact eW
        · rw [← eN]; simpa using hb
  · rintro ⟨W, N, W', rfl, hW, hW', hN, hb⟩
    obtain ⟨ret, rest, w, hv, e⟩ := parse_eq strtod v (W ++ (N ++ W'))
    obtain ⟨hlead, hsp⟩ := json_number_head hN W'
    obtain ⟨hstop, hz⟩ := spaces_stop W' hW'
    rw [dropWhile_space_append W _ hW hsp, parse_fuel, value_pure_lead strtod _ _ _ hlead,
      number_pure_eq, number_scan_complete N W' hN hstop] at hv
    simp only [hb, Bool.false_eq_true, if_false, Option.some.injEq, Prod.mk.injEq] at hv
    obtain ⟨rfl, rfl, rfl⟩ := hv
    simp only [if_true, hz] at e
    exact ⟨_, e, rfl⟩
  · intro W r hW hlead hsp hm
    obtain ⟨ret, rest, w, hv, e⟩ := parse_eq strtod v (W ++ r)
    rw [dropWhile_space_append W _ hW hsp, parse_fuel, value_pure_lead strtod _ _ _ hlead,
      number_pure_eq, number_scan_missing_digit r hm] at hv
    simp only [Option.some.injEq, Prod.mk.injEq] at hv
    obtain ⟨rfl, rfl, rfl⟩ := hv
    rw [if_neg (by decide)] at e
    exact ⟨_, e⟩

/-- C4, instance: the text ` -1.5e+3 ` (one space on each side) is accepted as a number,
and the text ` 1.x` is rejected with `SYJSON_PARSE_INVALID_VALUE` (no digit after the
`.`). -/
theorem number_accept_iff_witness :
    (∀ b ∈ bytes " -1.5e+3 ", b ≠ 0)
      ∧ (∃ v', syjson_parse strtod_int v_init (bytes " -1.5e+3 ") = .ok (SYJSON_PARSE_OK, v')
          ∧ v'.type = SYJSON_NUM)
      ∧ (∃ v', syjson_parse strtod_int v_init ([0x20] ++ bytes "1.x")
          = .ok (SYJSON_PARSE_INVALID_VALUE, v')) :=
  ⟨by decide,
   (number_accept_iff strtod_int v_init (bytes " -1.5e+3 ") (by decide)).1.2
     ⟨[0x20], bytes "-1.5e+3", [0x20], by decide, by decide, by decide,
       ⟨[0x2D], [0x31], [0x2E, 0x35], [0x65, 0x2B, 0x33], by decide, Or.inr rfl,
         Or.inr ⟨0x31, [], rfl, by decide, by decide⟩,
         Or.inr ⟨[0x35], rfl, by decide, by decide⟩,
         Or.inr ⟨0x65, [0x2B], [0x33], rfl, Or.inl rfl, Or.inr (Or.inl rfl), by decide,
           by decide⟩⟩,
       by decide!⟩,
   (number_accept_iff strtod_int v_init (bytes " -1.5e+3 ") (by decide)).2
     [0x20] (bytes "1.x") (by decide) (by unfold number_lead; decide) (by decide)
     (Or.inr (Or.inl ⟨[], [0x31], [0x78], by decide, Or.inl rfl,
       Or.inr ⟨0x31, [], rfl, by decide, by decide⟩, by decide⟩))⟩

/-! ## Strings -/

theorem string_decode_item (it : str_item) (hv : it.valid) (fuel : Nat)
    (rest acc : List Nat) :
    string_decode (fuel + 1) (it.text ++ rest) acc
      = string_decode fuel rest (acc ++ [it.byte]) := by
  rw [string_decode]
  cases it with
  | raw b =>
    obtain ⟨h1, h2, h3, h4, h5⟩ := hv
    have h6 : ¬ b = 0 := by omega
    have h7 : ¬ (b < 0x20 ∨ b = 0x7F) := by omega
    simp only [str_item.text, str_item.byte, List.singleton_append, List.headD_cons,
      List.tail_cons, h4, h5, h6, h7, if_false, Nat.mod_eq_of_lt h2]
  | esc e =>
    simp only [str_item.text, str_item.byte, List.cons_append, List.nil_append,
      List.headD_cons, List.tail_cons]
    rcases hv with rfl | rfl | rfl | rfl | rfl | rfl | rfl | rfl <;> rfl

theorem string_decode_body (body : List str_item) (hv : ∀ it ∈ body, it.valid) :
    ∀ (fuel : Nat) (rest acc : List Nat), body.length < fuel →
      string_decode fuel ((body.map str_item.text).flatten ++ 0x22 :: rest) acc
        = some (SYJSON_PARSE_OK, rest, acc ++ body.map str_item.byte) := by
  induction body with
  | nil =>
    intro fuel rest acc hf
    cases fuel with
    | zero => omega
    | succ fuel =>
      rw [string_decode]
      simp
  | cons it t ih =>
    intro fuel rest acc hf
    cases fuel with
    | zero => omega
    | succ fuel =>
      simp only [List.map_cons, List.flatten_cons, List.append_assoc]
      rw [string_decode_item it (hv it (List.mem_cons_self it t)),
        ih (fun x hx => hv x (List.mem_cons_of_mem it hx)) fuel rest _
          (by simp only [List.length_cons] at hf; omega)]
      simp

theorem item_text_length (it : str_item) : 1 ≤ it.text.length := by
  cases it <;> simp [str_item.text]

theorem body_text_length (body : List str_item) :
    body.length ≤ (body.map str_item.text).flatten.length := by
  induction body with
  | nil => simp
  | cons it t ih =>
    have := item_text_length it
    simp only [List.map_cons, List.flatten_cons, List.length_append, List.length_cons]
    omega

/-- The scan of a string whose body is made of valid pieces, followed by any text. -/
theorem string_pure_body (body : List str_item) (hv : ∀ it ∈ body, it.valid)
    (rest : List Nat) :
    string_pure (0x22 :: ((body.map str_item.text).flatten ++ 0x22 :: rest))
      = some (SYJSON_PARSE_OK, rest, body.map str_item.byte) := by
  unfold string_pure
  have := string_decode_body body hv
    (((0x22 :: ((body.map str_item.text).flatten ++ 0x22 :: rest)).tail).length + 1) rest []
    (by
      have := body_text_length body
      simp only [List.tail_cons, List.length_append, List.length_cons]
      omega)
  simpa using this

/-- C9: for every string body made of raw bytes that are at least 0x20 and are not
0x7F, the double quote or the backslash, and of the eight one-character escapes,
`syjson_parse` of the body between double quotes returns `SYJSON_PARSE_OK` with a root
of type `SYJSON_STR`; the stored bytes are the body with every escape replaced by its
byte and every raw byte copied, in order; the stored length is the number of decoded
bytes; and the buffer ends with a NUL after them. -/
theorem string_bytes_exact (strtod : List Nat → Nat) (v : syjson_value)
    (body : List str_item) (hv : ∀ it ∈ body, it.valid) :
    ∃ w, syjson_parse strtod v (string_text body) = .ok (SYJSON_PARSE_OK, w)
      ∧ syjson_get_type w = SYJSON_STR
      ∧ syjson_get_string w = .ok (body.map str_item.byte ++ [0])
      ∧ syjson_get_string_length w = .ok (body.map str_item.byte).length
      ∧ (body.map str_item.byte).length = body.length := by
  obtain ⟨ret, rest, w, hp, e⟩ := parse_eq strtod v (string_text body)
  have hd : (string_text body).dropWhile is_space = string_text body :=
    dropWhile_space_of_head (by rfl)
  have hs := string_pure_body body hv []
  rw [hd, parse_fuel, value_pure] at hp
  have hh : (string_text body).headD 0 = 0x22 := rfl
  have h1 : ¬ (string_text body).headD 0 = 0x6E := by rw [hh]; decide
  have h2 : ¬ (string_text body).headD 0 = 0x66 := by rw [hh]; decide
  have h3 : ¬ (string_text body).headD 0 = 0x74 := by rw [hh]; decide
  simp only [h1, h2, h3, if_false, hh, if_true] at hp
  unfold string_text at hp
  rw [hs] at hp
  simp only [Option.map_some', if_true, Option.some.injEq, Prod.mk.injEq] at hp
  obtain ⟨rfl, rfl, rfl⟩ := hp
  refine ⟨_, e, rfl, rfl, rfl, by simp⟩

/-- C9, instance: the body made of the raw byte `a`, the escapes of `n`, of the double
quote and of the backslash, and the two raw bytes C3 A9. -/
theorem string_bytes_exact_witness :
    (∀ it ∈ [str_item.raw 0x61, .esc 0x6E, .esc 0x22, .esc 0x5C, .raw 0xC3, .raw 0xA9],
        it.valid)
      ∧ string_text [str_item.raw 0x61, .esc 0x6E, .esc 0x22, .esc 0x5C, .raw 0xC3, .raw 0xA9]
          = [0x22, 0x61, 0x5C, 0x6E, 0x5C, 0x22, 0x5C, 0x5C, 0xC3, 0xA9, 0x22]
      ∧ ∃ w, syjson_parse strtod_int v_init
            (string_text [str_item.raw 0x61, .esc 0x6E, .esc 0x22, .esc 0x5C, .raw 0xC3,
              .raw 0xA9]) = .ok (SYJSON_PARSE_OK, w)
          ∧ syjson_get_type w = SYJSON_STR
          ∧ syjson_get_string w
              = .ok ([str_item.raw 0x61, .esc 0x6E, .esc 0x22, .esc 0x5C, .raw 0xC3,
                  .raw 0xA9].map str_item.byte ++ [0])
          ∧ syjson_get_string_length w
              = .ok ([str_item.raw 0x61, .esc 0x6E, .esc 0x22, .esc 0x5C, .raw 0xC3,
                  .raw 0xA9].map str_item.byte).length
          ∧ ([str_item.raw 0x61, .esc 0x6E, .esc 0x22, .esc 0x5C, .raw 0xC3,
                  .raw 0xA9].map str_item.byte).length = 6 :=
  ⟨by simp [str_item.valid], by rfl,
   string_bytes_exact strtod_int v_init
     [str_item.raw 0x61, .esc 0x6E, .esc 0x22, .esc 0x5C, .raw 0xC3, .raw 0xA9]
     (by simp [str_item.valid])⟩

/-! ## Parsing a value inside a longer text -/

theorem headD_append {p : List Nat} (h : p.headD 0 ≠ 0) (r : List Nat) :
    (p ++ r).headD 0 = p.headD 0 ∧ (p ++ r).tail = p.tail ++ r := by
  cases p with
  | nil => simp at h
  | cons a t => simp

theorem dropWhile_append_ne (p : Nat → Bool) (l r : List Nat) (h : l.dropWhile p ≠ []) :
    (l ++ r).dropWhile p = l.dropWhile p ++ r := by
  induction l with
  | nil => simp at h
  | cons a t ih =>
    by_cases ha : p a = true
    · simp only [List.cons_append, List.dropWhile_cons, ha, if_true] at h ⊢
      exact ih h
    · simp [List.dropWhile_cons, ha]

theorem ne_nil_of_headD {l : List Nat} {x : Nat} (h : l.headD 0 = x) (hx : x ≠ 0) :
    l ≠ [] := by
  intro hl; rw [hl] at h; simp at h; exact hx h.symm

theorem hex4_loop_append (r : List Nat) :
    ∀ (i : Nat) (p : List Nat) (u : Nat) (q : List Nat) (w : Nat),
      hex4_loop i p u = some (q, w) → hex4_loop i (p ++ r) u = some (q ++ r, w) := by
  intro i
  induction i with
  | zero =>
    intro p u q w h
    simp only [hex4_loop, Option.some.injEq, Prod.mk.injEq] at h ⊢
    exact ⟨by rw [h.1], h.2⟩
  | succ i ih =>
    intro p u q w h
    rw [hex4_loop] at h ⊢
    by_cases h0 : p.headD 0 = 0
    · simp [h0, -List.headD_eq_head?_getD] at h
    obtain ⟨e1, e2⟩ := headD_append h0 r
    simp only [e1, e2]
    split at h
    · rename_i hc; simp only [hc, if_true]; exact ih _ _ _ _ h
    · rename_i hc
      split at h
      · rename_i hc2; simp only [hc, hc2, if_true, if_false]; exact ih _ _ _ _ h
      · rename_i hc2
        split at h
        · rename_i hc3; simp only [hc, hc2, hc3, if_true, if_false]; exact ih _ _ _ _ h
        · cases h

theorem string_unicode_append (p q r : List Nat) (u : Nat)
    (h : string_unicode p = .ok (q, u)) : string_unicode (p ++ r) = .ok (q ++ r, u) := by
  unfold string_unicode at h ⊢
  cases h1 : syjson_parse_hex4 p with
  | none => simp [h1] at h
  | some x =>
    obtain ⟨p1, u1⟩ := x
    have a1 : syjson_parse_hex4 (p ++ r) = some (p1 ++ r, u1) :=
      hex4_loop_append r 4 p 0 p1 u1 h1
    simp only [h1, a1] at h ⊢
    by_cases hs : 0xd800 ≤ u1 ∧ u1 ≤ 0xdbff
    · simp only [hs, and_self, if_true] at h ⊢
      by_cases hb : p1.headD 0 = 0x5C
      swap
      · simp [hb, -List.headD_eq_head?_getD] at h
      obtain ⟨e1, e2⟩ := headD_append (p := p1) (by omega) r
      by_cases hu : p1.tail.headD 0 = 0x75
      swap
      · simp [hb, hu, -List.headD_eq_head?_getD] at h
      obtain ⟨e3, e4⟩ := headD_append (p := p1.tail) (by omega) r
      simp only [hb, hu, ne_eq, not_true_eq_false, if_false] at h
      simp only [e1, e2, e3, e4, hb, hu, ne_eq, not_true_eq_false, if_false]
      cases h2 : syjson_parse_hex4 p1.tail.tail with
      | none => simp [h2] at h
      | some y =>
        obtain ⟨p2, u2⟩ := y
        have a2 : syjson_parse_hex4 (p1.tail.tail ++ r) = some (p2 ++ r, u2) :=
          hex4_loop_append r 4 _ 0 p2 u2 h2
        simp only [h2, a2] at h ⊢
        split at h
        · cases h
        · rename_i hc
          simp only [hc, if_false]
          simp only [Except.ok.injEq, Prod.mk.injEq] at h ⊢
          exact ⟨by rw [h.1], h.2⟩
    · simp only [hs, if_false] at h ⊢
      simp only [Except.ok.injEq, Prod.mk.injEq] at h ⊢
      exact ⟨by rw [h.1], h.2⟩

theorem string_decode_append (r : List Nat) :
    ∀ (fuel : Nat) (p acc rest bytes : List Nat) (fuel2 : Nat),
      string_decode fuel p acc = some (SYJSON_PARSE_OK, rest, bytes) → fuel ≤ fuel2 →
      string_decode fuel2 (p ++ r) acc = some (SYJSON_PARSE_OK, rest ++ r, bytes) := by
  intro fuel
  induction fuel with
  | zero => intro p acc rest bytes fuel2 h; simp [string_decode] at h
  | succ fuel ih =>
    intro p acc rest bytes fuel2 h hf
    obtain ⟨g, rfl⟩ : ∃ g, fuel2 = g + 1 := ⟨fuel2 - 1, by omega⟩
    have hg : fuel ≤ g := by omega
    rw [string_decode] at h ⊢
    by_cases h0 : p.headD 0 = 0
    · simp [h0, -List.headD_eq_head?_getD] at h
    obtain ⟨e1, e2⟩ := headD_append h0 r
    simp only [e1, e2]
    by_cases h1 : p.headD 0 = 0x22
    · simp only [h1, if_true, Option.some.injEq, Prod.mk.injEq, true_and] at h ⊢
      exact ⟨by rw [h.1], h.2⟩
    simp only [h1, if_false] at h ⊢
    by_cases h2 : p.headD 0 = 0x5C
    · simp only [h2, if_true] at h ⊢
      by_cases h00 : p.tail.headD 0 = 0
      · simp [h00, string_escape, -List.headD_eq_head?_getD] at h
      obtain ⟨e3, e4⟩ := headD_append h00 r
      simp only [e3, e4]
      cases hesc : string_escape (p.tail.headD 0) with
      | some b =>
        simp only [hesc] at h ⊢
        exact ih _ _ _ _ g h hg
      | none =>
        simp only [hesc] at h ⊢
        by_cases h3 : p.tail.headD 0 = 0x75
        · simp only [h3, if_true] at h ⊢
          cases hu : string_unicode p.tail.tail with
          | error e =>
            simp only [hu, Option.some.injEq, Prod.mk.injEq] at h
            exact absurd h.1 (string_unicode_error _ _ hu)
          | ok pu =>
            obtain ⟨q, u⟩ := pu
            simp only [hu] at h
            rw [string_unicode_append _ _ r _ hu]
            exact ih _ _ _ _ g h hg
        · simp only [h3, if_false, Option.some.injEq, Prod.mk.injEq] at h
          exact absurd h.1 (by decide)
    simp only [h2, if_false, h0] at h ⊢
    by_cases h5 : p.headD 0 < 0x20 ∨ p.headD 0 = 0x7F
    · simp only [h5, if_true, Option.some.injEq, Prod.mk.injEq] at h
      exact absurd h.1 (by decide)
    simp only [h5, if_false] at h ⊢
    exact ih _ _ _ _ g h hg

theorem string_pure_append (json rest bytes r : List Nat)
    (h : string_pure json = some (SYJSON_PARSE_OK, rest, bytes)) :
    string_pure (json ++ r) = some (SYJSON_PARSE_OK, rest ++ r, bytes) := by
  unfold string_pure at h ⊢
  cases json with
  | nil =>
    simp [string_decode] at h
  | cons a t =>
    simp only [List.tail_cons, List.cons_append] at h ⊢
    exact string_decode_append r _ _ _ _ _ _ h (by simp)

theorem literal_scan_append (r : List Nat) :
    ∀ (ls p : List Nat), (∀ l ∈ ls, l ≠ 0) → syjson_literal_scan p ls = true →
      ls.length ≤ p.length ∧ syjson_literal_scan (p ++ r) ls = true := by
  intro ls
  induction ls with
  | nil => intro p _ _; exact ⟨Nat.zero_le _, rfl⟩
  | cons l t ih =>
    intro p h0 h
    rw [syjson_literal_scan] at h ⊢
    by_cases hl : p.headD 0 = l
    · have hne : p.headD 0 ≠ 0 := by rw [hl]; exact h0 l (List.mem_cons_self l t)
      obtain ⟨e1, e2⟩ := headD_append hne r
      simp only [ne_eq, hl, not_true_eq_false, if_false] at h
      obtain ⟨a, b⟩ := ih p.tail (fun x hx => h0 x (List.mem_cons_of_mem l hx)) h
      have hp := headD_pos hl (h0 l (List.mem_cons_self l t))
      refine ⟨?_, ?_⟩
      · simp only [List.length_cons, List.length_tail] at a ⊢; omega
      · simp only [e1, e2, ne_eq, hl, not_true_eq_false, if_false]
        exact b
    · simp [hl, -List.headD_eq_head?_getD] at h

theorem literal_pure_append (json rest r : List Nat) (v u v' : syjson_value)
    (lit : List Nat) (t : syjson_type) (h0 : ∀ l ∈ lit.tail, l ≠ 0)
    (hj : json.headD 0 ≠ 0)
    (h : literal_pure json v lit t = (SYJSON_PARSE_OK, rest, v')) :
    literal_pure (json ++ r) u lit t = (SYJSON_PARSE_OK, rest ++ r, u.set_type t)
      ∧ v' = v.set_type t := by
  unfold literal_pure at h ⊢
  obtain ⟨_, e2⟩ := headD_append hj r
  by_cases hs : syjson_literal_scan json.tail lit.tail = true
  · obtain ⟨a, b⟩ := literal_scan_append r _ _ h0 hs
    simp only [hs, if_true, Prod.mk.injEq, true_and] at h
    simp only [e2, b, if_true, Prod.mk.injEq, true_and, and_true]
    refine ⟨?_, h.2.symm⟩
    rw [← h.1, List.drop_append_of_le_length]
    have : lit.tail.length = lit.length - 1 := by simp
    omega
  · simp only [hs, Bool.false_eq_true, if_false, Prod.mk.injEq] at h
    exact absurd h.1 (by decide)

theorem delimiter_stop {b : Nat} (h : delimiter b) : number_stop b := by
  unfold delimiter at h
  unfold number_stop ISDIGIT
  rcases h with rfl | h | rfl | rfl | rfl
  · decide
  · simp only [is_space, Bool.or_eq_true, beq_iff_eq] at h
    rcases h with ((rfl | rfl) | rfl) | rfl <;> decide
  · decide
  · decide
  · decide

theorem delimiter_append {rest r : List Nat} (h1 : delimiter (rest.headD 0))
    (h2 : delimiter (r.headD 0)) : delimiter ((rest ++ r).headD 0) := by
  cases rest with
  | nil => exact h2
  | cons a t => exact h1

theorem same_value_refl (a : syjson_value) : same_value a a := ⟨rfl, fun _ _ _ => rfl⟩

/-- After the whitespace that follows a value comes `x`: the text after the value is
not empty and begins with whitespace or with `x`. -/
theorem after_space {l : List Nat} {x : Nat} (h : (l.dropWhile is_space).headD 0 = x)
    (hx : x ≠ 0) :
    l.dropWhile is_space ≠ [] ∧ (is_space (l.headD 0) = true ∨ l.headD 0 = x) := by
  refine ⟨ne_nil_of_headD h hx, ?_⟩
  cases l with
  | nil => simp at h; exact absurd h.symm hx
  | cons a t =>
    by_cases ha : is_space a = true
    · left; exact ha
    · right
      simpa [List.dropWhile_cons, ha] using h

theorem after_space_delimiter {l : List Nat} {x : Nat}
    (h : (l.dropWhile is_space).headD 0 = x) (hx : x = 0x2C ∨ x = 0x5D ∨ x = 0x7D) :
    delimiter (l.headD 0) := by
  rcases (after_space h (by omega)).2 with h1 | h1
  · exact Or.inr (Or.inl h1)
  · rw [h1]; unfold delimiter; omega

theorem value_pure_head (strtod : List Nat → Nat) (fuel : Nat) (json rest : List Nat)
    (v v' : syjson_value)
    (h : value_pure strtod fuel json v = some (SYJSON_PARSE_OK, rest, v')) :
    json.headD 0 ≠ 0 := by
  rcases value_pure_type strtod _ _ _ _ _ h with h | h | h | h | h | h | h
  all_goals first
    | (rw [h.1]; decide)
    | exact h.1.2.2.2.2.2.2

theorem number_pure_append (strtod : List Nat → Nat) (hloc : strtod_local strtod)
    (json rest r : List Nat) (v u v' : syjson_value)
    (h : number_pure strtod json v = (SYJSON_PARSE_OK, rest, v'))
    (h1 : delimiter (rest.headD 0)) (h2 : delimiter (r.headD 0)) :
    number_pure strtod (json ++ r) u = (SYJSON_PARSE_OK, rest ++ r, v') := by
  rw [number_pure_eq] at h ⊢
  cases hs : syjson_number_scan json with
  | none => simp only [hs, Prod.mk.injEq] at h; exact absurd h.1 (by decide)
  | some p =>
    simp only [hs] at h
    by_cases hb : number_too_big (strtod json) = true
    · simp only [hb, if_true, Prod.mk.injEq] at h; exact absurd h.1 (by decide)
    simp only [hb, Bool.false_eq_true, if_false, Prod.mk.injEq, true_and] at h
    obtain ⟨hp, hv⟩ := h
    subst hp
    obtain ⟨N, eN, hN⟩ := number_scan_sound _ _ hs
    have e1 : json ++ r = N ++ (p ++ r) := by rw [eN, List.append_assoc]
    have hd := delimiter_append h1 h2
    have s1 : strtod json = strtod N := by rw [eN]; exact hloc N p hN h1
    have s2 : strtod (json ++ r) = strtod N := by rw [e1]; exact hloc N _ hN hd
    have hb' : ¬ number_too_big (strtod (json ++ r)) = true := by rw [s2, ← s1]; exact hb
    have hsc : syjson_number_scan (json ++ r) = some (p ++ r) := by
      rw [e1]; exact number_scan_complete N _ hN (delimiter_stop hd)
    simp only [hsc, hb', Bool.false_eq_true, if_false, Prod.mk.injEq, true_and]
    rw [← hv, s2, s1]

theorem value_frame_step (strtod : List Nat → Nat) (hloc : strtod_local strtod) (fuel : Nat)
    (iha : array_frame strtod fuel) (iho : object_frame strtod fuel) :
    value_frame strtod (fuel + 1) := by
  intro json v u rest v' r fuel2 h hf hd1 hd2
  obtain ⟨g, rfl⟩ : ∃ g, fuel2 = g + 1 := ⟨fuel2 - 1, by omega⟩
  have hg : fuel ≤ g := by omega
  have hne := value_pure_head strtod _ _ _ _ _ h
  obtain ⟨e1, e2⟩ := headD_append hne r
  rw [value_pure] at h ⊢
  simp only [e1]
  by_cases h1 : json.headD 0 = 0x6E
  · simp only [h1, if_true, Option.some.injEq] at h ⊢
    obtain ⟨a, b⟩ := literal_pure_append json rest r v u v' lit_null SYJSON_NULL
      (by decide) hne h
    exact ⟨_, a, ⟨by rw [b]; rfl, fun h => absurd (set_type_type u _) h⟩,
      fun huv => by rw [b, huv]⟩
  simp only [h1, if_false] at h ⊢
  by_cases h2 : json.headD 0 = 0x66
  · simp only [h2, if_true, Option.some.injEq] at h ⊢
    obtain ⟨a, b⟩ := literal_pure_append json rest r v u v' lit_false SYJSON_FALSE
      (by decide) hne h
    exact ⟨_, a, ⟨by rw [b]; rfl, fun _ _ h => absurd (set_type_type u _) h⟩,
      fun huv => by rw [b, huv]⟩
  simp only [h2, if_false] at h ⊢
  by_cases h3 : json.headD 0 = 0x74
  · simp only [h3, if_true, Option.some.injEq] at h ⊢
    obtain ⟨a, b⟩ := literal_pure_append json rest r v u v' lit_true SYJSON_TRUE
      (by decide) hne h
    exact ⟨_, a, ⟨by rw [b]; rfl, fun _ h _ => absurd (set_type_type u _) h⟩,
      fun huv => by rw [b, huv]⟩
  simp only [h3, if_false] at h ⊢
  by_cases h4 : json.headD 0 = 0x22
  · simp only [h4, if_true] at h ⊢
    cases hs : string_pure json with
    | none => simp [hs] at h
    | some x =>
      obtain ⟨r1, r2, r3⟩ := x
      simp only [hs, Option.map_some', Option.some.injEq] at h
      by_cases hr : r1 = SYJSON_PARSE_OK
      · subst hr
        simp only [if_true, Prod.mk.injEq, true_and] at h
        rw [string_pure_append _ _ _ r hs]
        simp only [Option.map_some', if_true]
        refine ⟨_, by rw [h.1], ?_, fun _ => h.2⟩
        rw [← h.2]; exact same_value_refl _
      · simp only [hr, if_false, Prod.mk.injEq] at h
        exact h.1.elim
  simp only [h4, if_false] at h ⊢
  by_cases h5 : json.headD 0 = 0x5B
  · simp only [h5, if_true] at h ⊢
    exact ⟨v', iha json v u rest v' r g h5 h hg hd2, same_value_refl _, fun _ => rfl⟩
  simp only [h5, if_false] at h ⊢
  by_cases h6 : json.headD 0 = 0x7B
  · simp only [h6, if_true] at h ⊢
    exact ⟨v', iho json v u rest v' r g h6 h hg hd2, same_value_refl _, fun _ => rfl⟩
  simp only [h6, if_false, hne, Option.some.injEq] at h ⊢
  exact ⟨v', number_pure_append strtod hloc json rest r v u v' h hd1 hd2, same_value_refl _,
    fun _ => rfl⟩

theorem array_frame_step (strtod : List Nat → Nat) (fuel : Nat)
    (ihl : array_loop_frame strtod fuel) : array_frame strtod (fuel + 1) := by
  intro json v u rest v' r fuel2 hh h hf hd2
  obtain ⟨g, rfl⟩ : ∃ g, fuel2 = g + 1 := ⟨fuel2 - 1, by omega⟩
  have hg : fuel ≤ g := by omega
  obtain ⟨_, e2⟩ := headD_append (p := json) (by omega) r
  rw [array_pure] at h ⊢
  simp only [e2]
  by_cases h1 : (json.tail.dropWhile is_space).headD 0 = 0x5D
  · have hne := ne_nil_of_headD h1 (by decide)
    simp only [h1, if_true, Option.some.injEq, Prod.mk.injEq, true_and] at h
    rw [dropWhile_append_ne _ _ _ hne]
    obtain ⟨a1, a2⟩ := headD_append (p := json.tail.dropWhile is_space) (by omega) r
    obtain ⟨hA, hB⟩ := h
    subst hA hB
    simp only [a1, a2, h1, if_true]
  · simp only [h1, if_false] at h
    have hne : json.tail.dropWhile is_space ≠ [] := by
      intro hn
      rw [hn] at h
      cases fuel with
      | zero => simp [array_loop_pure] at h
      | succ fuel =>
        rw [array_loop_pure] at h
        cases hv : value_pure strtod fuel [] (.mk SYJSON_NULL .uninit) with
        | none => simp [hv] at h
        | some x =>
          obtain ⟨x1, x2, x3⟩ := x
          simp only [hv, Option.some_bind] at h
          by_cases hx : x1 = SYJSON_PARSE_OK
          · subst hx
            exact value_pure_head strtod _ _ _ _ _ hv rfl
          · simp only [ne_eq, hx, not_false_eq_true, if_true, Option.some.injEq,
              Prod.mk.injEq] at h
            exact h.1.elim
    rw [dropWhile_append_ne _ _ _ hne]
    have hh0 : (json.tail.dropWhile is_space).headD 0 ≠ 0 := by
      intro h0
      have hj := h
      cases fuel with
      | zero => simp [array_loop_pure] at h
      | succ fuel =>
        rw [array_loop_pure] at h
        cases hv : value_pure strtod fuel (json.tail.dropWhile is_space)
            (.mk SYJSON_NULL .uninit) with
        | none => simp [hv] at h
        | some x =>
          obtain ⟨x1, x2, x3⟩ := x
          simp only [hv, Option.some_bind] at h
          by_cases hx : x1 = SYJSON_PARSE_OK
          · subst hx
            exact value_pure_head strtod _ _ _ _ _ hv h0
          · simp only [ne_eq, hx, not_false_eq_true, if_true, Option.some.injEq,
              Prod.mk.injEq] at h
            exact h.1.elim
    obtain ⟨a1, _⟩ := headD_append hh0 r
    simp only [a1, h1, if_false]
    exact ihl _ v u [] rest v' r g h hg hd2

theorem array_loop_frame_step (strtod : List Nat → Nat) (fuel : Nat)
    (ihv : value_frame strtod fuel) (ihl : array_loop_frame strtod fuel) :
    array_loop_frame strtod (fuel + 1) := by
  intro json v u acc rest v' r fuel2 h hf hd2
  obtain ⟨g, rfl⟩ : ∃ g, fuel2 = g + 1 := ⟨fuel2 - 1, by omega⟩
  have hg : fuel ≤ g := by omega
  rw [array_loop_pure] at h ⊢
  cases hv : value_pure strtod fuel json (.mk SYJSON_NULL .uninit) with
  | none => simp [hv] at h
  | some x =>
    obtain ⟨r1, r2, e⟩ := x
    simp only [hv, Option.some_bind] at h
    by_cases hr : r1 = SYJSON_PARSE_OK
    swap
    · simp only [ne_eq, hr, not_false_eq_true, if_true, Option.some.injEq,
        Prod.mk.injEq] at h
      exact h.1.elim
    subst hr
    simp only [ne_eq, not_true_eq_false, if_false] at h
    have hdelim : delimiter (r2.headD 0) := by
      by_cases h1 : (r2.dropWhile is_space).headD 0 = 0x2C
      · exact after_space_delimiter h1 (Or.inl rfl)
      · by_cases h2 : (r2.dropWhile is_space).headD 0 = 0x5D
        · exact after_space_delimiter h2 (Or.inr (Or.inl rfl))
        · simp only [h1, h2, if_false, Option.some.injEq, Prod.mk.injEq] at h
          exact absurd h.1 (by decide)
    obtain ⟨e', he, _, heq⟩ := ihv json _ (.mk SYJSON_NULL .uninit) r2 e r g hv hg hdelim hd2
    have hee := heq rfl
    subst hee
    rw [he]
    simp only [Option.some_bind, ne_eq, not_true_eq_false, if_false]
    by_cases h1 : (r2.dropWhile is_space).headD 0 = 0x2C
    · obtain ⟨hne, _⟩ := after_space h1 (by decide)
      obtain ⟨a1, a2⟩ := headD_append (p := r2.dropWhile is_space) (by omega) r
      simp only [h1, if_true] at h
      rw [dropWhile_append_ne _ _ _ hne]
      simp only [a1, a2, h1, if_true]
      have hne2 : (r2.dropWhile is_space).tail.dropWhile is_space ≠ [] := by
        intro hn
        rw [hn] at h
        cases fuel with
        | zero => simp [array_loop_pure] at h
        | succ fuel =>
          rw [array_loop_pure] at h
          cases hv2 : value_pure strtod fuel [] (.mk SYJSON_NULL .uninit) with
          | none => simp [hv2] at h
          | some x =>
            obtain ⟨x1, x2, x3⟩ := x
            simp only [hv2, Option.some_bind] at h
            by_cases hx : x1 = SYJSON_PARSE_OK
            · subst hx
              exact value_pure_head strtod _ _ _ _ _ hv2 rfl
            · simp only [ne_eq, hx, not_false_eq_true, if_true, Option.some.injEq,
                Prod.mk.injEq] at h
              exact h.1.elim
      rw [dropWhile_append_ne _ _ _ hne2]
      exact ihl _ v u _ rest v' r g h hg hd2
    simp only [h1, if_false] at h
    by_cases h2 : (r2.dropWhile is_space).headD 0 = 0x5D
    · obtain ⟨hne, _⟩ := after_space h2 (by decide)
      obtain ⟨a1, a2⟩ := headD_append (p := r2.dropWhile is_space) (by omega) r
      simp only [h2, if_true, Option.some.injEq, Prod.mk.injEq, true_and] at h
      rw [dropWhile_append_ne _ _ _ hne]
      obtain ⟨hA, hB⟩ := h
      subst hA hB
      simp only [a1, a2, h2, if_true]
      rw [if_neg (by decide)]
    · simp only [h2, if_false, Option.some.injEq, Prod.mk.injEq] at h
      exact absurd h.1 (by decide)

theorem object_loop_pure_ne_nil (strtod : List Nat → Nat) (fuel : Nat) (json : List Nat)
    (v mv : syjson_value) (acc : List syjson_member) (rest : List Nat) (v' : syjson_value)
    (h : object_loop_pure strtod fuel json v mv acc = some (SYJSON_PARSE_OK, rest, v')) :
    json.headD 0 = 0x22 := by
  cases fuel with
  | zero => simp [object_loop_pure] at h
  | succ fuel =>
    rw [object_loop_pure] at h
    by_cases hq : json.headD 0 = 0x22
    · exact hq
    · simp only [ne_eq, hq, not_false_eq_true, if_true, Option.some.injEq,
        Prod.mk.injEq] at h
      exact absurd h.1 (by decide)

theorem array_loop_pure_ne_nil (strtod : List Nat → Nat) (fuel : Nat) (json : List Nat)
    (v : syjson_value) (acc : List syjson_value) (rest : List Nat) (v' : syjson_value)
    (h : array_loop_pure strtod fuel json v acc = some (SYJSON_PARSE_OK, rest, v')) :
    json.headD 0 ≠ 0 := by
  cases fuel with
  | zero => simp [array_loop_pure] at h
  | succ fuel =>
    rw [array_loop_pure] at h
    cases hv : value_pure strtod fuel json (.mk SYJSON_NULL .uninit) with
    | none => simp [hv] at h
    | some x =>
      obtain ⟨x1, x2, x3⟩ := x
      simp only [hv, Option.some_bind] at h
      by_cases hx : x1 = SYJSON_PARSE_OK
      · subst hx
        exact value_pure_head strtod _ _ _ _ _ hv
      · simp only [ne_eq, hx, not_false_eq_true, if_true, Option.some.injEq,
          Prod.mk.injEq] at h
        exact h.1.elim

theorem object_frame_step (strtod : List Nat → Nat) (fuel : Nat)
    (ihl : object_loop_frame strtod fuel) : object_frame strtod (fuel + 1) := by
  intro json v u rest v' r fuel2 hh h hf hd2
  obtain ⟨g, rfl⟩ : ∃ g, fuel2 = g + 1 := ⟨fuel2 - 1, by omega⟩
  have hg : fuel ≤ g := by omega
  obtain ⟨_, e2⟩ := headD_append (p := json) (by omega) r
  rw [object_pure] at h ⊢
  simp only [e2]
  by_cases h1 : (json.tail.dropWhile is_space).headD 0 = 0x7D
  · have hne := ne_nil_of_headD h1 (by decide)
    simp only [h1, if_true, Option.some.injEq, Prod.mk.injEq, true_and] at h
    rw [dropWhile_append_ne _ _ _ hne]
    obtain ⟨a1, a2⟩ := headD_append (p := json.tail.dropWhile is_space) (by omega) r
    obtain ⟨hA, hB⟩ := h
    subst hA hB
    simp only [a1, a2, h1, if_true]
  · simp only [h1, if_false] at h
    have hq := object_loop_pure_ne_nil strtod _ _ _ _ _ _ _ h
    have hne := ne_nil_of_headD hq (by decide)
    rw [dropWhile_append_ne _ _ _ hne]
    obtain ⟨a1, _⟩ := headD_append (p := json.tail.dropWhile is_space) (by omega) r
    simp only [a1, h1, if_false]
    exact ihl _ v u _ [] rest v' r g h hg hd2

theorem object_loop_frame_step (strtod : List Nat → Nat) (fuel : Nat)
    (ihv : value_frame strtod fuel) (ihl : object_loop_frame strtod fuel) :
    object_loop_frame strtod (fuel + 1) := by
  intro json v u mv acc rest v' r fuel2 h hf hd2
  obtain ⟨g, rfl⟩ : ∃ g, fuel2 = g + 1 := ⟨fuel2 - 1, by omega⟩
  have hg : fuel ≤ g := by omega
  have hq := object_loop_pure_ne_nil strtod _ _ _ _ _ _ _ h
  obtain ⟨e1, _⟩ := headD_append (p := json) (by omega) r
  rw [object_loop_pure] at h ⊢
  simp only [e1, ne_eq, hq, not_true_eq_false, if_false] at h ⊢
  cases hs : string_pure json with
  | none => simp [hs] at h
  | some sr =>
    obtain ⟨k1, k2, k3⟩ := sr
    simp only [hs, Option.some_bind] at h
    by_cases hk : k1 = SYJSON_PARSE_OK
    swap
    · simp only [hk, not_false_eq_true, if_true, Option.some.injEq, Prod.mk.injEq] at h
      exact h.1.elim
    subst hk
    rw [string_pure_append _ _ _ r hs]
    simp only [Option.some_bind, not_true_eq_false, if_false] at h ⊢
    by_cases hc : (k2.dropWhile is_space).headD 0 = 0x3A
    swap
    · simp only [hc, not_false_eq_true, if_true, Option.some.injEq, Prod.mk.injEq] at h
      exact absurd h.1 (by decide)
    obtain ⟨hne, _⟩ := after_space hc (by decide)
    obtain ⟨a1, a2⟩ := headD_append (p := k2.dropWhile is_space) (by omega) r
    rw [dropWhile_append_ne _ _ _ hne]
    simp only [hc, not_true_eq_false, if_false, a1, a2] at h ⊢
    cases hv : value_pure strtod fuel ((k2.dropWhile is_space).tail.dropWhile is_space)
        (mv.set_type SYJSON_NULL) with
    | none => simp [hv] at h
    | some x =>
      obtain ⟨r1, r2, e⟩ := x
      simp only [hv, Option.some_bind] at h
      by_cases hr : r1 = SYJSON_PARSE_OK
      swap
      · simp only [hr, not_false_eq_true, if_true, Option.some.injEq, Prod.mk.injEq] at h
        exact h.1.elim
      subst hr
      simp only [not_true_eq_false, if_false] at h
      have hne2 : (k2.dropWhile is_space).tail.dropWhile is_space ≠ [] :=
        ne_nil_of_headD rfl (value_pure_head strtod _ _ _ _ _ hv)
      rw [dropWhile_append_ne _ _ _ hne2]
      have hdelim : delimiter (r2.headD 0) := by
        by_cases h1 : (r2.dropWhile is_space).headD 0 = 0x2C
        · exact after_space_delimiter h1 (Or.inl rfl)
        · by_cases h2 : (r2.dropWhile is_space).headD 0 = 0x7D
          · exact after_space_delimiter h2 (Or.inr (Or.inr rfl))
          · simp only [h1, h2, if_false, Option.some.injEq, Prod.mk.injEq] at h
            exact absurd h.1 (by decide)
      obtain ⟨e', he, _, heq⟩ := ihv _ _ (mv.set_type SYJSON_NULL) r2 e r g hv hg hdelim hd2
      have hee := heq rfl
      subst hee
      rw [he]
      simp only [Option.some_bind, not_true_eq_false, if_false]
      by_cases h1 : (r2.dropWhile is_space).headD 0 = 0x2C
      · obtain ⟨hne3, _⟩ := after_space h1 (by decide)
        obtain ⟨b1, b2⟩ := headD_append (p := r2.dropWhile is_space) (by omega) r
        simp only [h1, if_true] at h
        rw [dropWhile_append_ne _ _ _ hne3]
        simp only [b1, b2, h1, if_true]
        exact ihl _ v u _ _ rest v' r g h hg hd2
      simp only [h1, if_false] at h
      by_cases h2 : (r2.dropWhile is_space).headD 0 = 0x7D
      · obtain ⟨hne3, _⟩ := after_space h2 (by decide)
        obtain ⟨b1, b2⟩ := headD_append (p := r2.dropWhile is_space) (by omega) r
        simp only [h2, if_true, Option.some.injEq, Prod.mk.injEq, true_and] at h
        rw [dropWhile_append_ne _ _ _ hne3]
        obtain ⟨hA, hB⟩ := h
        subst hA hB
        simp only [b1, b2, h2, if_true]
        rw [if_neg (by decide)]
      · simp only [h2, if_false, Option.some.injEq, Prod.mk.injEq] at h
        exact absurd h.1 (by decide)

/-- A successful parse of a value is not disturbed by text that follows it after a
delimiter, nor by more fuel. -/
theorem parser_frame (strtod : List Nat → Nat) (hloc : strtod_local strtod) :
    ∀ fuel : Nat, value_frame strtod fuel ∧ array_frame strtod fuel
      ∧ array_loop_frame strtod fuel ∧ object_frame strtod fuel
      ∧ object_loop_frame strtod fuel := by
  intro fuel
  induction fuel with
  | zero =>
    refine ⟨?_, ?_, ?_, ?_, ?_⟩
    · intro json v u rest v' r fuel2 h; simp [value_pure] at h
    · intro json v u rest v' r fuel2 _ h; simp [array_pure] at h
    · intro json v u acc rest v' r fuel2 h; simp [array_loop_pure] at h
    · intro json v u rest v' r fuel2 _ h; simp [object_pure] at h
    · intro json v u mv acc rest v' r fuel2 h; simp [object_loop_pure] at h
  | succ fuel ih =>
    obtain ⟨hv, ha, hal, ho, hol⟩ := ih
    exact ⟨value_frame_step strtod hloc fuel ha ho, array_frame_step strtod fuel hal,
      array_loop_frame_step strtod fuel hv hal, object_frame_step strtod fuel hol,
      object_loop_frame_step strtod fuel hv hol⟩

/-! ## The cursor only moves forward -/

theorem hex4_loop_suffix :
    ∀ (i : Nat) (p : List Nat) (u : Nat) (q : List Nat) (w : Nat),
      hex4_loop i p u = some (q, w) → q <:+ p := by
  intro i
  induction i with
  | zero =>
    intro p u q w h
    simp only [hex4_loop, Option.some.injEq, Prod.mk.injEq] at h
    rw [← h.1]
  | succ i ih =>
    intro p u q w h
    rw [hex4_loop] at h
    split at h
    · exact (ih _ _ _ _ h).trans (List.tail_suffix p)
    · split at h
      · exact (ih _ _ _ _ h).trans (List.tail_suffix p)
      · split at h
        · exact (ih _ _ _ _ h).trans (List.tail_suffix p)
        · cases h

theorem string_unicode_suffix (p q : List Nat) (u : Nat)
    (h : string_unicode p = .ok (q, u)) : q <:+ p := by
  unfold string_unicode at h
  cases h1 : syjson_parse_hex4 p with
  | none => simp [h1] at h
  | some r =>
    obtain ⟨p1, u1⟩ := r
    have l1 := hex4_loop_suffix 4 p 0 p1 u1 h1
    simp only [h1] at h
    split at h
    · split at h
      · cases h
      · split at h
        · cases h
        · cases h2 : syjson_parse_hex4 p1.tail.tail with
          | none => simp [h2] at h
          | some r2 =>
            obtain ⟨p2, u2⟩ := r2
            have l2 := hex4_loop_suffix 4 _ 0 p2 u2 h2
            simp only [h2] at h
            split at h
            · cases h
            · simp only [Except.ok.injEq, Prod.mk.injEq] at h
              rw [← h.1]
              exact l2.trans ((List.tail_suffix _).trans ((List.tail_suffix _).trans l1))
    · simp only [Except.ok.injEq, Prod.mk.injEq] at h
      rw [← h.1]
      exact l1

theorem string_decode_suffix :
    ∀ (fuel : Nat) (p acc rest bytes : List Nat),
      string_decode fuel p acc = some (SYJSON_PARSE_OK, rest, bytes) → rest <:+ p := by
  intro fuel
  induction fuel with
  | zero => intro p acc rest bytes h; simp [string_decode] at h
  | succ fuel ih =>
    intro p acc rest bytes h
    rw [string_decode] at h
    by_cases h1 : p.headD 0 = 0x22
    · simp only [h1, if_true, Option.some.injEq, Prod.mk.injEq, true_and] at h
      rw [← h.1]; exact List.tail_suffix p
    simp only [h1, if_false] at h
    by_cases h2 : p.headD 0 = 0x5C
    · simp only [h2, if_true] at h
      cases hesc : string_escape (p.tail.headD 0) with
      | some b =>
        simp only [hesc] at h
        exact (ih _ _ _ _ h).trans ((List.tail_suffix _).trans (List.tail_suffix _))
      | none =>
        simp only [hesc] at h
        by_cases h3 : p.tail.headD 0 = 0x75
        · simp only [h3, if_true] at h
          cases hu : string_unicode p.tail.tail with
          | error r =>
            simp only [hu, Option.some.injEq, Prod.mk.injEq] at h
            exact absurd h.1 (string_unicode_error _ _ hu)
          | ok pu =>
            obtain ⟨q, u⟩ := pu
            simp only [hu] at h
            exact (ih _ _ _ _ h).trans ((string_unicode_suffix _ _ _ hu).trans
              ((List.tail_suffix _).trans (List.tail_suffix _)))
        · simp only [h3, if_false, Option.some.injEq, Prod.mk.injEq] at h
          exact absurd h.1 (by decide)
    simp only [h2, if_false] at h
    by_cases h4 : p.headD 0 = 0
    · simp only [h4, if_true, Option.some.injEq, Prod.mk.injEq] at h
      exact absurd h.1 (by decide)
    simp only [h4, if_false] at h
    by_cases h5 : p.headD 0 < 0x20 ∨ p.headD 0 = 0x7F
    · simp only [h5, if_true, Option.some.injEq, Prod.mk.injEq] at h
      exact absurd h.1 (by decide)
    simp only [h5, if_false] at h
    exact (ih _ _ _ _ h).trans (List.tail_suffix p)

theorem string_pure_suffix (json rest bytes : List Nat)
    (h : string_pure json = some (SYJSON_PARSE_OK, rest, bytes)) : rest <:+ json :=
  (string_decode_suffix _ _ _ _ _ h).trans (List.tail_suffix json)

theorem parser_suffix (strtod : List Nat → Nat) : ∀ fuel : Nat,
    (∀ json v rest v', value_pure strtod fuel json v = some (SYJSON_PARSE_OK, rest, v') →
        rest <:+ json)
      ∧ (∀ json v rest v', array_pure strtod fuel json v = some (SYJSON_PARSE_OK, rest, v') →
        rest <:+ json)
      ∧ (∀ json v acc rest v',
          array_loop_pure strtod fuel json v acc = some (SYJSON_PARSE_OK, rest, v') →
          rest <:+ json)
      ∧ (∀ json v rest v', object_pure strtod fuel json v = some (SYJSON_PARSE_OK, rest, v') →
        rest <:+ json)
      ∧ (∀ json v mv acc rest v',
          object_loop_pure strtod fuel json v mv acc = some (SYJSON_PARSE_OK, rest, v') →
          rest <:+ json) := by
  intro fuel
  induction fuel with
  | zero =>
    refine ⟨?_, ?_, ?_, ?_, ?_⟩ <;> intros
    · rename_i h; simp [value_pure] at h
    · rename_i h; simp [array_pure] at h
    · rename_i h; simp [array_loop_pure] at h
    · rename_i h; simp [object_pure] at h
    · rename_i h; simp [object_loop_pure] at h
  | succ fuel ih =>
    obtain ⟨hv, ha, hal, ho, hol⟩ := ih
    have hds : ∀ l : List Nat, l.dropWhile is_space <:+ l := fun l =>
      List.dropWhile_suffix is_space
    refine ⟨?_, ?_, ?_, ?_, ?_⟩
    · intro json v rest v' h
      rcases value_pure_type strtod _ _ _ _ _ h with t | t | t | t | t | t | t
      · rw [value_pure] at h
        simp only [t.1, if_true, Option.some.injEq] at h
        unfold literal_pure at h
        split at h
        · simp only [Prod.mk.injEq, true_and] at h
          rw [← h.1]; exact (List.drop_suffix _ _).trans (List.tail_suffix _)
        · simp only [Prod.mk.injEq] at h; exact absurd h.1 (by decide)
      · rw [value_pure] at h
        rw [if_neg (by rw [t.1]; decide), if_pos t.1] at h
        simp only [Option.some.injEq] at h
        unfold literal_pure at h
        split at h
        · simp only [Prod.mk.injEq, true_and] at h
          rw [← h.1]; exact (List.drop_suffix _ _).trans (List.tail_suffix _)
        · simp only [Prod.mk.injEq] at h; exact absurd h.1 (by decide)
      · rw [value_pure] at h
        rw [if_neg (by rw [t.1]; decide), if_neg (by rw [t.1]; decide), if_pos t.1] at h
        simp only [Option.some.injEq] at h
        unfold literal_pure at h
        split at h
        · simp only [Prod.mk.injEq, true_and] at h
          rw [← h.1]; exact (List.drop_suffix _ _).trans (List.tail_suffix _)
        · simp only [Prod.mk.injEq] at h; exact absurd h.1 (by decide)
      · rw [value_pure] at h
        rw [if_neg (by rw [t.1]; decide), if_neg (by rw [t.1]; decide),
          if_neg (by rw [t.1]; decide), if_pos t.1] at h
        cases hs : string_pure json with
        | none => simp [hs] at h
        | some x =>
          obtain ⟨r1, r2, r3⟩ := x
          simp only [hs, Option.map_some', Option.some.injEq] at h
          by_cases hr : r1 = SYJSON_PARSE_OK
          · subst hr
            simp only [if_true, Prod.mk.injEq, true_and] at h
            rw [← h.1]; exact string_pure_suffix _ _ _ hs
          · simp only [hr, if_false, Prod.mk.injEq] at h
            exact h.1.elim
      · rw [value_pure] at h
        rw [if_neg (by rw [t.1]; decide), if_neg (by rw [t.1]; decide),
          if_neg (by rw [t.1]; decide), if_neg (by rw [t.1]; decide), if_pos t.1] at h
        exact ha _ _ _ _ h
      · rw [value_pure] at h
        rw [if_neg (by rw [t.1]; decide), if_neg (by rw [t.1]; decide),
          if_neg (by rw [t.1]; decide), if_neg (by rw [t.1]; decide),
          if_neg (by rw [t.1]; decide), if_pos t.1] at h
        exact ho _ _ _ _ h
      · obtain ⟨_, _, hn⟩ := t
        rw [number_pure_eq] at hn
        cases hs : syjson_number_scan json with
        | none => simp only [hs, Prod.mk.injEq] at hn; exact absurd hn.1 (by decide)
        | some p =>
          simp only [hs] at hn
          split at hn
          · simp only [Prod.mk.injEq] at hn; exact absurd hn.1 (by decide)
          · simp only [Prod.mk.injEq, true_and] at hn
            obtain ⟨N, eN, _⟩ := number_scan_sound _ _ hs
            rw [← hn.1, eN]
            exact List.suffix_append N p
    · intro json v rest v' h
      rw [array_pure] at h
      split at h
      · simp only [Option.some.injEq, Prod.mk.injEq, true_and] at h
        rw [← h.1]
        exact (List.tail_suffix _).trans ((hds _).trans (List.tail_suffix _))
      · exact (hal _ _ _ _ _ h).trans ((hds _).trans (List.tail_suffix _))
    · intro json v acc rest v' h
      rw [array_loop_pure] at h
      cases hvv : value_pure strtod fuel json (.mk SYJSON_NULL .uninit) with
      | none => simp [hvv] at h
      | some x =>
        obtain ⟨r1, r2, e⟩ := x
        simp only [hvv, Option.some_bind] at h
        by_cases hr : r1 = SYJSON_PARSE_OK
        swap
        · simp only [ne_eq, hr, not_false_eq_true, if_true, Option.some.injEq,
            Prod.mk.injEq] at h
          exact h.1.elim
        subst hr
        have s1 := hv _ _ _ _ hvv
        simp only [ne_eq, not_true_eq_false, if_false] at h
        by_cases h1 : (r2.dropWhile is_space).headD 0 = 0x2C
        · simp only [h1, if_true] at h
          exact (hal _ _ _ _ _ h).trans ((hds _).trans ((List.tail_suffix _).trans
            ((hds _).trans s1)))
        simp only [h1, if_false] at h
        by_cases h2 : (r2.dropWhile is_space).headD 0 = 0x5D
        · simp only [h2, if_true, Option.some.injEq, Prod.mk.injEq, true_and] at h
          rw [← h.1]
          exact (List.tail_suffix _).trans ((hds _).trans s1)
        · simp only [h2, if_false, Option.some.injEq, Prod.mk.injEq] at h
          exact absurd h.1 (by decide)
    · intro json v rest v' h
      rw [object_pure] at h
      split at h
      · simp only [Option.some.injEq, Prod.mk.injEq, true_and] at h
        rw [← h.1]
        exact (List.tail_suffix _).trans ((hds _).trans (List.tail_suffix _))
      · exact (hol _ _ _ _ _ _ h).trans ((hds _).trans (List.tail_suffix _))
    · intro json v mv acc rest v' h
      have hq := object_loop_pure_ne_nil strtod _ _ _ _ _ _ _ h
      rw [object_loop_pure] at h
      simp only [ne_eq, hq, not_true_eq_false, if_false] at h
      cases hs : string_pure json with
      | none => simp [hs] at h
      | some sr =>
        obtain ⟨k1, k2, k3⟩ := sr
        simp only [hs, Option.some_bind] at h
        by_cases hk : k1 = SYJSON_PARSE_OK
        swap
        · simp only [hk, not_false_eq_true, if_true, Option.some.injEq, Prod.mk.injEq] at h
          exact h.1.elim
        subst hk
        have s0 := string_pure_suffix _ _ _ hs
        simp only [not_true_eq_false, if_false] at h
        by_cases hc : (k2.dropWhile is_space).headD 0 = 0x3A
        swap
        · simp only [hc, not_false_eq_true, if_true, Option.some.injEq, Prod.mk.injEq] at h
          exact absurd h.1 (by decide)
        simp only [hc, not_true_eq_false, if_false] at h
        cases hvv : value_pure strtod fuel ((k2.dropWhile is_space).tail.dropWhile is_space)
            (mv.set_type SYJSON_NULL) with
        | none => simp [hvv] at h
        | some x =>
          obtain ⟨r1, r2, e⟩ := x
          simp only [hvv, Option.some_bind] at h
          by_cases hr : r1 = SYJSON_PARSE_OK
          swap
          · simp only [hr, not_false_eq_true, if_true, Option.some.injEq, Prod.mk.injEq] at h
            exact h.1.elim
          subst hr
          have s1 : r2 <:+ json :=
            (hv _ _ _ _ hvv).trans ((hds _).trans ((List.tail_suffix _).trans
              ((hds _).trans s0)))
          simp only [not_true_eq_false, if_false] at h
          by_cases h1 : (r2.dropWhile is_space).headD 0 = 0x2C
          · simp only [h1, if_true] at h
            exact (hol _ _ _ _ _ _ h).trans ((List.tail_suffix _).trans ((hds _).trans s1))
          simp only [h1, if_false] at h
          by_cases h2 : (r2.dropWhile is_space).headD 0 = 0x7D
          · simp only [h2, if_true, Option.some.injEq, Prod.mk.injEq, true_and] at h
            rw [← h.1]
            exact (List.tail_suffix _).trans ((hds _).trans s1)
          · simp only [h2, if_false, Option.some.injEq, Prod.mk.injEq] at h
            exact absurd h.1 (by decide)

/-! ## Arrays and objects built from parsed texts -/

theorem spaces_delimiter (W : List Nat) (hW : ∀ b ∈ W, is_space b = true) :
    delimiter (W.headD 0) := by
  cases W with
  | nil => exact Or.inl rfl
  | cons a t => exact Or.inr (Or.inl (hW a (List.mem_cons_self a t)))

/-- What a successful `syjson_parse` of a text without NUL says about the dispatcher:
it consumed the text after the leading whitespace up to trailing whitespace. -/
theorem parse_ok_inv (strtod : List Nat → Nat) (u w : syjson_value) (t : List Nat)
    (h0 : ∀ b ∈ t, b ≠ 0) (h : syjson_parse strtod u t = .ok (SYJSON_PARSE_OK, w)) :
    ∃ W', value_pure strtod (parse_fuel t) (t.dropWhile is_space) (u.set_type SYJSON_NULL)
        = some (SYJSON_PARSE_OK, W', w) ∧ ∀ b ∈ W', is_space b = true := by
  obtain ⟨ret, rest, v', hv, e⟩ := parse_eq strtod u t
  rw [h] at e
  simp only [outcome.ok.injEq] at e
  by_cases hr : ret = SYJSON_PARSE_OK
  swap
  · simp only [hr, if_false, Prod.mk.injEq] at e
    exact absurd e.1.symm hr
  subst hr
  simp only [if_true] at e
  by_cases hz : (rest.dropWhile is_space).headD 0 = 0
  swap
  · simp only [hz, if_false, Prod.mk.injEq] at e
    exact absurd e.1 (by decide)
  simp only [hz, if_true, Prod.mk.injEq, true_and] at e
  subst e
  refine ⟨rest, hv, ?_⟩
  have hsub : rest.dropWhile is_space <:+ t :=
    (List.dropWhile_suffix is_space).trans
      (((parser_suffix strtod _).1 _ _ _ _ hv).trans (List.dropWhile_suffix is_space))
  have hnil := headD_zero_nil hz (fun b hb => h0 b (hsub.subset hb))
  rwa [List.dropWhile_eq_nil_iff] at hnil

/-- A text that parses on its own parses to a structurally equal value at the head of a
longer text, when a delimiter follows it. -/
theorem value_in_context (strtod : List Nat → Nat) (hloc : strtod_local strtod)
    (u w x : syjson_value) (t r : List Nat) (fuel : Nat)
    (h0 : ∀ b ∈ t, b ≠ 0) (h : syjson_parse strtod u t = .ok (SYJSON_PARSE_OK, w))
    (hr : delimiter (r.headD 0)) (hf : parse_fuel t ≤ fuel) :
    ∃ W' e, value_pure strtod fuel ((t ++ r).dropWhile is_space) x
        = some (SYJSON_PARSE_OK, W' ++ r, e)
      ∧ (∀ b ∈ W', is_space b = true) ∧ same_value e w := by
  obtain ⟨W', hv, hW⟩ := parse_ok_inv strtod u w t h0 h
  have hne : t.dropWhile is_space ≠ [] :=
    ne_nil_of_headD rfl (value_pure_head strtod _ _ _ _ _ hv)
  obtain ⟨e, he, hs, _⟩ := (parser_frame strtod hloc _).1 _ _ x W' w r fuel hv hf
    (spaces_delimiter W' hW) hr
  rw [dropWhile_append_ne _ _ _ hne]
  exact ⟨W', e, he, hW, hs⟩

theorem join_comma_cons (t t' : List Nat) (ts : List (List Nat)) :
    join_comma (t :: t' :: ts) = t ++ 0x2C :: join_comma (t' :: ts) := rfl

/-- The loop of `syjson_parse_array` on texts that each parse on their own. -/
theorem array_loop_texts (strtod : List Nat → Nat) (hloc : strtod_local strtod) :
    ∀ (ts : List (List Nat)) (vs : List syjson_value), ts ≠ [] →
      (∀ t ∈ ts, ∀ b ∈ t, b ≠ 0) →
      List.Forall₂ (fun t w => ∃ u, syjson_parse strtod u t = .ok (SYJSON_PARSE_OK, w)) ts vs →
      ∀ (acc : List syjson_value) (v : syjson_value) (r0 : List Nat) (fuel : Nat),
        3 * (join_comma ts ++ 0x5D :: r0).length + 2 ≤ fuel →
        ∃ es, List.Forall₂ same_value es vs
          ∧ array_loop_pure strtod fuel ((join_comma ts ++ 0x5D :: r0).dropWhile is_space) v acc
              = some (SYJSON_PARSE_OK, r0,
                  .mk SYJSON_ARR (.arr (acc ++ es) (acc.length + ts.length))) := by
  intro ts
  induction ts with
  | nil => intro vs h; exact absurd rfl h
  | cons t ts ih =>
    intro vs _ h0 hp acc v r0 fuel hf
    cases hp with
    | cons hpt hps =>
      rename_i w ws
      obtain ⟨u, hu⟩ := hpt
      obtain ⟨g, rfl⟩ : ∃ g, fuel = g + 1 := ⟨fuel - 1, by omega⟩
      have h0t := h0 t (List.mem_cons_self t ts)
      cases ts with
      | nil =>
        cases hps
        simp only [join_comma] at hf ⊢
        obtain ⟨W', e, he, hW, hs⟩ := value_in_context strtod hloc u w
          (.mk SYJSON_NULL .uninit) t (0x5D :: r0) g h0t hu
          (by unfold delimiter; simp) (by
            simp only [parse_fuel, List.length_append, List.length_cons] at hf ⊢; omega)
        refine ⟨[e], List.Forall₂.cons hs List.Forall₂.nil, ?_⟩
        rw [array_loop_pure, he]
        have hd : (W' ++ 0x5D :: r0).dropWhile is_space = 0x5D :: r0 :=
          dropWhile_space_append W' _ hW (by rfl)
        simp only [Option.some_bind, ne_eq, not_true_eq_false, if_false, hd, List.headD_cons,
          List.tail_cons, List.length_singleton]
        rw [if_neg (by decide)]
        simp only [if_true]
      | cons t' ts' =>
        rw [join_comma_cons] at hf ⊢
        simp only [List.append_assoc, List.cons_append] at hf ⊢
        obtain ⟨W', e, he, hW, hs⟩ := value_in_context strtod hloc u w
          (.mk SYJSON_NULL .uninit) t (0x2C :: (join_comma (t' :: ts') ++ 0x5D :: r0)) g h0t hu
          (by unfold delimiter; simp) (by
            simp only [parse_fuel, List.length_append, List.length_cons] at hf ⊢; omega)
        obtain ⟨es, hes, hl⟩ := ih ws (by simp)
          (fun x hx => h0 x (List.mem_cons_of_mem t hx)) hps (acc ++ [e]) v r0 g (by
            simp only [List.length_append, List.length_cons] at hf ⊢; omega)
        refine ⟨e :: es, List.Forall₂.cons hs hes, ?_⟩
        rw [array_loop_pure, he]
        have hd : (W' ++ 0x2C :: (join_comma (t' :: ts') ++ 0x5D :: r0)).dropWhile is_space
            = 0x2C :: (join_comma (t' :: ts') ++ 0x5D :: r0) :=
          dropWhile_space_append W' _ hW (by rfl)
        simp only [Option.some_bind, ne_eq, not_true_eq_false, if_false, hd, List.headD_cons,
          List.tail_cons, if_true]
        rw [hl]
        have e1 : acc ++ [e] ++ es = acc ++ e :: es := by simp
        have e2 : (acc ++ [e]).length + (t' :: ts').length
            = acc.length + (t :: t' :: ts').length := by
          simp only [List.length_append, List.length_singleton, List.length_cons, List.length_nil]; omega
        rw [e1, e2]

theorem array_loop_pure_head (strtod : List Nat → Nat) (fuel : Nat) (json : List Nat)
    (v : syjson_value) (acc : List syjson_value) (rest : List Nat) (v' : syjson_value)
    (h : array_loop_pure strtod fuel json v acc = some (SYJSON_PARSE_OK, rest, v')) :
    json.headD 0 ≠ 0x5D := by
  cases fuel with
  | zero => simp [array_loop_pure] at h
  | succ fuel =>
    rw [array_loop_pure] at h
    cases hv : value_pure strtod fuel json (.mk SYJSON_NULL .uninit) with
    | none => simp [hv] at h
    | some x =>
      obtain ⟨x1, x2, x3⟩ := x
      simp only [hv, Option.some_bind] at h
      by_cases hx : x1 = SYJSON_PARSE_OK
      · subst hx
        rcases value_pure_type strtod _ _ _ _ _ hv with t | t | t | t | t | t | t
        all_goals first
          | (rw [t.1]; decide)
          | skip
        obtain ⟨_, _, hn⟩ := t
        rw [number_pure_eq] at hn
        cases hs : syjson_number_scan json with
        | none => simp only [hs, Prod.mk.injEq] at hn; exact absurd hn.1 (by decide)
        | some p =>
          obtain ⟨N, eN, hN⟩ := number_scan_sound _ _ hs
          have := (json_number_head hN p).1
          rw [← eN] at this
          obtain ⟨sg, i, f, e, rfl, hsg, hi, _, _⟩ := hN
          rw [eN]
          rcases hsg with rfl | rfl
          · have hb := isdigit_bounds (json_int_head hi (f ++ e ++ p))
            simp only [List.nil_append, List.append_assoc] at hb ⊢
            omega
          · simp only [List.singleton_append, List.cons_append, List.headD_cons]
            decide
      · simp only [ne_eq, hx, not_false_eq_true, if_true, Option.some.injEq,
          Prod.mk.injEq] at h
        exact h.1.elim

/-- C7: for every non-empty list of texts `t1`, ..., `tn` (without NUL bytes) that
`syjson_parse` accepts with values `v1`, ..., `vn`, the text `[` t1 `,` ... `,` tn `]`
is accepted with a root of type `SYJSON_ARR` whose size is `n` and whose `i`-th element
is structurally equal to `vi`; and `[`, whitespace, `]` is accepted as an array of
size 0.  (`strtod` is assumed to convert the number it is pointed at whatever follows a
delimiter after it.) -/
theorem array_compositional (strtod : List Nat → Nat) (hloc : strtod_local strtod)
    (v : syjson_value) (ts : List (List Nat)) (vs : List syjson_value) (hne : ts ≠ [])
    (h0 : ∀ t ∈ ts, ∀ b ∈ t, b ≠ 0)
    (hp : List.Forall₂
      (fun t w => ∃ u, syjson_parse strtod u t = .ok (SYJSON_PARSE_OK, w)) ts vs)
    (W : List Nat) (hW : ∀ b ∈ W, is_space b = true) :
    (∃ a es, syjson_parse strtod v (array_text ts) = .ok (SYJSON_PARSE_OK, a)
        ∧ syjson_get_type a = SYJSON_ARR
        ∧ syjson_get_array_size a = .ok ts.length
        ∧ (∀ i, i < ts.length → syjson_get_array_element a i = .ok (es.get? i))
        ∧ List.Forall₂ same_value es vs)
      ∧ (∃ a, syjson_parse strtod v (0x5B :: (W ++ [0x5D])) = .ok (SYJSON_PARSE_OK, a)
        ∧ syjson_get_type a = SYJSON_ARR ∧ syjson_get_array_size a = .ok 0) := by
  refine ⟨?_, ?_⟩
  · obtain ⟨ret, rest, w, hv, e⟩ := parse_eq strtod v (array_text ts)
    have hd : (array_text ts).dropWhile is_space = array_text ts :=
      dropWhile_space_of_head (by rfl)
    have hlen : (array_text ts).length = (join_comma ts ++ [0x5D]).length + 1 := rfl
    obtain ⟨g, hg⟩ : ∃ g, 3 * (array_text ts).length = g + 2 :=
      ⟨3 * (array_text ts).length - 2, by omega⟩
    obtain ⟨es, hes, hl⟩ := array_loop_texts strtod hloc ts vs hne h0 hp []
      (v.set_type SYJSON_NULL) [] (g + 1) (by omega)
    have hhead := array_loop_pure_head strtod _ _ _ _ _ _ hl
    rw [hd, parse_fuel, value_pure, hg] at hv
    have hh : (array_text ts).headD 0 = 0x5B := rfl
    rw [if_neg (by rw [hh]; decide), if_neg (by rw [hh]; decide),
      if_neg (by rw [hh]; decide), if_neg (by rw [hh]; decide), if_pos hh,
      array_pure] at hv
    have ht : (array_text ts).tail = join_comma ts ++ [0x5D] := rfl
    rw [ht, if_neg hhead, hl] at hv
    simp only [Option.some.injEq, Prod.mk.injEq] at hv
    obtain ⟨rfl, rfl, rfl⟩ := hv
    simp only [if_true, List.dropWhile_nil, List.headD_nil] at e
    refine ⟨_, es, e, rfl, ?_, ?_, hes⟩
    · simp [syjson_get_array_size, syjson_value.type, syjson_value.val, syjson_val.arr_s]
    · intro i hi
      simp [syjson_get_array_element, syjson_value.type, syjson_value.val, syjson_val.arr_s,
        syjson_val.arr_e, Nat.le_of_lt hi]
  · obtain ⟨ret, rest, w, hv, e⟩ := parse_eq strtod v (0x5B :: (W ++ [0x5D]))
    have hd : (0x5B :: (W ++ [0x5D])).dropWhile is_space = 0x5B :: (W ++ [0x5D]) :=
      dropWhile_space_of_head (by rfl)
    have hlen : parse_fuel (0x5B :: (W ++ [0x5D])) = (3 * W.length + 5) + 1 + 1 := by
      simp only [parse_fuel, List.length_cons, List.length_append, List.length_singleton,
        List.length_nil]
      omega
    rw [hd, hlen, value_pure] at hv
    have hh : (0x5B :: (W ++ [0x5D])).headD 0 = 0x5B := rfl
    rw [if_neg (by rw [hh]; decide), if_neg (by rw [hh]; decide),
      if_neg (by rw [hh]; decide), if_neg (by rw [hh]; decide), if_pos hh,
      array_pure] at hv
    have hdw : (0x5B :: (W ++ [0x5D])).tail.dropWhile is_space = [0x5D] :=
      dropWhile_space_append W _ hW (by rfl)
    rw [hdw] at hv
    simp only [List.headD_cons, if_true, List.tail_cons, Option.some.injEq,
      Prod.mk.injEq] at hv
    obtain ⟨rfl, rfl, rfl⟩ := hv
    simp only [if_true, List.dropWhile_nil, List.headD_nil] at e
    exact ⟨_, e, rfl, rfl⟩

theorem digits_value_append (ds y : List Nat) (hd : ∀ x ∈ ds, ISDIGIT x = true)
    (hy : ISDIGIT (y.headD 0) = false) :
    ∀ acc, digits_value (ds ++ y) acc = digits_value ds acc := by
  induction ds with
  | nil =>
    intro acc
    cases y with
    | nil => rfl
    | cons a t =>
      simp only [List.headD_cons] at hy
      simp [digits_value, hy]
  | cons d t ih =>
    intro acc
    have := hd d (List.mem_cons_self d t)
    simp only [List.cons_append, digits_value, this, if_true]
    exact ih (fun x hx => hd x (List.mem_cons_of_mem d hx)) _

theorem json_int_digits {i : List Nat} (hi : json_int i) : ∀ x ∈ i, ISDIGIT x = true := by
  rcases hi with rfl | ⟨d, ds, rfl, hd, hds⟩
  · decide
  · intro x hx
    rcases List.mem_cons.1 hx with rfl | hx
    · exact digit1to9_isdigit hd
    · exact hds x hx

/-- The stand-in `strtod_int` satisfies the assumption made on `strtod`. -/
theorem strtod_int_local : strtod_local strtod_int := by
  intro N d hN hd
  obtain ⟨sg, i, f, e, rfl, hsg, hi, hf, he⟩ := hN
  have h1 := json_frac_exp_head f e d hf he (delimiter_stop hd)
  have h2 := json_frac_exp_head f e [] hf he (delimiter_stop (Or.inl rfl))
  have hdig := json_int_digits hi
  have a1 := digits_value_append i (f ++ (e ++ d)) hdig h1 0
  have a2 := digits_value_append i (f ++ (e ++ [])) hdig h2 0
  have hb := isdigit_bounds (json_int_head hi (f ++ (e ++ d)))
  have hb2 := isdigit_bounds (json_int_head hi (f ++ (e ++ [])))
  unfold strtod_int
  rcases hsg with rfl | rfl
  · simp only [List.nil_append, List.append_assoc, List.append_nil] at a1 a2 hb hb2 ⊢
    have n1 : ¬ (i ++ (f ++ (e ++ d))).headD 0 = 0x2D := by omega
    have n2 : ¬ (i ++ (f ++ e)).headD 0 = 0x2D := by omega
    simp only [n1, n2, if_false, a1, a2]
  · simp only [List.singleton_append, List.cons_append, List.append_assoc, List.headD_cons,
      List.tail_cons, if_true, List.append_nil, List.nil_append] at a1 a2 ⊢
    rw [a1, a2]

theorem parse_ok_of_ret (x : outcome (syjson_parse_ret × syjson_value))
    (r : syjson_parse_ret) (h : ret_of x = some r) : x = .ok (r, value_of x) := by
  cases x with
  | ok a =>
    obtain ⟨a1, a2⟩ := a
    simp only [ret_of, Option.some.injEq] at h
    simp [value_of, h]
  | assert_failed => simp [ret_of] at h
  | out_of_fuel => simp [ret_of] at h

/-- C7, instance: the texts `1`, `2`, `[3,4]` and `"a"` each parse, so the text
`[1,2,[3,4],"a"]` parses to an array of size 4 whose elements are structurally equal
to their values; evaluated, element 2 is an array of size 2 and element 3 is the
string `a`.  The text `[ ]` parses to an array of size 0. -/
theorem array_compositional_witness :
    array_text sample_texts = bytes "[1,2,[3,4],\"a\"]"
      ∧ ((∃ a es, syjson_parse strtod_int v_init (array_text sample_texts)
              = .ok (SYJSON_PARSE_OK, a)
            ∧ syjson_get_type a = SYJSON_ARR
            ∧ syjson_get_array_size a = .ok sample_texts.length
            ∧ (∀ i, i < sample_texts.length →
                syjson_get_array_element a i = .ok (es.get? i))
            ∧ List.Forall₂ same_value es
                (sample_texts.map fun t => value_of (syjson_parse strtod_int v_init t)))
          ∧ (∃ a, syjson_parse strtod_int v_init (0x5B :: ([0x20] ++ [0x5D]))
              = .ok (SYJSON_PARSE_OK, a)
            ∧ syjson_get_type a = SYJSON_ARR ∧ syjson_get_array_size a = .ok 0))
      ∧ syjson_get_array_size
          (value_of (syjson_parse strtod_int v_init (bytes "[1,2,[3,4],\"a\"]"))) = .ok 4
      ∧ syjson_get_array_size (pointee (syjson_get_array_element
          (value_of (syjson_parse strtod_int v_init (bytes "[1,2,[3,4],\"a\"]"))) 2))
          = .ok 2
      ∧ syjson_get_string (pointee (syjson_get_array_element
          (value_of (syjson_parse strtod_int v_init (bytes "[1,2,[3,4],\"a\"]"))) 3))
          = .ok [0x61, 0] :=
  ⟨by decide,
   array_compositional strtod_int strtod_int_local v_init sample_texts
     (sample_texts.map fun t => value_of (syjson_parse strtod_int v_init t))
     (by decide) (by decide)
     (List.Forall₂.cons ⟨v_init, parse_ok_of_ret _ _ (by decide!)⟩
       (List.Forall₂.cons ⟨v_init, parse_ok_of_ret _ _ (by decide!)⟩
         (List.Forall₂.cons ⟨v_init, parse_ok_of_ret _ _ (by decide!)⟩
           (List.Forall₂.cons ⟨v_init, parse_ok_of_ret _ _ (by decide!)⟩
             List.Forall₂.nil))))
     [0x20] (by decide),
   by decide!, by decide!, by decide!⟩
/-! ## Objects built from parsed keys and values -/

/-- A quoted key text that parses on its own to the string `d` is decoded to `d` by
the string scanner, which stops before trailing whitespace. -/
theorem key_string (strtod : List Nat → Nat) (u w : syjson_value) (k d : List Nat)
    (hq : k.headD 0 = 0x22) (h0 : ∀ b ∈ k, b ≠ 0)
    (h : syjson_parse strtod u k = .ok (SYJSON_PARSE_OK, w))
    (hs : syjson_get_string w = .ok (d ++ [0])) :
    ∃ W', string_pure k = some (SYJSON_PARSE_OK, W', d) ∧ ∀ b ∈ W', is_space b = true := by
  obtain ⟨W', hv, hW⟩ := parse_ok_inv strtod u w k h0 h
  have hd : k.dropWhile is_space = k := dropWhile_space_of_head (by rw [hq]; rfl)
  rw [hd, parse_fuel, value_pure] at hv
  rw [if_neg (by rw [hq]; decide), if_neg (by rw [hq]; decide),
    if_neg (by rw [hq]; decide), if_pos hq] at hv
  cases hsp : string_pure k with
  | none => simp [hsp] at hv
  | some r =>
    obtain ⟨r1, r2, r3⟩ := r
    simp only [hsp, Option.map_some', Option.some.injEq] at hv
    by_cases hr : r1 = SYJSON_PARSE_OK
    · subst hr
      simp only [if_true, Prod.mk.injEq, true_and] at hv
      obtain ⟨rfl, rfl⟩ := hv
      simp only [syjson_get_string, syjson_value.type, syjson_value.val, syjson_val.str_s,
        if_true, outcome.ok.injEq] at hs
      have := List.append_cancel_right hs
      subst this
      exact ⟨_, rfl, hW⟩
    · simp only [hr, if_false, Prod.mk.injEq] at hv
      exact hv.1.elim

theorem join_members_head (c : member_case) (cs : List member_case) (X : List Nat)
    (hq : c.key_text.headD 0 = 0x22) :
    (join_comma (member_texts (c :: cs)) ++ X).headD 0 = 0x22 := by
  have hk : c.key_text ≠ [] := ne_nil_of_headD hq (by decide)
  cases hkt : c.key_text with
  | nil => exact absurd hkt hk
  | cons a t =>
    rw [hkt] at hq
    simp only [List.headD_cons] at hq
    cases cs with
    | nil => simp only [member_texts, join_comma, hkt, List.cons_append, List.headD_cons, hq]
    | cons c' cs' =>
      simp only [member_texts, join_comma, hkt, List.cons_append, List.headD_cons, hq]

theorem member_texts_length (cs : List member_case) :
    (member_texts cs).length = cs.length := by
  induction cs with
  | nil => rfl
  | cons c cs ih => simp only [member_texts, List.length_cons, ih]

/-- The two scans of one turn of the loop of `syjson_parse_object` on a member whose
key and value parse on their own, followed by `X`, which begins with `,` or with the
closing brace. -/
theorem object_member_step (strtod : List Nat → Nat) (hloc : strtod_local strtod)
    (c : member_case) (hc : c.ok strtod) (X : List Nat) (x : syjson_value) (g : Nat)
    (hX : X.headD 0 = 0x2C ∨ X.headD 0 = 0x7D) (hf : parse_fuel c.value_text ≤ g) :
    ∃ W1 W2 e, same_value e c.value
      ∧ (∀ b ∈ W1, is_space b = true) ∧ (∀ b ∈ W2, is_space b = true)
      ∧ string_pure (c.key_text ++ 0x3A :: (c.value_text ++ X))
          = some (SYJSON_PARSE_OK, W1 ++ 0x3A :: (c.value_text ++ X), c.key)
      ∧ value_pure strtod g ((c.value_text ++ X).dropWhile is_space) x
          = some (SYJSON_PARSE_OK, W2 ++ X, e) := by
  obtain ⟨hq, h0k, h0v, ⟨uk, wk, hpk, hsk⟩, ⟨uv, hpv⟩⟩ := hc
  obtain ⟨W1, hs1, hW1⟩ := key_string strtod uk wk c.key_text c.key hq h0k hpk hsk
  have hdel : delimiter (X.headD 0) := by
    unfold delimiter; rcases hX with h | h <;> rw [h] <;> simp
  obtain ⟨W2, e, he, hW2, hse⟩ := value_in_context strtod hloc uv c.value
    x c.value_text X g h0v hpv hdel hf
  exact ⟨W1, W2, e, hse, hW1, hW2,
    string_pure_append c.key_text W1 c.key (0x3A :: (c.value_text ++ X)) hs1, he⟩

/-- The loop of `syjson_parse_object` on members that each parse on their own: every
member is staged, in the order of the text. -/
theorem object_loop_texts (strtod : List Nat → Nat) (hloc : strtod_local strtod) :
    ∀ (cs : List member_case), cs ≠ [] → (∀ c ∈ cs, c.ok strtod) →
      ∀ (acc : List syjson_member) (v mv : syjson_value) (r0 : List Nat) (fuel : Nat),
        3 * (join_comma (member_texts cs) ++ 0x7D :: r0).length + 2 ≤ fuel →
        ∃ ms, List.Forall₂ member_matches ms cs
          ∧ object_loop_pure strtod fuel (join_comma (member_texts cs) ++ 0x7D :: r0) v mv acc
              = some (SYJSON_PARSE_OK, r0,
                  .mk SYJSON_OBJ (.obj (acc ++ ms) (acc.length + cs.length))) := by
  intro cs
  induction cs with
  | nil => intro h; exact absurd rfl h
  | cons c cs ih =>
    intro _ hok acc v mv r0 fuel hf
    obtain ⟨g, rfl⟩ : ∃ g, fuel = g + 1 := ⟨fuel - 1, by omega⟩
    have hc := hok c (List.mem_cons_self c cs)
    have hhead := join_members_head c cs (0x7D :: r0) hc.1
    cases cs with
    | nil =>
      simp only [member_texts, join_comma, List.append_assoc, List.cons_append] at hf hhead ⊢
      obtain ⟨W1, W2, e, hse, hW1, hW2, hs, hv⟩ := object_member_step strtod hloc c hc
        (0x7D :: r0) (mv.set_type SYJSON_NULL) g (Or.inr rfl) (by
          simp only [parse_fuel, List.length_append, List.length_cons] at hf ⊢; omega)
      refine ⟨[.mk (c.key ++ [0]) c.key.length e],
        List.Forall₂.cons ⟨rfl, rfl, hse⟩ List.Forall₂.nil, ?_⟩
      have hd1 : (W1 ++ 0x3A :: (c.value_text ++ 0x7D :: r0)).dropWhile is_space
          = 0x3A :: (c.value_text ++ 0x7D :: r0) := dropWhile_space_append W1 _ hW1 (by rfl)
      have hd2 : (W2 ++ 0x7D :: r0).dropWhile is_space = 0x7D :: r0 :=
        dropWhile_space_append W2 _ hW2 (by rfl)
      rw [object_loop_pure, if_neg (by rw [hhead]; simp), hs]
      simp only [Option.some_bind, ne_eq, not_true_eq_false, if_false, hd1, List.headD_cons,
        List.tail_cons, hv, hd2, List.length_singleton]
      rw [if_neg (by decide)]
      simp only [if_true]
    | cons c' cs' =>
      simp only [member_texts, join_comma, List.append_assoc, List.cons_append] at hf hhead ⊢
      have hjoin : join_comma (member_texts (c' :: cs')) ++ 0x7D :: r0
          = join_comma ((c'.key_text ++ 0x3A :: c'.value_text) :: member_texts cs')
              ++ 0x7D :: r0 := rfl
      obtain ⟨W1, W2, e, hse, hW1, hW2, hs, hv⟩ := object_member_step strtod hloc c hc
        (0x2C :: (join_comma ((c'.key_text ++ 0x3A :: c'.value_text) :: member_texts cs')
          ++ 0x7D :: r0)) (mv.set_type SYJSON_NULL) g (Or.inl rfl) (by
          simp only [parse_fuel, List.length_append, List.length_cons] at hf ⊢; omega)
      obtain ⟨ms, hms, hl⟩ := ih (by simp)
        (fun x hx => hok x (List.mem_cons_of_mem c hx))
        (acc ++ [.mk (c.key ++ [0]) c.key.length e]) v e r0 g (by
          rw [hjoin]
          simp only [List.length_append, List.length_cons] at hf ⊢; omega)
      rw [hjoin] at hl
      refine ⟨.mk (c.key ++ [0]) c.key.length e :: ms,
        List.Forall₂.cons ⟨rfl, rfl, hse⟩ hms, ?_⟩
      have hd1 : (W1 ++ 0x3A :: (c.value_text ++ 0x2C ::
            (join_comma ((c'.key_text ++ 0x3A :: c'.value_text) :: member_texts cs')
              ++ 0x7D :: r0))).dropWhile is_space
          = 0x3A :: (c.value_text ++ 0x2C ::
            (join_comma ((c'.key_text ++ 0x3A :: c'.value_text) :: member_texts cs')
              ++ 0x7D :: r0)) := dropWhile_space_append W1 _ hW1 (by rfl)
      have hd2 : (W2 ++ 0x2C ::
            (join_comma ((c'.key_text ++ 0x3A :: c'.value_text) :: member_texts cs')
              ++ 0x7D :: r0)).dropWhile is_space
          = 0x2C :: (join_comma ((c'.key_text ++ 0x3A :: c'.value_text) :: member_texts cs')
              ++ 0x7D :: r0) := dropWhile_space_append W2 _ hW2 (by rfl)
      rw [object_loop_pure, if_neg (by rw [hhead]; simp), hs]
      simp only [Option.some_bind, ne_eq, not_true_eq_false, if_false, hd1, List.headD_cons,
        List.tail_cons, hv, hd2, if_true]
      rw [hl]
      have e1 : acc ++ [syjson_member.mk (c.key ++ [0]) c.key.length e] ++ ms
          = acc ++ syjson_member.mk (c.key ++ [0]) c.key.length e :: ms := by simp
      have e2 : (acc ++ [syjson_member.mk (c.key ++ [0]) c.key.length e]).length
            + (c' :: cs').length = acc.length + (c :: c' :: cs').length := by
        simp only [List.length_append, List.length_singleton, List.length_cons,
          List.length_nil]
        omega
      rw [e1, e2]
/-- C8: for every non-empty list of members, each a quoted key text that parses on its
own to the string `di` and a value text that `syjson_parse` accepts with value `vi`
(texts without NUL bytes), the text `{` k1 `:` t1 `,` ... `,` kn `:` tn `}` with
nothing after the commas is accepted with a root of type `SYJSON_OBJ` whose size is
`n`; the getters of index `i < n` give the members in the order of the text, none
dropped for a repeated key: the key buffer is `di` and a NUL, the key length is the
number of bytes of `di`, the value is structurally equal to `vi`.  (`strtod` is assumed
to convert the number it is pointed at whatever follows a delimiter after it.) -/
theorem object_compositional (strtod : List Nat → Nat) (hloc : strtod_local strtod)
    (v : syjson_value) (cs : List member_case) (hne : cs ≠ [])
    (hok : ∀ c ∈ cs, c.ok strtod) :
    ∃ a ms, syjson_parse strtod v (object_text cs) = .ok (SYJSON_PARSE_OK, a)
      ∧ syjson_get_type a = SYJSON_OBJ
      ∧ syjson_get_object_size a = .ok cs.length
      ∧ (∀ i, i < cs.length →
          syjson_get_object_key a i = .ok ((ms.get? i).map syjson_member.k)
            ∧ syjson_get_object_key_length a i = .ok ((ms.get? i).map syjson_member.kl)
            ∧ syjson_get_object_value a i = .ok ((ms.get? i).map syjson_member.v))
      ∧ List.Forall₂ member_matches ms cs := by
  obtain ⟨ret, rest, w, hv, e⟩ := parse_eq strtod v (object_text cs)
  have hd : (object_text cs).dropWhile is_space = object_text cs :=
    dropWhile_space_of_head (by rfl)
  have hlen : (object_text cs).length = (join_comma (member_texts cs) ++ [0x7D]).length + 1 :=
    rfl
  obtain ⟨g, hg⟩ : ∃ g, 3 * (object_text cs).length = g + 2 :=
    ⟨3 * (object_text cs).length - 2, by omega⟩
  obtain ⟨ms, hms, hl⟩ := object_loop_texts strtod hloc cs hne hok []
    (v.set_type SYJSON_NULL) (.mk SYJSON_NULL .uninit) [] (g + 1) (by omega)
  have hhead : (join_comma (member_texts cs) ++ [0x7D]).headD 0 = 0x22 := by
    cases cs with
    | nil => exact absurd rfl hne
    | cons c cs' => exact join_members_head c cs' [0x7D] (hok c (List.mem_cons_self c cs')).1
  have hdw : (join_comma (member_texts cs) ++ [0x7D]).dropWhile is_space
      = join_comma (member_texts cs) ++ [0x7D] :=
    dropWhile_space_of_head (by rw [hhead]; rfl)
  rw [hd, parse_fuel, value_pure, hg] at hv
  have hh : (object_text cs).headD 0 = 0x7B := rfl
  rw [if_neg (by rw [hh]; decide), if_neg (by rw [hh]; decide),
    if_neg (by rw [hh]; decide), if_neg (by rw [hh]; decide),
    if_neg (by rw [hh]; decide), if_pos hh, object_pure] at hv
  have ht : (object_text cs).tail = join_comma (member_texts cs) ++ [0x7D] := rfl
  rw [ht, hdw, if_neg (by rw [hhead]; decide), hl] at hv
  simp only [Option.some.injEq, Prod.mk.injEq] at hv
  obtain ⟨rfl, rfl, rfl⟩ := hv
  simp only [if_true, List.dropWhile_nil, List.headD_nil] at e
  refine ⟨_, ms, e, rfl, ?_, ?_, ?_⟩
  · simp [syjson_get_object_size, syjson_value.type, syjson_value.val, syjson_val.obj_s]
  · intro i hi
    simp [syjson_get_object_key, syjson_get_object_key_length, syjson_get_object_value,
      syjson_value.type, syjson_value.val, syjson_val.obj_s, syjson_val.obj_m, hi]
  · simpa using hms

/-- C8, instance: the members `"a":1`, `"b":[true,false]` and `"a":2` are well formed,
so the text `{"a":1,"b":[true,false],"a":2}` parses to an object of size 3 that keeps
all three in order.  Evaluated: `{"a":1,"b":[true,false]}` gives size 2 with the keys
`a`, `b` in that order, and `{"a":1,"a":2}` gives size 2 with both members kept. -/
theorem object_compositional_witness :
    object_text sample_members = bytes "\x7b\"a\":1,\"b\":[true,false],\"a\":2\x7d"
      ∧ (∀ c ∈ sample_members, c.ok strtod_int)
      ∧ (∃ a ms, syjson_parse strtod_int v_init (object_text sample_members)
            = .ok (SYJSON_PARSE_OK, a)
          ∧ syjson_get_type a = SYJSON_OBJ
          ∧ syjson_get_object_size a = .ok sample_members.length
          ∧ (∀ i, i < sample_members.length →
              syjson_get_object_key a i = .ok ((ms.get? i).map syjson_member.k)
                ∧ syjson_get_object_key_length a i
                    = .ok ((ms.get? i).map syjson_member.kl)
                ∧ syjson_get_object_value a i = .ok ((ms.get? i).map syjson_member.v))
          ∧ List.Forall₂ member_matches ms sample_members)
      ∧ (syjson_get_object_size (value_of
            (syjson_parse strtod_int v_init (bytes "\x7b\"a\":1,\"b\":[true,false]\x7d"))) = .ok 2
          ∧ syjson_get_object_key (value_of
              (syjson_parse strtod_int v_init (bytes "\x7b\"a\":1,\"b\":[true,false]\x7d"))) 0
              = .ok (some [0x61, 0])
          ∧ syjson_get_object_key (value_of
              (syjson_parse strtod_int v_init (bytes "\x7b\"a\":1,\"b\":[true,false]\x7d"))) 1
              = .ok (some [0x62, 0]))
      ∧ (syjson_get_object_size (value_of
            (syjson_parse strtod_int v_init (bytes "\x7b\"a\":1,\"a\":2\x7d"))) = .ok 2
          ∧ syjson_get_object_key (value_of
              (syjson_parse strtod_int v_init (bytes "\x7b\"a\":1,\"a\":2\x7d"))) 0
              = .ok (some [0x61, 0])
          ∧ syjson_get_object_key (value_of
              (syjson_parse strtod_int v_init (bytes "\x7b\"a\":1,\"a\":2\x7d"))) 1
              = .ok (some [0x61, 0])
          ∧ syjson_get_object_key_length (value_of
              (syjson_parse strtod_int v_init (bytes "\x7b\"a\":1,\"a\":2\x7d"))) 1
              = .ok (some 1)) :=
  have hok : ∀ c ∈ sample_members, c.ok strtod_int := by
    intro c hc
    simp only [sample_members, List.mem_cons, List.mem_singleton, List.not_mem_nil,
      or_false] at hc
    rcases hc with rfl | rfl | rfl
    · exact ⟨by decide!, by decide!, by decide!,
        ⟨v_init, _, parse_ok_of_ret _ _ (by decide!), by decide!⟩,
        ⟨v_init, parse_ok_of_ret _ _ (by decide!)⟩⟩
    · exact ⟨by decide!, by decide!, by decide!,
        ⟨v_init, _, parse_ok_of_ret _ _ (by decide!), by decide!⟩,
        ⟨v_init, parse_ok_of_ret _ _ (by decide!)⟩⟩
    · exact ⟨by decide!, by decide!, by decide!,
        ⟨v_init, _, parse_ok_of_ret _ _ (by decide!), by decide!⟩,
        ⟨v_init, parse_ok_of_ret _ _ (by decide!)⟩⟩
  ⟨by decide, hok,
   object_compositional strtod_int strtod_int_local v_init sample_members
     (by unfold sample_members; exact List.cons_ne_nil _ _) hok,
   ⟨by decide!, by decide!, by decide!⟩,
   ⟨by decide!, by decide!, by decide!, by decide!⟩⟩
/-! ## Release of a value -/

theorem free_blocks_null (v : syjson_value) (h : v.type = SYJSON_NULL) :
    syjson_free_blocks v = [] := by
  cases v with
  | mk t u =>
    simp only [syjson_value.type] at h
    subst h
    cases u <;> rfl

/-- C17: for every value `v`, after `syjson_free` the type is `SYJSON_NULL`; a second
`syjson_free` right after it passes nothing to `free` and leaves the value as it is;
and `syjson_free` of a value whose type is already `SYJSON_NULL` passes nothing to
`free` and leaves the value as it is. -/
theorem free_idempotent (v : syjson_value) :
    (syjson_free v).1.type = SYJSON_NULL
      ∧ syjson_free (syjson_free v).1 = ((syjson_free v).1, [])
      ∧ (v.type = SYJSON_NULL → syjson_free v = (v, [])) := by
  refine ⟨rfl, ?_, ?_⟩
  · unfold syjson_free
    rw [free_blocks_null (v.set_type SYJSON_NULL) rfl]
    rfl
  · intro h
    unfold syjson_free
    rw [free_blocks_null v h]
    cases v with
    | mk t u =>
      simp only [syjson_value.type] at h
      subst h
      rfl

/-- C17, instance: the root parsed from the text `{"a":["b"]}`, and a fresh root. -/
theorem free_idempotent_witness :
    ((syjson_free (value_of (syjson_parse strtod_int v_init
          (bytes "\x7b\"a\":[\"b\"]\x7d")))).1.type = SYJSON_NULL
        ∧ syjson_free (syjson_free (value_of (syjson_parse strtod_int v_init
            (bytes "\x7b\"a\":[\"b\"]\x7d")))).1
          = ((syjson_free (value_of (syjson_parse strtod_int v_init
              (bytes "\x7b\"a\":[\"b\"]\x7d")))).1, [])
        ∧ ((value_of (syjson_parse strtod_int v_init
              (bytes "\x7b\"a\":[\"b\"]\x7d"))).type = SYJSON_NULL →
            syjson_free (value_of (syjson_parse strtod_int v_init
              (bytes "\x7b\"a\":[\"b\"]\x7d")))
            = (value_of (syjson_parse strtod_int v_init (bytes "\x7b\"a\":[\"b\"]\x7d")), [])))
      ∧ v_init.type = SYJSON_NULL
      ∧ syjson_free v_init = (v_init, []) :=
  ⟨free_idempotent (value_of (syjson_parse strtod_int v_init (bytes "\x7b\"a\":[\"b\"]\x7d"))),
   rfl, (free_idempotent v_init).2.2 rfl⟩

/-- C16, at the failing input: `syjson_free` has no case for `SYJSON_ARR`, so for every
array it passes nothing to `free` and only resets the type.  On the root parsed from
the text `["a"]`, which owns its element storage and the buffer of the string `a`,
no block is released. -/
theorem free_array_leak :
    (∀ (e : List syjson_value) (s : Nat),
        syjson_free (.mk SYJSON_ARR (.arr e s)) = (.mk SYJSON_NULL (.arr e s), []))
      ∧ ret_of (syjson_parse strtod_int v_init (bytes "[\"a\"]")) = some SYJSON_PARSE_OK
      ∧ syjson_get_type (value_of (syjson_parse strtod_int v_init (bytes "[\"a\"]")))
          = SYJSON_ARR
      ∧ block_census
          (syjson_free (value_of (syjson_parse strtod_int v_init (bytes "[\"a\"]")))).2
          = (0, 0, 0)
      ∧ block_census
          (owned_blocks (value_of (syjson_parse strtod_int v_init (bytes "[\"a\"]"))))
          = (1, 1, 0) :=
  ⟨fun _ _ => rfl, by decide!, by decide!, by decide!, by decide!⟩

/-- C20: the assertion of `syjson_set_boolean` passes exactly when the argument is the
value of `SYJSON_TRUE` (1) or of `SYJSON_FALSE` (2); the call then makes that
enumerator the type, so `syjson_get_type` returns the argument and
`syjson_get_boolean` returns 1 exactly when the argument was `SYJSON_TRUE`.  The
argument 0 fails the assertion, and so does, for a value of type `SYJSON_FALSE`, the
argument that `syjson_get_boolean` returns. -/
theorem set_boolean_tag (v : syjson_value) (b : Int) :
    ((syjson_set_boolean v b).returned = true ↔ (b = 1 ∨ b = 2))
      ∧ SYJSON_TRUE.value = 1 ∧ SYJSON_FALSE.value = 2
      ∧ (∀ w fr, syjson_set_boolean v b = .ok (w, fr) →
          (syjson_get_type w).value = b
            ∧ syjson_get_boolean w = .ok (if b = SYJSON_TRUE.value then 1 else 0))
      ∧ syjson_set_boolean v 0 = .assert_failed
      ∧ (v.type = SYJSON_FALSE →
          syjson_get_boolean v = .ok 0
            ∧ (syjson_get_boolean v).bind (syjson_set_boolean v) = .assert_failed) := by
  refine ⟨?_, rfl, rfl, ?_, rfl, ?_⟩
  · unfold syjson_set_boolean
    by_cases h : b = SYJSON_TRUE.value ∨ b = SYJSON_FALSE.value
    · simp only [h, if_true, outcome.returned, true_iff]
      exact h
    · simp only [h, if_false, outcome.returned, Bool.false_eq_true, false_iff]
      exact h
  · intro w fr h
    unfold syjson_set_boolean at h
    by_cases hb : b = SYJSON_TRUE.value ∨ b = SYJSON_FALSE.value
    · simp only [hb, if_true, outcome.ok.injEq, Prod.mk.injEq] at h
      obtain ⟨rfl, _⟩ := h
      rcases hb with rfl | rfl
      · exact ⟨rfl, rfl⟩
      · exact ⟨rfl, rfl⟩
    · simp only [hb, if_false] at h
      cases h
  · intro h
    have hg : syjson_get_boolean v = .ok 0 := by
      unfold syjson_get_boolean
      rw [h]
      rfl
    exact ⟨hg, by rw [hg]; rfl⟩

/-- C20, instance: on the root parsed from `false`, the argument 1 is accepted and
makes the type `SYJSON_TRUE`, the argument 2 is accepted and `syjson_get_boolean` then
returns 0, and the argument 0 that `syjson_get_boolean` returns is rejected. -/
theorem set_boolean_tag_witness :
    (value_of (syjson_parse strtod_int v_init (bytes "false"))).type = SYJSON_FALSE
      ∧ (syjson_set_boolean (value_of (syjson_parse strtod_int v_init (bytes "false"))) 1
          ).returned = true
      ∧ (syjson_get_boolean (value_of (syjson_parse strtod_int v_init (bytes "false")))
            = .ok 0
          ∧ (syjson_get_boolean (value_of (syjson_parse strtod_int v_init (bytes "false")))
              ).bind (syjson_set_boolean
                (value_of (syjson_parse strtod_int v_init (bytes "false"))))
            = .assert_failed) :=
  ⟨by decide!,
   (set_boolean_tag (value_of (syjson_parse strtod_int v_init (bytes "false"))) 1).1.2
     (Or.inl rfl),
   (set_boolean_tag (value_of (syjson_parse strtod_int v_init (bytes "false"))) 1).2.2.2.2.2
     (by decide!)⟩
mutual
theorem free_blocks_perm : ∀ v : syjson_value, array_free v →
    (syjson_free_blocks v).Perm (owned_blocks v)
  | .mk SYJSON_NULL _, _ => by cases ‹syjson_val› <;> exact List.Perm.refl _
  | .mk SYJSON_TRUE _, _ => by cases ‹syjson_val› <;> exact List.Perm.refl _
  | .mk SYJSON_FALSE _, _ => by cases ‹syjson_val› <;> exact List.Perm.refl _
  | .mk SYJSON_NUM _, _ => by cases ‹syjson_val› <;> exact List.Perm.refl _
  | .mk SYJSON_STR u, _ => by cases u <;> exact List.Perm.refl _
  | .mk SYJSON_ARR u, h => by cases u <;> simp [array_free] at h
  | .mk SYJSON_OBJ .uninit, _ => List.Perm.refl _
  | .mk SYJSON_OBJ (.num _), _ => List.Perm.refl _
  | .mk SYJSON_OBJ (.str _ _), _ => List.Perm.refl _
  | .mk SYJSON_OBJ (.arr _ _), _ => List.Perm.refl _
  | .mk SYJSON_OBJ (.obj m n), h => by
    simp only [array_free] at h
    obtain ⟨rfl, hm⟩ := h
    simp only [syjson_free_blocks, owned_blocks]
    exact (List.perm_append_singleton _ _).trans
      (List.Perm.cons _ (free_members_perm m hm))
theorem free_members_perm : ∀ m : List syjson_member, array_free_members m →
    (syjson_free_members m m.length).Perm (owned_members m)
  | [], _ => List.Perm.refl _
  | .mk k kl v :: ms, h => by
    simp only [array_free_members] at h
    simp only [List.length_cons, syjson_free_members, owned_members]
    exact List.Perm.cons _ (List.Perm.append (free_blocks_perm v h.1) (free_members_perm ms h.2))
end

/-- C16, where the code agrees with the specification: for every value without arrays
(whose objects have as many members as their size says) the blocks `syjson_free`
passes to `free` are the blocks the value owns, each once, and the type afterwards is
`SYJSON_NULL`. -/
theorem free_releases_owned (v : syjson_value) (h : array_free v) :
    (syjson_free v).2.Perm (owned_blocks v) ∧ (syjson_free v).1.type = SYJSON_NULL :=
  ⟨free_blocks_perm v h, rfl⟩
/-! ## The scratch buffer -/

/-- The records `stack_split` hands out and the records it leaves are together the
records it was given: no record is lost and none is made up. -/
theorem stack_split_partition (st : List stack_cell) :
    ∀ len : Nat, (stack_split st len).1.reverse ++ (stack_split st len).2 = st := by
  induction st with
  | nil => intro len; rfl
  | cons x st ih =>
    intro len
    rw [stack_split]
    by_cases h : len = 0
    · simp only [h, if_true, List.reverse_nil, List.nil_append]
    · simp only [h, if_false, List.reverse_append, List.reverse_cons, List.reverse_nil,
        List.nil_append, List.singleton_append, List.cons_append, ih]

/-- A pop of exactly the bytes of the top record hands out that record alone. -/
theorem stack_split_top (x : stack_cell) (st : List stack_cell) (n : Nat) (hn : 0 < n)
    (hx : x.bytes = n) : stack_split (x :: st) n = ([x], st) := by
  have h0 : ¬ n = 0 := by omega
  rw [stack_split, if_neg h0, hx, Nat.sub_self]
  cases st <;> simp [stack_split]

/-- C19 as amended: for every context whose capacity is not 1 (the capacities of a
parse are 0 and those reached from 256 by the growth step) and every `n > 0`,
`syjson_content_push` returns the position of the old top, sets `top` to the old top
plus `n` and reserves the `n` bytes from the old top on as the top record of the
buffer, above the records already there.  The capacity is unchanged when `top + n` is
below it; otherwise (also when `top + n` equals the capacity) it grows: the new
capacity exceeds `top + n`, is at least 256 when the old one was 0, and is at least the
old one plus half of it rounded down.  The capacity never decreases.
`syjson_content_pop` fails its assertion when `n` exceeds `top`; otherwise it subtracts
`n` from `top`, returns the position of the new top, and the records it hands out
together with the records it leaves are the records of the buffer.  A pop of `n` after
the push of `n` restores `top` and the older records and returns the same span: the
position the push returned, holding the `n` reserved bytes, or the record stored there
in between. -/
theorem push_pop_contract (c : syjson_content) (n : Nat) (hn : 0 < n) (hcap : c.size ≠ 1) :
    (∃ c', syjson_content_push c n = .ok (c', c.top)
        ∧ c'.top = c.top + n ∧ c'.json = c.json
        ∧ c'.stack = stack_cell.reserved n :: c.stack
        ∧ (c.top + n < c.size → c'.size = c.size)
        ∧ (c.size ≤ c.top + n → c.top + n < c'.size
            ∧ (c.size = 0 → 256 ≤ c'.size)
            ∧ c.size + c.size / 2 ≤ c'.size)
        ∧ c.size ≤ c'.size
        ∧ syjson_content_pop c' n
            = .ok ({ json := c.json, stack := c.stack, size := c'.size, top := c.top },
                   c.top, [stack_cell.reserved n])
        ∧ ∀ x : stack_cell, x.bytes = n →
            syjson_content_pop { c' with stack := stack_store c'.stack x } n
              = .ok ({ json := c.json, stack := c.stack, size := c'.size, top := c.top },
                     c.top, [x]))
      ∧ (∀ m, c.top < m → syjson_content_pop c m = .assert_failed)
      ∧ (∀ m, m ≤ c.top → ∃ c2 pos span, syjson_content_pop c m = .ok (c2, pos, span)
          ∧ c2.top = c.top - m ∧ pos = c2.top ∧ c2.size = c.size ∧ c2.json = c.json
          ∧ span.reverse ++ c2.stack = c.stack) := by
  refine ⟨?_, ?_, ?_⟩
  · have hpop : ∀ (sz : Nat) (x : stack_cell), x.bytes = n →
        syjson_content_pop
            { json := c.json, stack := x :: c.stack, size := sz, top := c.top + n } n
          = .ok ({ json := c.json, stack := c.stack, size := sz, top := c.top },
                 c.top, [x]) := by
      intro sz x hx
      unfold syjson_content_pop
      have h1 : ¬ c.top + n < n := by omega
      have h2 : c.top + n - n = c.top := by omega
      simp only [h1, if_false, stack_split_top x c.stack n hn hx, h2]
    have hn0 : ¬ n = 0 := by omega
    have hall : ∀ sz : Nat,
        syjson_content_pop
            { json := c.json, stack := stack_cell.reserved n :: c.stack, size := sz,
              top := c.top + n } n
          = .ok ({ json := c.json, stack := c.stack, size := sz, top := c.top },
                 c.top, [stack_cell.reserved n])
        ∧ ∀ x : stack_cell, x.bytes = n →
            syjson_content_pop
              { ({ json := c.json, stack := stack_cell.reserved n :: c.stack, size := sz,
                   top := c.top + n } : syjson_content) with
                stack := stack_store (stack_cell.reserved n :: c.stack) x } n
              = .ok ({ json := c.json, stack := c.stack, size := sz, top := c.top },
                     c.top, [x]) :=
      fun sz => ⟨hpop sz _ rfl, fun x hx => hpop sz x hx⟩
    by_cases hge : c.top + n ≥ c.size
    · by_cases h0 : c.size = 0
      · obtain ⟨m, hm, h1, h2⟩ := stack_grow_ok (c.top + n) (c.top + n + 1)
          SYJSON_PARSE_STACK_INIT_SIZE (by decide) (by omega)
        have h256 : SYJSON_PARSE_STACK_INIT_SIZE = 256 := rfl
        refine ⟨{ json := c.json, stack := stack_cell.reserved n :: c.stack, size := m,
                  top := c.top + n }, ?_,
          rfl, rfl, rfl, fun h => by omega,
          fun _ => ⟨h1, fun _ => by dsimp only; omega, by dsimp only; omega⟩,
          by dsimp only; omega, (hall m).1, (hall m).2⟩
        unfold syjson_content_push
        simp [hn0, hge, h0, hm, outcome.bind]
      · have hstep : stack_grow (c.top + n) (c.top + n + 1 + 1) c.size
            = stack_grow (c.top + n) (c.top + n + 1) (c.size + c.size / 2) := by
          rw [stack_grow]
          simp only [hge, if_true]
        obtain ⟨m, hm, h1, h2⟩ := stack_grow_ok (c.top + n) (c.top + n)
          (c.size + c.size / 2) (by omega) (by omega)
        refine ⟨{ json := c.json, stack := stack_cell.reserved n :: c.stack, size := m,
                  top := c.top + n }, ?_,
          rfl, rfl, rfl, fun h => by omega, fun _ => ⟨h1, fun h => absurd h h0, h2⟩,
          by dsimp only; omega, (hall m).1, (hall m).2⟩
        unfold syjson_content_push
        simp only [hn0, if_false, hge, if_true, h0]
        rw [show c.top + n + 2 = c.top + n + 1 + 1 from rfl, hstep, hm]
        rfl
    · refine ⟨{ json := c.json, stack := stack_cell.reserved n :: c.stack, size := c.size,
                top := c.top + n }, ?_,
        rfl, rfl, rfl, fun _ => rfl, fun h => by omega, le_refl _,
        (hall c.size).1, (hall c.size).2⟩
      unfold syjson_content_push
      simp [hn0, hge, outcome.bind]
  · intro m hm
    unfold syjson_content_pop
    simp only [hm, if_true]
  · intro m hm
    unfold syjson_content_pop
    have : ¬ c.top < m := by omega
    simp only [this, if_false]
    exact ⟨_, _, _, rfl, rfl, rfl, rfl, rfl, stack_split_partition c.stack m⟩

/-- C19, instance of the amended claim.  In the middle of a parse, with two values
staged at top 48 of a buffer of capacity 256, a push of 24 returns position 48, makes
the top 72 and leaves the capacity alone; the pop of 24 after it returns position 48
with the reserved span, or with the value stored there in between, and leaves the two
staged values and top 48.  A push of 300 at top 0 of an unallocated buffer makes the
capacity 384, and a pop of 101 at top 100 fails its assertion. -/
theorem push_pop_contract_witness :
    (∃ c', syjson_content_push (c_sample []) 24 = .ok (c', 48) ∧ c'.size = 256
        ∧ c'.top = 72
        ∧ syjson_content_pop c' 24
            = .ok ({ json := [], stack := [stack_cell.value v_init, stack_cell.value v_init],
                     size := c'.size, top := 48 }, 48, [stack_cell.reserved 24])
        ∧ syjson_content_pop
              { c' with stack := stack_store c'.stack (stack_cell.value v_init) } 24
            = .ok ({ json := [], stack := [stack_cell.value v_init, stack_cell.value v_init],
                     size := c'.size, top := 48 }, 48, [stack_cell.value v_init]))
      ∧ capacity_after (syjson_content_push (c_buffer 0 0) 300) = some 384
      ∧ syjson_content_pop (c_buffer 256 100) 101 = .assert_failed :=
  ⟨(push_pop_contract (c_sample []) 24 (by decide) (by decide)).1.elim
      fun c' h => ⟨c', h.1, h.2.2.2.2.1 (by decide), h.2.1, h.2.2.2.2.2.2.2.1,
        h.2.2.2.2.2.2.2.2 (stack_cell.value v_init) rfl⟩,
   by decide!,
   (push_pop_contract (c_buffer 256 100) 1 (by decide) (by decide)).2.1 101 (by decide)⟩

/-- C19, counterexample to the claim as stated.  At top 255 of a buffer of capacity
256 a span of 1 byte fits, yet the push grows the capacity to 384, because the test is
`top + size >= capacity`.  And the capacity 6561, which a push of 6560 bytes reaches
from 256 by the growth step, grows to 9841, which is less than 1.5 times 6561. -/
theorem push_counterexample :
    (c_buffer 256 255).top + 1 ≤ (c_buffer 256 255).size
      ∧ capacity_after (syjson_content_push (c_buffer 256 255) 1) = some 384
      ∧ capacity_after (syjson_content_push (c_buffer 256 0) 6560) = some 6561
      ∧ capacity_after (syjson_content_push (c_buffer 6561 6560) 1) = some 9841
      ∧ 2 * 9841 < 3 * 6561 :=
  ⟨by decide, by decide!, by decide!, by decide!, by decide⟩
/-! ## The Unicode codec -/

theorem hex_or (u d : Nat) (hu : u < 2 ^ 28) (hd : d < 16) :
    ((u <<< 4) % 2 ^ 32) ||| d = 16 * u + d := by
  rw [Nat.shiftLeft_eq, Nat.mod_eq_of_lt (by omega)]
  have := Nat.mul_add_lt_is_or (i := 4) (by omega : d < 2 ^ 4) u
  rw [Nat.mul_comm u (2 ^ 4)]
  omega

theorem hex_digit_lt {ch d : Nat} (h : hex_digit ch = some d) : d < 16 := by
  unfold hex_digit at h
  split at h
  · simp only [Option.some.injEq] at h; omega
  · split at h
    · simp only [Option.some.injEq] at h; omega
    · split at h
      · simp only [Option.some.injEq] at h; omega
      · cases h

/-- One turn of the loop of `syjson_parse_hex4` in terms of `hex_digit`. -/
theorem hex4_loop_step (i : Nat) (p : List Nat) (u : Nat) (hu : u < 2 ^ 28) :
    hex4_loop (i + 1) p u
      = (hex_digit (p.headD 0)).bind fun d => hex4_loop i p.tail (16 * u + d) := by
  rw [hex4_loop]
  unfold hex_digit
  by_cases h1 : 0x30 ≤ p.headD 0 ∧ p.headD 0 ≤ 0x39
  · simp only [h1, and_self, if_true, Option.some_bind]
    rw [hex_or u _ hu (by omega)]
  · by_cases h2 : 0x41 ≤ p.headD 0 ∧ p.headD 0 ≤ 0x46
    · simp only [h1, if_false, h2, and_self, if_true, Option.some_bind]
      rw [hex_or u _ hu (by omega)]
      congr 2
      omega
    · by_cases h3 : 0x61 ≤ p.headD 0 ∧ p.headD 0 ≤ 0x66
      · simp only [h1, if_false, h2, h3, and_self, if_true, Option.some_bind]
        rw [hex_or u _ hu (by omega)]
        congr 2
        omega
      · simp only [h1, h2, h3, if_false, Option.none_bind]

theorem byte_at_succ (p : List Nat) (i : Nat) : byte_at p (i + 1) = byte_at p.tail i := by
  cases p with
  | nil => simp [byte_at]
  | cons a t => rfl

theorem drop_succ_tail (p : List Nat) (i : Nat) : p.drop (i + 1) = p.tail.drop i := by
  cases p with
  | nil => simp
  | cons a t => rfl

theorem byte_at_zero (p : List Nat) : byte_at p 0 = p.headD 0 := rfl

/-- The function `syjson_parse_hex4` in terms of the value of four hexadecimal digits. -/
theorem parse_hex4_eq (p : List Nat) :
    syjson_parse_hex4 p
      = (hex4_value (byte_at p 0) (byte_at p 1) (byte_at p 2) (byte_at p 3)).map
          fun u => (p.drop 4, u) := by
  unfold syjson_parse_hex4 hex4_value
  rw [hex4_loop_step 3 p 0 (by decide)]
  simp only [byte_at_succ, byte_at_zero, drop_succ_tail, List.drop_zero]
  cases h0 : hex_digit (p.headD 0) with
  | none => rfl
  | some d0 =>
    have b0 := hex_digit_lt h0
    simp only [Option.some_bind]
    rw [hex4_loop_step 2 _ _ (by omega)]
    cases h1 : hex_digit (p.tail.headD 0) with
    | none => rfl
    | some d1 =>
      have b1 := hex_digit_lt h1
      simp only [Option.some_bind]
      rw [hex4_loop_step 1 _ _ (by omega)]
      cases h2 : hex_digit (p.tail.tail.headD 0) with
      | none => rfl
      | some d2 =>
        have b2 := hex_digit_lt h2
        simp only [Option.some_bind]
        rw [hex4_loop_step 0 _ _ (by omega)]
        cases h3 : hex_digit (p.tail.tail.tail.headD 0) with
        | none => rfl
        | some d3 =>
          simp only [Option.some_bind, hex4_loop, Option.map_some', Option.some.injEq,
            Prod.mk.injEq, true_and]
          omega

theorem hex4_value_le {a b c d u : Nat} (h : hex4_value a b c d = some u) : u ≤ 0xFFFF := by
  unfold hex4_value at h
  cases h0 : hex_digit a with
  | none => simp [h0] at h
  | some d0 =>
    cases h1 : hex_digit b with
    | none => simp [h0, h1] at h
    | some d1 =>
      cases h2 : hex_digit c with
      | none => simp [h0, h1, h2] at h
      | some d2 =>
        cases h3 : hex_digit d with
        | none => simp [h0, h1, h2, h3] at h
        | some d3 =>
          simp only [h0, h1, h2, h3, Option.some_bind, Option.some.injEq] at h
          have := hex_digit_lt h0
          have := hex_digit_lt h1
          have := hex_digit_lt h2
          have := hex_digit_lt h3
          omega

theorem hex4_value_length {p : List Nat} {u : Nat}
    (h : hex4_value (byte_at p 0) (byte_at p 1) (byte_at p 2) (byte_at p 3) = some u) :
    (p.drop 4).length + 4 = p.length := by
  have hz : hex_digit 0 = none := by decide
  have key : ∀ a b c : Nat, hex4_value a b c 0 = none := by
    intro a b c
    unfold hex4_value
    cases hex_digit a <;> cases hex_digit b <;> cases hex_digit c <;> simp [hz]
  match p, h with
  | [], h => rw [show byte_at [] 3 = 0 from rfl, key] at h; cases h
  | [_], h => rw [show byte_at [_] 3 = 0 from rfl, key] at h; cases h
  | [_, _], h => rw [show byte_at [_, _] 3 = 0 from rfl, key] at h; cases h
  | [_, _, _], h => rw [show byte_at [_, _, _] 3 = 0 from rfl, key] at h; cases h
  | _ :: _ :: _ :: _ :: t, _ => simp
/-! ## Strings that end in an error -/

theorem byte_at_drop (p : List Nat) (k i : Nat) : byte_at (p.drop k) i = byte_at p (k + i) := by
  unfold byte_at
  rw [List.drop_drop, Nat.add_comm]

/-- The case `u` of the string scanner in terms of the value of hexadecimal digits. -/
theorem string_unicode_eq (p : List Nat) :
    string_unicode p
      = match hex4_value (byte_at p 0) (byte_at p 1) (byte_at p 2) (byte_at p 3) with
        | none => .error SYJSON_PARSE_INVALID_UNICODE_HEX
        | some u =>
          if 0xd800 ≤ u ∧ u ≤ 0xdbff then
            if byte_at p 4 ≠ 0x5C then .error SYJSON_PARSE_INVALID_UNICODE_SURROGATE
            else if byte_at p 5 ≠ 0x75 then .error SYJSON_PARSE_INVALID_UNICODE_SURROGATE
            else
              match hex4_value (byte_at p 6) (byte_at p 7) (byte_at p 8) (byte_at p 9) with
              | none => .error SYJSON_PARSE_INVALID_UNICODE_HEX
              | some u2 =>
                if u2 < 0xdc00 ∨ u2 > 0xdfff then
                  .error SYJSON_PARSE_INVALID_UNICODE_SURROGATE
                else .ok (p.drop 10, 0x10000 + (((u - 0xd800) <<< 10) ||| (u2 - 0xdc00)))
          else .ok (p.drop 4, u) := by
  unfold string_unicode
  rw [parse_hex4_eq p]
  cases h : hex4_value (byte_at p 0) (byte_at p 1) (byte_at p 2) (byte_at p 3) with
  | none => rfl
  | some u =>
    simp only [Option.map_some']
    by_cases hu : 0xd800 ≤ u ∧ u ≤ 0xdbff
    · simp only [hu, and_self, if_true]
      have e4 : (p.drop 4).headD 0 = byte_at p 4 := rfl
      have e5 : (p.drop 4).tail.headD 0 = byte_at p 5 := by
        rw [← byte_at_zero, ← byte_at_succ, byte_at_drop]
      have e6 : (p.drop 4).tail.tail = p.drop 6 := by
        rw [← List.drop_one, ← List.drop_one, List.drop_drop, List.drop_drop]
      rw [e4, e5, e6, parse_hex4_eq (p.drop 6)]
      simp only [byte_at_drop, List.drop_drop]
      by_cases h4 : byte_at p 4 = 0x5C
      · by_cases h5 : byte_at p 5 = 0x75
        · simp only [h4, h5, ne_eq, not_true_eq_false, if_false]
          cases h2 : hex4_value (byte_at p 6) (byte_at p 7) (byte_at p 8) (byte_at p 9) with
          | none => rfl
          | some u2 => rfl
        · simp only [h4, h5, ne_eq, not_true_eq_false, if_false, not_false_eq_true, if_true]
      · simp only [h4, ne_eq, not_false_eq_true, if_true]
    · simp only [hu, if_false]

/-- The turn of the string scanner on a `\u` escape. -/
theorem string_decode_unicode (fuel : Nat) (p acc : List Nat) :
    string_decode (fuel + 1) (0x5C :: 0x75 :: p) acc
      = match string_unicode p with
        | .error ret => some (ret, [], [])
        | .ok (p, u) => string_decode fuel p (acc ++ utf8_pushed u) := by
  rw [string_decode]
  rfl

theorem scan_item_step (it : scan_item) (hv : it.valid) (fuel : Nat) (rest acc : List Nat) :
    ∃ acc', string_decode (fuel + 1) (it.text ++ rest) acc = string_decode fuel rest acc' := by
  cases it with
  | plain it => exact ⟨_, string_decode_item it hv fuel rest acc⟩
  | unicode a b c d =>
    obtain ⟨u, hu, hn⟩ := hv
    refine ⟨acc ++ utf8_pushed u, ?_⟩
    show string_decode (fuel + 1) (0x5C :: 0x75 :: a :: b :: c :: d :: rest) acc = _
    rw [string_decode_unicode, string_unicode_eq]
    have : hex4_value (byte_at (a :: b :: c :: d :: rest) 0) (byte_at (a :: b :: c :: d :: rest) 1)
        (byte_at (a :: b :: c :: d :: rest) 2) (byte_at (a :: b :: c :: d :: rest) 3)
        = some u := hu
    rw [this]
    simp only [hn, if_false]
    rfl
  | pair a b c d a2 b2 c2 d2 =>
    obtain ⟨u, u2, hu, hh, hu2, hl⟩ := hv
    refine ⟨acc ++ utf8_pushed (0x10000 + (((u - 0xd800) <<< 10) ||| (u2 - 0xdc00))), ?_⟩
    show string_decode (fuel + 1)
      (0x5C :: 0x75 :: a :: b :: c :: d :: 0x5C :: 0x75 :: a2 :: b2 :: c2 :: d2 :: rest) acc = _
    rw [string_decode_unicode, string_unicode_eq]
    have e1 : hex4_value
        (byte_at (a :: b :: c :: d :: 0x5C :: 0x75 :: a2 :: b2 :: c2 :: d2 :: rest) 0)
        (byte_at (a :: b :: c :: d :: 0x5C :: 0x75 :: a2 :: b2 :: c2 :: d2 :: rest) 1)
        (byte_at (a :: b :: c :: d :: 0x5C :: 0x75 :: a2 :: b2 :: c2 :: d2 :: rest) 2)
        (byte_at (a :: b :: c :: d :: 0x5C :: 0x75 :: a2 :: b2 :: c2 :: d2 :: rest) 3)
        = some u := hu
    have e2 : hex4_value
        (byte_at (a :: b :: c :: d :: 0x5C :: 0x75 :: a2 :: b2 :: c2 :: d2 :: rest) 6)
        (byte_at (a :: b :: c :: d :: 0x5C :: 0x75 :: a2 :: b2 :: c2 :: d2 :: rest) 7)
        (byte_at (a :: b :: c :: d :: 0x5C :: 0x75 :: a2 :: b2 :: c2 :: d2 :: rest) 8)
        (byte_at (a :: b :: c :: d :: 0x5C :: 0x75 :: a2 :: b2 :: c2 :: d2 :: rest) 9)
        = some u2 := hu2
    have e4 : byte_at (a :: b :: c :: d :: 0x5C :: 0x75 :: a2 :: b2 :: c2 :: d2 :: rest) 4
        = 0x5C := rfl
    have e5 : byte_at (a :: b :: c :: d :: 0x5C :: 0x75 :: a2 :: b2 :: c2 :: d2 :: rest) 5
        = 0x75 := rfl
    have hl' : ¬ (u2 < 0xdc00 ∨ u2 > 0xdfff) := by omega
    rw [e1, e2, e4, e5]
    simp only [hh, and_self, if_true, ne_eq, not_true_eq_false, if_false, hl']
    rfl

theorem scan_item_text_length (it : scan_item) : 1 ≤ it.text.length := by
  cases it with
  | plain it => exact item_text_length it
  | unicode a b c d => simp [scan_item.text]
  | pair a b c d a2 b2 c2 d2 => simp [scan_item.text]

theorem scan_text_length (items : List scan_item) : items.length ≤ (scan_text items).length := by
  induction items with
  | nil => simp
  | cons it t ih =>
    have := scan_item_text_length it
    simp only [scan_text, List.map_cons, List.flatten_cons, List.length_append,
      List.length_cons] at ih ⊢
    omega

/-- The scanner passes over valid pieces: it reaches the text after them with fuel
left. -/
theorem string_decode_items (items : List scan_item) (hv : ∀ it ∈ items, it.valid) :
    ∀ (fuel : Nat) (rest acc : List Nat),
      ∃ acc', string_decode (fuel + items.length) (scan_text items ++ rest) acc
        = string_decode fuel rest acc' := by
  induction items with
  | nil => intro fuel rest acc; exact ⟨acc, rfl⟩
  | cons it t ih =>
    intro fuel rest acc
    obtain ⟨a1, h1⟩ := scan_item_step it (hv it (List.mem_cons_self it t))
      (fuel + t.length) (scan_text t ++ rest) acc
    obtain ⟨a2, h2⟩ := ih (fun x hx => hv x (List.mem_cons_of_mem it hx)) fuel rest a1
    refine ⟨a2, ?_⟩
    have e : scan_text (it :: t) ++ rest = it.text ++ (scan_text t ++ rest) := by
      simp [scan_text]
    rw [e, List.length_cons, ← Nat.add_assoc, h1, h2]

/-- The scan of a string that begins with valid pieces is, with some fuel left, the
scan of what follows them. -/
theorem string_pure_items (items : List scan_item) (hv : ∀ it ∈ items, it.valid)
    (rest : List Nat) :
    ∃ acc' fuel, string_pure (0x22 :: (scan_text items ++ rest))
      = string_decode (fuel + 1) rest acc' := by
  unfold string_pure
  have hl := scan_text_length items
  obtain ⟨acc', h⟩ := string_decode_items items hv
    ((scan_text items).length - items.length + rest.length + 1) rest []
  refine ⟨acc', (scan_text items).length - items.length + rest.length, ?_⟩
  rw [← h]
  congr 1
  simp only [List.tail_cons, List.length_append]
  omega

/-- A failure of the string scanner on a text that begins with the double quote is the
result of `syjson_parse`, with the root left `SYJSON_NULL`. -/
theorem parse_of_string_error (strtod : List Nat → Nat) (v : syjson_value) (s : List Nat)
    (hq : s.headD 0 = 0x22) (ret : syjson_parse_ret) (rest bytes : List Nat)
    (h : string_pure s = some (ret, rest, bytes)) (hr : ret ≠ SYJSON_PARSE_OK) :
    syjson_parse strtod v s = .ok (ret, v.set_type SYJSON_NULL) := by
  obtain ⟨ret', rest', v', hv, e⟩ := parse_eq strtod v s
  have hd : s.dropWhile is_space = s := dropWhile_space_of_head (by rw [hq]; rfl)
  rw [hd, parse_fuel, value_pure] at hv
  rw [if_neg (by rw [hq]; decide), if_neg (by rw [hq]; decide),
    if_neg (by rw [hq]; decide), if_pos hq, h] at hv
  simp only [Option.map_some', hr, if_false, Option.some.injEq, Prod.mk.injEq] at hv
  obtain ⟨rfl, rfl, rfl⟩ := hv
  rw [e]
  simp only [hr, if_false]
theorem string_decode_control (fuel : Nat) (b : Nat) (rest acc : List Nat)
    (hb : (1 ≤ b ∧ b < 0x20) ∨ b = 0x7F) :
    string_decode (fuel + 1) (b :: rest) acc
      = some (SYJSON_PARSE_INVALID_STRING_CHAR, [], []) := by
  rw [string_decode]
  have h1 : ¬ b = 0x22 := by omega
  have h2 : ¬ b = 0x5C := by omega
  have h3 : ¬ b = 0 := by omega
  have h4 : b < 0x20 ∨ b = 0x7F := by omega
  simp only [List.headD_cons, h1, h2, h3, h4, if_false, if_true]

theorem string_decode_nul (fuel : Nat) (r acc : List Nat) (hr : r.headD 0 = 0) :
    string_decode (fuel + 1) r acc = some (SYJSON_PARSE_MISS_QUOTATION_MARK, [], []) := by
  rw [string_decode]
  simp only [hr]
  rfl

/-- C14: for every input made of a double quote, valid pieces `p` (raw string bytes,
one-character escapes, `\u` escapes, none of them a closing quote), a raw byte `b` with
`0x01 <= b <= 0x1F` or `b = 0x7F`, and any text after it, `syjson_parse` returns
`SYJSON_PARSE_INVALID_STRING_CHAR`; and the string scanner, entered on this text with
any scratch buffer of a reachable capacity, returns that code with `top` and the live
records as they were on entry. -/
theorem string_control_char (strtod : List Nat → Nat) (v : syjson_value)
    (items : List scan_item) (b : Nat) (rest : List Nat) (hv : ∀ it ∈ items, it.valid)
    (hb : (1 ≤ b ∧ b < 0x20) ∨ b = 0x7F) :
    syjson_parse strtod v (0x22 :: (scan_text items ++ b :: rest))
        = .ok (SYJSON_PARSE_INVALID_STRING_CHAR, v.set_type SYJSON_NULL)
      ∧ ∀ c : syjson_content, c.size ≠ 1 →
          c.json = 0x22 :: (scan_text items ++ b :: rest) →
          ∃ c', syjson_string_to_value c
              = .ok (SYJSON_PARSE_INVALID_STRING_CHAR, c', [], 0)
            ∧ c'.top = c.top ∧ c'.stack = c.stack := by
  obtain ⟨acc', fuel, h⟩ := string_pure_items items hv (b :: rest)
  rw [string_decode_control fuel b rest acc' hb] at h
  refine ⟨parse_of_string_error strtod v (0x22 :: (scan_text items ++ b :: rest)) rfl
    _ _ _ h (by decide), ?_⟩
  intro c hcap hj
  obtain ⟨c', e, a1, a2, _⟩ := string_to_value_sound c hcap (by
    unfold syjson_content.cur; rw [hj]; rfl) _ _ _ (hj ▸ h)
  exact ⟨c', e, a2, a1⟩

/-- C14, instance: the text `"a\né` followed by the byte 0x01 and `b"`, as the whole
input and under the cursor of a context whose top is 48. -/
theorem string_control_char_witness :
    syjson_parse strtod_int v_init
        (0x22 :: (scan_text [.plain (.raw 0x61), .plain (.esc 0x6E),
          .unicode 0x30 0x30 0x65 0x39] ++ 0x01 :: bytes "b\""))
        = .ok (SYJSON_PARSE_INVALID_STRING_CHAR, v_init.set_type SYJSON_NULL)
      ∧ ∃ c', syjson_string_to_value
            (c_sample (0x22 :: (scan_text [.plain (.raw 0x61), .plain (.esc 0x6E),
              .unicode 0x30 0x30 0x65 0x39] ++ 0x01 :: bytes "b\"")))
            = .ok (SYJSON_PARSE_INVALID_STRING_CHAR, c', [], 0)
          ∧ c'.top = 48 ∧ c'.stack = [stack_cell.value v_init, stack_cell.value v_init] :=
  have hv : ∀ it ∈ [scan_item.plain (.raw 0x61), .plain (.esc 0x6E),
      .unicode 0x30 0x30 0x65 0x39], it.valid := by
    intro it hit
    simp only [List.mem_cons, List.mem_singleton, List.not_mem_nil, or_false] at hit
    rcases hit with rfl | rfl | rfl
    · simp [scan_item.valid, str_item.valid]
    · simp [scan_item.valid, str_item.valid]
    · exact ⟨0xE9, by decide, by decide⟩
  ⟨(string_control_char strtod_int v_init _ 0x01 (bytes "b\"") hv (by decide)).1,
   (string_control_char strtod_int v_init _ 0x01 (bytes "b\"") hv (by decide)).2
     (c_sample _) (by decide) rfl⟩

/-- C15: for every input made of a double quote and valid pieces `p` (raw string
bytes, one-character escapes, `\u` escapes) with no closing quote, so that the scan
reaches the terminating NUL, `syjson_parse` returns
`SYJSON_PARSE_MISS_QUOTATION_MARK`.  (The text after the pieces is empty or begins with
a NUL byte.) -/
theorem string_miss_quote (strtod : List Nat → Nat) (v : syjson_value)
    (items : List scan_item) (r : List Nat) (hv : ∀ it ∈ items, it.valid)
    (hr : r.headD 0 = 0) :
    syjson_parse strtod v (0x22 :: (scan_text items ++ r))
      = .ok (SYJSON_PARSE_MISS_QUOTATION_MARK, v.set_type SYJSON_NULL) := by
  obtain ⟨acc', fuel, h⟩ := string_pure_items items hv r
  rw [string_decode_nul fuel r acc' hr] at h
  exact parse_of_string_error strtod v (0x22 :: (scan_text items ++ r)) rfl _ _ _ h
    (by decide)

/-- C15, instance: the text `"a\né` with nothing after it, and the text of a lone
double quote. -/
theorem string_miss_quote_witness :
    0x22 :: (scan_text [.plain (.raw 0x61), .plain (.esc 0x6E),
        .unicode 0x30 0x30 0x65 0x39] ++ []) = bytes "\"a\\n\\u00e9"
      ∧ syjson_parse strtod_int v_init
          (0x22 :: (scan_text [.plain (.raw 0x61), .plain (.esc 0x6E),
            .unicode 0x30 0x30 0x65 0x39] ++ []))
          = .ok (SYJSON_PARSE_MISS_QUOTATION_MARK, v_init.set_type SYJSON_NULL)
      ∧ syjson_parse strtod_int v_init (0x22 :: (scan_text [] ++ []))
          = .ok (SYJSON_PARSE_MISS_QUOTATION_MARK, v_init.set_type SYJSON_NULL) :=
  ⟨by decide,
   string_miss_quote strtod_int v_init _ [] (by
      intro it hit
      simp only [List.mem_cons, List.mem_singleton, List.not_mem_nil, or_false] at hit
      rcases hit with rfl | rfl | rfl
      · simp [scan_item.valid, str_item.valid]
      · simp [scan_item.valid, str_item.valid]
      · exact ⟨0xE9, by decide, by decide⟩) rfl,
   string_miss_quote strtod_int v_init [] [] (by simp) rfl⟩
/-- C18: `syjson_parse_hex4` reads the four bytes under the cursor (NUL past the end of
the text).  If all four are hexadecimal digits, of either case, it returns the cursor
advanced by exactly 4 and the value `d0*4096 + d1*256 + d2*16 + d3`, which is at most
0xFFFF.  If one of them is not a hexadecimal digit it returns NULL, and a string in
which valid pieces are followed by a `\u` escape with these four bytes makes
`syjson_parse` return `SYJSON_PARSE_INVALID_UNICODE_HEX`. -/
theorem hex4_exact (p : List Nat) :
    (∀ u, hex4_value (byte_at p 0) (byte_at p 1) (byte_at p 2) (byte_at p 3) = some u →
        syjson_parse_hex4 p = some (p.drop 4, u) ∧ (p.drop 4).length + 4 = p.length
          ∧ u ≤ 0xFFFF)
      ∧ (hex4_value (byte_at p 0) (byte_at p 1) (byte_at p 2) (byte_at p 3) = none →
          syjson_parse_hex4 p = none
            ∧ ∀ (strtod : List Nat → Nat) (v : syjson_value) (items : List scan_item),
                (∀ it ∈ items, it.valid) →
                syjson_parse strtod v (0x22 :: (scan_text items ++ 0x5C :: 0x75 :: p))
                  = .ok (SYJSON_PARSE_INVALID_UNICODE_HEX, v.set_type SYJSON_NULL)) := by
  refine ⟨fun u hu => ⟨?_, hex4_value_length hu, hex4_value_le hu⟩, fun hn => ⟨?_, ?_⟩⟩
  · rw [parse_hex4_eq, hu]; rfl
  · rw [parse_hex4_eq, hn]; rfl
  · intro strtod v items hv
    obtain ⟨acc', fuel, h⟩ := string_pure_items items hv (0x5C :: 0x75 :: p)
    rw [string_decode_unicode, string_unicode_eq, hn] at h
    exact parse_of_string_error strtod v (0x22 :: (scan_text items ++ 0x5C :: 0x75 :: p)) rfl
      _ _ _ h (by decide)

/-- C18, instance: the four bytes `12aF` give the value 0x12AF and leave the cursor on
the text after them; the four bytes `12G4` give NULL, and the text `"a\u12G4"` is
rejected with `SYJSON_PARSE_INVALID_UNICODE_HEX`. -/
theorem hex4_exact_witness :
    (syjson_parse_hex4 (bytes "12aFxy") = some ((bytes "12aFxy").drop 4, 0x12AF)
        ∧ ((bytes "12aFxy").drop 4).length + 4 = (bytes "12aFxy").length
        ∧ 0x12AF ≤ 0xFFFF)
      ∧ syjson_parse_hex4 (bytes "12G4\"") = none
      ∧ syjson_parse strtod_int v_init
          (0x22 :: (scan_text [.plain (.raw 0x61)] ++ 0x5C :: 0x75 :: bytes "12G4\""))
          = .ok (SYJSON_PARSE_INVALID_UNICODE_HEX, v_init.set_type SYJSON_NULL) :=
  ⟨(hex4_exact (bytes "12aFxy")).1 0x12AF (by decide),
   ((hex4_exact (bytes "12G4\"")).2 (by decide)).1,
   ((hex4_exact (bytes "12G4\"")).2 (by decide)).2 strtod_int v_init [.plain (.raw 0x61)]
     (by simp [scan_item.valid, str_item.valid])⟩

/-- C11 as amended: in a string, after valid pieces, let a `\u` escape have four
hexadecimal digits with a value from 0xD800 to 0xDBFF (a high surrogate), and let the
text `r` after it not begin with a low surrogate escape.  If `r` begins with a
backslash and the letter `u` that are not followed by four hexadecimal digits,
`syjson_parse` returns `SYJSON_PARSE_INVALID_UNICODE_HEX`; in every other case (no
backslash, no letter `u`, or four hexadecimal digits with a value outside 0xDC00 to
0xDFFF) it returns `SYJSON_PARSE_INVALID_UNICODE_SURROGATE`. -/
theorem surrogate_errors (strtod : List Nat → Nat) (v : syjson_value)
    (items : List scan_item) (a b c d : Nat) (r : List Nat) (u : Nat)
    (hv : ∀ it ∈ items, it.valid) (hu : hex4_value a b c d = some u)
    (hh : 0xD800 ≤ u ∧ u ≤ 0xDBFF) (hn : ¬ low_surrogate_follows r) :
    (bad_hex_follows r →
        syjson_parse strtod v
            (0x22 :: (scan_text items ++ 0x5C :: 0x75 :: a :: b :: c :: d :: r))
          = .ok (SYJSON_PARSE_INVALID_UNICODE_HEX, v.set_type SYJSON_NULL))
      ∧ (¬ bad_hex_follows r →
        syjson_parse strtod v
            (0x22 :: (scan_text items ++ 0x5C :: 0x75 :: a :: b :: c :: d :: r))
          = .ok (SYJSON_PARSE_INVALID_UNICODE_SURROGATE, v.set_type SYJSON_NULL)) := by
  obtain ⟨acc', fuel, h⟩ := string_pure_items items hv
    (0x5C :: 0x75 :: a :: b :: c :: d :: r)
  rw [string_decode_unicode, string_unicode_eq] at h
  have e1 : hex4_value (byte_at (a :: b :: c :: d :: r) 0) (byte_at (a :: b :: c :: d :: r) 1)
      (byte_at (a :: b :: c :: d :: r) 2) (byte_at (a :: b :: c :: d :: r) 3) = some u := hu
  have e4 : byte_at (a :: b :: c :: d :: r) 4 = byte_at r 0 := rfl
  have e5 : byte_at (a :: b :: c :: d :: r) 5 = byte_at r 1 := rfl
  have e6 : byte_at (a :: b :: c :: d :: r) 6 = byte_at r 2 := rfl
  have e7 : byte_at (a :: b :: c :: d :: r) 7 = byte_at r 3 := rfl
  have e8 : byte_at (a :: b :: c :: d :: r) 8 = byte_at r 4 := rfl
  have e9 : byte_at (a :: b :: c :: d :: r) 9 = byte_at r 5 := rfl
  rw [e1, e4, e5, e6, e7, e8, e9] at h
  simp only [hh, and_self, if_true] at h
  have fin : ∀ ret : syjson_parse_ret, ret ≠ SYJSON_PARSE_OK →
      string_pure (0x22 :: (scan_text items ++ 0x5C :: 0x75 :: a :: b :: c :: d :: r))
        = some (ret, [], []) →
      syjson_parse strtod v
          (0x22 :: (scan_text items ++ 0x5C :: 0x75 :: a :: b :: c :: d :: r))
        = .ok (ret, v.set_type SYJSON_NULL) := fun ret hr hs =>
    parse_of_string_error strtod v
      (0x22 :: (scan_text items ++ 0x5C :: 0x75 :: a :: b :: c :: d :: r)) rfl _ _ _ hs hr
  refine ⟨?_, ?_⟩
  · rintro ⟨h0, h1, h2⟩
    simp only [h0, h1, h2, ne_eq, not_true_eq_false, if_false] at h
    exact fin _ (by decide) h
  · intro hb
    by_cases h0 : byte_at r 0 = 0x5C
    · by_cases h1 : byte_at r 1 = 0x75
      · simp only [h0, h1, ne_eq, not_true_eq_false, if_false] at h
        cases h2 : hex4_value (byte_at r 2) (byte_at r 3) (byte_at r 4) (byte_at r 5) with
        | none => exact absurd ⟨h0, h1, h2⟩ hb
        | some u2 =>
          have hl : u2 < 0xdc00 ∨ u2 > 0xdfff := by
            by_contra hc
            exact hn ⟨h0, h1, u2, h2, by omega, by omega⟩
          simp only [h2, hl, if_true] at h
          exact fin _ (by decide) h
      · simp only [h0, h1, ne_eq, not_true_eq_false, if_false, not_false_eq_true,
          if_true] at h
        exact fin _ (by decide) h
    · simp only [h0, ne_eq, not_false_eq_true, if_true] at h
      exact fin _ (by decide) h
/-- C11, instance of the amended claim: after `"a\ud800` the texts `x"` (no backslash)
and `\u0041"` (a value outside 0xDC00 to 0xDFFF) give
`SYJSON_PARSE_INVALID_UNICODE_SURROGATE`, and the text `\u12G4"` gives
`SYJSON_PARSE_INVALID_UNICODE_HEX`. -/
theorem surrogate_errors_witness :
    hex4_value 0x64 0x38 0x30 0x30 = some 0xD800
      ∧ syjson_parse strtod_int v_init
          (0x22 :: (scan_text [.plain (.raw 0x61)]
            ++ 0x5C :: 0x75 :: 0x64 :: 0x38 :: 0x30 :: 0x30 :: bytes "x\""))
          = .ok (SYJSON_PARSE_INVALID_UNICODE_SURROGATE, v_init.set_type SYJSON_NULL)
      ∧ syjson_parse strtod_int v_init
          (0x22 :: (scan_text [.plain (.raw 0x61)]
            ++ 0x5C :: 0x75 :: 0x64 :: 0x38 :: 0x30 :: 0x30 :: bytes "\\u0041\""))
          = .ok (SYJSON_PARSE_INVALID_UNICODE_SURROGATE, v_init.set_type SYJSON_NULL)
      ∧ syjson_parse strtod_int v_init
          (0x22 :: (scan_text [.plain (.raw 0x61)]
            ++ 0x5C :: 0x75 :: 0x64 :: 0x38 :: 0x30 :: 0x30 :: bytes "\\u12G4\""))
          = .ok (SYJSON_PARSE_INVALID_UNICODE_HEX, v_init.set_type SYJSON_NULL) :=
  have hv : ∀ it ∈ [scan_item.plain (.raw 0x61)], it.valid := by
    simp [scan_item.valid, str_item.valid]
  ⟨by decide,
   (surrogate_errors strtod_int v_init [.plain (.raw 0x61)] 0x64 0x38 0x30 0x30
      (bytes "x\"") 0xD800 hv (by decide) (by decide)
      (fun h => absurd h.1 (by decide))).2 (fun h => absurd h.1 (by decide)),
   (surrogate_errors strtod_int v_init [.plain (.raw 0x61)] 0x64 0x38 0x30 0x30
      (bytes "\\u0041\"") 0xD800 hv (by decide) (by decide)
      (fun h => h.2.2.elim fun u2 h2 => by
        have e : hex4_value (byte_at (bytes "\\u0041\"") 2) (byte_at (bytes "\\u0041\"") 3)
            (byte_at (bytes "\\u0041\"") 4) (byte_at (bytes "\\u0041\"") 5) = some 0x41 := by
          decide
        rw [e] at h2
        simp only [Option.some.injEq] at h2
        omega)).2 (fun h => absurd h.2.2 (by decide)),
   (surrogate_errors strtod_int v_init [.plain (.raw 0x61)] 0x64 0x38 0x30 0x30
      (bytes "\\u12G4\"") 0xD800 hv (by decide) (by decide)
      (fun h => h.2.2.elim fun u2 h2 => by
        have e : hex4_value (byte_at (bytes "\\u12G4\"") 2) (byte_at (bytes "\\u12G4\"") 3)
            (byte_at (bytes "\\u12G4\"") 4) (byte_at (bytes "\\u12G4\"") 5) = none := by
          decide
        rw [e] at h2
        exact absurd h2.1 (by simp))).1 ⟨by decide, by decide, by decide⟩⟩

/-- C11, counterexample to the claim as stated: in the text `"\ud800\u12G4"` the high
surrogate escape is followed by a backslash, the letter `u` and four bytes that are not
all hexadecimal digits, which is not a low surrogate escape; `syjson_parse` returns
`SYJSON_PARSE_INVALID_UNICODE_HEX`, not `SYJSON_PARSE_INVALID_UNICODE_SURROGATE`. -/
theorem surrogate_counterexample :
    bytes "\"\\ud800\\u12G4\""
        = 0x22 :: 0x5C :: 0x75 :: 0x64 :: 0x38 :: 0x30 :: 0x30 :: bytes "\\u12G4\""
      ∧ hex4_value 0x64 0x38 0x30 0x30 = some 0xD800
      ∧ hex4_value (byte_at (bytes "\\u12G4\"") 2) (byte_at (bytes "\\u12G4\"") 3)
          (byte_at (bytes "\\u12G4\"") 4) (byte_at (bytes "\\u12G4\"") 5) = none
      ∧ ret_of (syjson_parse strtod_int v_init (bytes "\"\\ud800\\u12G4\""))
          = some SYJSON_PARSE_INVALID_UNICODE_HEX
      ∧ ret_of (syjson_parse strtod_int v_init (bytes "\"\\ud800\\u12G4\""))
          ≠ some SYJSON_PARSE_INVALID_UNICODE_SURROGATE :=
  ⟨by decide, by decide, by decide, by decide!, by decide!⟩
/-! ## Literals and the root -/

theorem literal_scan_iff : ∀ (ls p : List Nat), (∀ l ∈ ls, l ≠ 0) →
    (syjson_literal_scan p ls = true ↔ ls <+: p)
  | [], p, _ => by simp [syjson_literal_scan]
  | l :: ls, p, h0 => by
    have hl := h0 l (List.mem_cons_self l ls)
    have ih := literal_scan_iff ls p.tail (fun x hx => h0 x (List.mem_cons_of_mem l hx))
    rw [syjson_literal_scan]
    cases p with
    | nil =>
      have : ¬ (0 : Nat) = l := fun e => hl e.symm
      simp [this]
    | cons a t =>
      simp only [List.headD_cons, List.tail_cons] at ih ⊢
      by_cases ha : a = l
      · subst ha
        simp only [ne_eq, not_true_eq_false, if_false, ih]
        exact (List.prefix_cons_inj a).symm
      · simp only [ne_eq, ha, not_false_eq_true, if_true, Bool.false_eq_true, false_iff]
        intro hp
        exact ha (List.cons_prefix_cons.mp hp).1.symm

theorem value_pure_not_space (strtod : List Nat → Nat) (fuel : Nat) (json rest : List Nat)
    (v v' : syjson_value)
    (h : value_pure strtod fuel json v = some (SYJSON_PARSE_OK, rest, v')) :
    is_space (json.headD 0) = false := by
  rcases value_pure_type strtod _ _ _ _ _ h with t | t | t | t | t | t | t
  all_goals first
    | (rw [t.1]; rfl)
    | skip
  obtain ⟨_, _, hn⟩ := t
  rw [number_pure_eq] at hn
  cases hs : syjson_number_scan json with
  | none => simp only [hs, Prod.mk.injEq] at hn; exact absurd hn.1 (by decide)
  | some p =>
    obtain ⟨N, eN, hN⟩ := number_scan_sound _ _ hs
    have := (json_number_head hN p).2
    rwa [← eN] at this

/-- A keyword between whitespace: `syjson_parse` returns `SYJSON_PARSE_OK` and the root
has the keyword's type. -/
theorem parse_keyword (strtod : List Nat → Nat) (v : syjson_value) (W W' lit : List Nat)
    (ty : syjson_type) (hW : ∀ b ∈ W, is_space b = true) (hW' : ∀ b ∈ W', is_space b = true)
    (h0 : ∀ l ∈ lit, l ≠ 0) (hne : lit ≠ []) (hsp : is_space ((lit ++ W').headD 0) = false)
    (hdisp : ∀ fuel x, value_pure strtod (fuel + 1) (lit ++ W') x
      = some (literal_pure (lit ++ W') x lit ty)) :
    syjson_parse strtod v (W ++ (lit ++ W'))
      = .ok (SYJSON_PARSE_OK, (v.set_type SYJSON_NULL).set_type ty) := by
  obtain ⟨ret, rest, w, hv, e⟩ := parse_eq strtod v (W ++ (lit ++ W'))
  rw [dropWhile_space_append W _ hW hsp, parse_fuel, hdisp] at hv
  have hlp : literal_pure (lit ++ W') (v.set_type SYJSON_NULL) lit ty
      = (SYJSON_PARSE_OK, W', (v.set_type SYJSON_NULL).set_type ty) := by
    unfold literal_pure
    cases lit with
    | nil => exact absurd rfl hne
    | cons a l =>
      have hs : syjson_literal_scan (l ++ W') l = true :=
        (literal_scan_iff l _ (fun x hx => h0 x (List.mem_cons_of_mem a hx))).2
          (List.prefix_append l W')
      simp only [List.cons_append, List.tail_cons, hs, if_true, List.length_cons,
        Nat.add_sub_cancel, List.drop_left]
  rw [hlp] at hv
  simp only [Option.some.injEq, Prod.mk.injEq] at hv
  obtain ⟨rfl, rfl, rfl⟩ := hv
  have hnil : W'.dropWhile is_space = [] := by
    rw [List.dropWhile_eq_nil_iff]; exact hW'
  rw [e, hnil]
  simp

/-- A text that begins like a keyword and does not continue like it: `syjson_parse`
returns `SYJSON_PARSE_INVALID_VALUE`. -/
theorem parse_keyword_bad (strtod : List Nat → Nat) (v : syjson_value) (s lit : List Nat)
    (ty : syjson_type) (h0 : ∀ l ∈ lit, l ≠ 0)
    (hhead : (s.dropWhile is_space).headD 0 = lit.headD 0)
    (hnp : ¬ lit <+: s.dropWhile is_space)
    (hdisp : ∀ fuel x, value_pure strtod (fuel + 1) (s.dropWhile is_space) x
      = some (literal_pure (s.dropWhile is_space) x lit ty)) :
    syjson_parse strtod v s
      = .ok (SYJSON_PARSE_INVALID_VALUE, v.set_type SYJSON_NULL) := by
  obtain ⟨ret, rest, w, hv, e⟩ := parse_eq strtod v s
  rw [parse_fuel, hdisp] at hv
  have hs : syjson_literal_scan (s.dropWhile is_space).tail lit.tail = false := by
    cases lit with
    | nil => exact absurd List.nil_prefix hnp
    | cons a l =>
      have hl := literal_scan_iff l (s.dropWhile is_space).tail
        (fun x hx => h0 x (List.mem_cons_of_mem a hx))
      cases ht : s.dropWhile is_space with
      | nil =>
        rw [ht] at hhead
        simp only [List.headD_nil, List.headD_cons] at hhead
        exact absurd hhead.symm (h0 a (List.mem_cons_self a l))
      | cons b t =>
        rw [ht] at hhead hnp hl
        simp only [List.headD_cons] at hhead
        subst hhead
        simp only [List.tail_cons] at hl ⊢
        cases hsc : syjson_literal_scan t l with
        | false => rfl
        | true => exact absurd ((List.prefix_cons_inj b).2 (hl.1 hsc)) hnp
  unfold literal_pure at hv
  rw [hs] at hv
  simp only [Bool.false_eq_true, if_false, Option.some.injEq, Prod.mk.injEq] at hv
  obtain ⟨rfl, rfl, rfl⟩ := hv
  rw [e]
  simp
theorem dispatch_null (strtod : List Nat → Nat) (json : List Nat) (h : json.headD 0 = 0x6E)
    (fuel : Nat) (x : syjson_value) :
    value_pure strtod (fuel + 1) json x = some (literal_pure json x lit_null SYJSON_NULL) := by
  rw [value_pure, if_pos h]

theorem dispatch_false (strtod : List Nat → Nat) (json : List Nat) (h : json.headD 0 = 0x66)
    (fuel : Nat) (x : syjson_value) :
    value_pure strtod (fuel + 1) json x
      = some (literal_pure json x lit_false SYJSON_FALSE) := by
  rw [value_pure, if_neg (by rw [h]; decide), if_pos h]

theorem dispatch_true (strtod : List Nat → Nat) (json : List Nat) (h : json.headD 0 = 0x74)
    (fuel : Nat) (x : syjson_value) :
    value_pure strtod (fuel + 1) json x = some (literal_pure json x lit_true SYJSON_TRUE) := by
  rw [value_pure, if_neg (by rw [h]; decide), if_neg (by rw [h]; decide), if_pos h]

/-- C12: for each of the keywords `null`, `true`, `false`, between any whitespace,
`syjson_parse` returns `SYJSON_PARSE_OK` with a root of type `SYJSON_NULL`,
`SYJSON_TRUE`, `SYJSON_FALSE`, and `syjson_get_boolean` returns 1 on the result of
`true` and 0 on the result of `false`.  And for every input whose first byte after the
leading whitespace is the first letter of a keyword but which does not continue with
the rest of that keyword, `syjson_parse` returns `SYJSON_PARSE_INVALID_VALUE`. -/
theorem literal_exact (strtod : List Nat → Nat) (v : syjson_value) :
    (∀ W W' : List Nat, (∀ b ∈ W, is_space b = true) → (∀ b ∈ W', is_space b = true) →
        (∃ w, syjson_parse strtod v (W ++ (lit_null ++ W')) = .ok (SYJSON_PARSE_OK, w)
            ∧ syjson_get_type w = SYJSON_NULL)
          ∧ (∃ w, syjson_parse strtod v (W ++ (lit_true ++ W')) = .ok (SYJSON_PARSE_OK, w)
            ∧ syjson_get_type w = SYJSON_TRUE ∧ syjson_get_boolean w = .ok 1)
          ∧ (∃ w, syjson_parse strtod v (W ++ (lit_false ++ W')) = .ok (SYJSON_PARSE_OK, w)
            ∧ syjson_get_type w = SYJSON_FALSE ∧ syjson_get_boolean w = .ok 0))
      ∧ (∀ s lit : List Nat, lit = lit_null ∨ lit = lit_true ∨ lit = lit_false →
          (s.dropWhile is_space).headD 0 = lit.headD 0 →
          ¬ lit <+: s.dropWhile is_space →
          syjson_parse strtod v s
            = .ok (SYJSON_PARSE_INVALID_VALUE, v.set_type SYJSON_NULL)) := by
  refine ⟨fun W W' hW hW' => ⟨?_, ?_, ?_⟩, ?_⟩
  · exact ⟨_, parse_keyword strtod v W W' lit_null SYJSON_NULL hW hW' (by decide)
      (by decide) rfl (dispatch_null strtod _ rfl), rfl⟩
  · exact ⟨_, parse_keyword strtod v W W' lit_true SYJSON_TRUE hW hW' (by decide)
      (by decide) rfl (dispatch_true strtod _ rfl), rfl, rfl⟩
  · exact ⟨_, parse_keyword strtod v W W' lit_false SYJSON_FALSE hW hW' (by decide)
      (by decide) rfl (dispatch_false strtod _ rfl), rfl, rfl⟩
  · intro s lit hlit hhead hnp
    rcases hlit with rfl | rfl | rfl
    · exact parse_keyword_bad strtod v s lit_null SYJSON_NULL (by decide) hhead hnp
        (dispatch_null strtod _ hhead)
    · exact parse_keyword_bad strtod v s lit_true SYJSON_TRUE (by decide) hhead hnp
        (dispatch_true strtod _ hhead)
    · exact parse_keyword_bad strtod v s lit_false SYJSON_FALSE (by decide) hhead hnp
        (dispatch_false strtod _ hhead)

/-- C12, instance: the text `true` between a space and a line feed is accepted with
`syjson_get_boolean` 1, and the texts `nul` and ` tru e` are rejected with
`SYJSON_PARSE_INVALID_VALUE`. -/
theorem literal_exact_witness :
    (∃ w, syjson_parse strtod_int v_init ([0x20] ++ (lit_true ++ [0x0A]))
          = .ok (SYJSON_PARSE_OK, w)
        ∧ syjson_get_type w = SYJSON_TRUE ∧ syjson_get_boolean w = .ok 1)
      ∧ syjson_parse strtod_int v_init (bytes "nul")
          = .ok (SYJSON_PARSE_INVALID_VALUE, v_init.set_type SYJSON_NULL)
      ∧ syjson_parse strtod_int v_init (bytes " tru e")
          = .ok (SYJSON_PARSE_INVALID_VALUE, v_init.set_type SYJSON_NULL) :=
  ⟨((literal_exact strtod_int v_init).1 [0x20] [0x0A] (by decide) (by decide)).2.1,
   (literal_exact strtod_int v_init).2 (bytes "nul") lit_null (Or.inl rfl) (by decide)
     (by decide),
   (literal_exact strtod_int v_init).2 (bytes " tru e") lit_true (Or.inr (Or.inl rfl))
     (by decide) (by decide)⟩

/-- C13: let the input be whitespace `W`, a text `t`, whitespace `W'` and a text `r`
that does not begin with whitespace, and let the value parser of this run, entered on
`t W' r`, return `SYJSON_PARSE_OK` with the cursor right after `t` and the value `w`.
If `r` begins with a byte that is not NUL, `syjson_parse` returns
`SYJSON_PARSE_ROOT_NOT_SINGULAR` and the root is `w` with its type set to
`SYJSON_NULL`; if `r` is empty (or begins with NUL) it returns `SYJSON_PARSE_OK` with
the root `w`. -/
theorem root_singular (strtod : List Nat → Nat) (v : syjson_value) (W t W' r : List Nat)
    (c' : syjson_content) (w : syjson_value)
    (hW : ∀ b ∈ W, is_space b = true) (hW' : ∀ b ∈ W', is_space b = true)
    (hr : is_space (r.headD 0) = false)
    (ht : syjson_parse_value strtod (parse_fuel (W ++ (t ++ (W' ++ r))))
        (blank (t ++ (W' ++ r))) (v.set_type SYJSON_NULL) = .ok (SYJSON_PARSE_OK, c', w))
    (hc : c'.json = W' ++ r) :
    (r.headD 0 ≠ 0 →
        syjson_parse strtod v (W ++ (t ++ (W' ++ r)))
            = .ok (SYJSON_PARSE_ROOT_NOT_SINGULAR, w.set_type SYJSON_NULL)
          ∧ syjson_get_type (w.set_type SYJSON_NULL) = SYJSON_NULL)
      ∧ (r.headD 0 = 0 →
        syjson_parse strtod v (W ++ (t ++ (W' ++ r))) = .ok (SYJSON_PARSE_OK, w)) := by
  obtain ⟨ret, rest, v', c'', hp, e, _, a2, _, _, _, _⟩ :=
    parse_value_returns strtod (parse_fuel (W ++ (t ++ (W' ++ r))))
      (blank (t ++ (W' ++ r))) (v.set_type SYJSON_NULL) (by simp [blank]) (by
        simp only [blank, parse_fuel, List.length_append]; omega)
  rw [ht] at e
  simp only [outcome.ok.injEq, Prod.mk.injEq] at e
  obtain ⟨rfl, rfl, rfl⟩ := e
  have htop : c'.top = 0 := a2
  have hsp := value_pure_not_space strtod _ _ _ _ _ hp
  have hd : (W ++ (t ++ (W' ++ r))).dropWhile is_space = t ++ (W' ++ r) :=
    dropWhile_space_append W _ hW hsp
  have hd2 : (W' ++ r).dropWhile is_space = r := dropWhile_space_append W' r hW' hr
  have hrun : syjson_parse_run strtod v (W ++ (t ++ (W' ++ r)))
      = .ok (syjson_parse_root_not_singular c' w) := by
    unfold syjson_parse_run syjson_parse_whitespace
    simp only [hd]
    have := ht
    unfold blank at this
    rw [this]
    rfl
  have hcur : (syjson_parse_whitespace c').cur = r.headD 0 := by
    unfold syjson_parse_whitespace syjson_content.cur
    simp only [hc, hd2]
  have htop2 : (syjson_parse_whitespace c').top = 0 := htop
  refine ⟨fun h => ⟨?_, rfl⟩, fun h => ?_⟩
  · unfold syjson_parse
    rw [hrun]
    unfold syjson_parse_root_not_singular
    simp only [hcur, h, if_false, outcome.bind, htop2, ne_eq, not_true_eq_false]
  · unfold syjson_parse
    rw [hrun]
    unfold syjson_parse_root_not_singular
    simp only [hcur, h, if_true, outcome.bind, htop2, ne_eq, not_true_eq_false, if_false]
theorem run_ok_of_ret (x : outcome (syjson_parse_ret × syjson_content × syjson_value))
    (r : syjson_parse_ret) (h : ret_of x = some r) :
    x = .ok (r, (state_of x).1, (state_of x).2) := by
  cases x with
  | ok a =>
    obtain ⟨a1, a2, a3⟩ := a
    simp only [ret_of, Option.some.injEq] at h
    simp [state_of, h]
  | assert_failed => simp [ret_of] at h
  | out_of_fuel => simp [ret_of] at h

/-- C13, instance: in the text ` [1] x` the value parser consumes `[1]`, and the `x`
after the whitespace makes the result `SYJSON_PARSE_ROOT_NOT_SINGULAR` with a root of
type `SYJSON_NULL`; the text ` [1] ` gives `SYJSON_PARSE_OK` with the array. -/
theorem root_singular_witness :
    [0x20] ++ (bytes "[1]" ++ ([0x20] ++ bytes "x")) = bytes " [1] x"
      ∧ (syjson_parse strtod_int v_init ([0x20] ++ (bytes "[1]" ++ ([0x20] ++ bytes "x")))
            = .ok (SYJSON_PARSE_ROOT_NOT_SINGULAR,
                (state_of (syjson_parse_value strtod_int
                  (parse_fuel ([0x20] ++ (bytes "[1]" ++ ([0x20] ++ bytes "x"))))
                  (blank (bytes "[1]" ++ ([0x20] ++ bytes "x")))
                  (v_init.set_type SYJSON_NULL))).2.set_type SYJSON_NULL)
          ∧ syjson_get_type
              ((state_of (syjson_parse_value strtod_int
                  (parse_fuel ([0x20] ++ (bytes "[1]" ++ ([0x20] ++ bytes "x"))))
                  (blank (bytes "[1]" ++ ([0x20] ++ bytes "x")))
                  (v_init.set_type SYJSON_NULL))).2.set_type SYJSON_NULL) = SYJSON_NULL)
      ∧ syjson_parse strtod_int v_init ([0x20] ++ (bytes "[1]" ++ ([0x20] ++ [])))
          = .ok (SYJSON_PARSE_OK,
              (state_of (syjson_parse_value strtod_int
                (parse_fuel ([0x20] ++ (bytes "[1]" ++ ([0x20] ++ []))))
                (blank (bytes "[1]" ++ ([0x20] ++ [])))
                (v_init.set_type SYJSON_NULL))).2)
      ∧ syjson_get_array_size
          (state_of (syjson_parse_value strtod_int
            (parse_fuel ([0x20] ++ (bytes "[1]" ++ ([0x20] ++ []))))
            (blank (bytes "[1]" ++ ([0x20] ++ [])))
            (v_init.set_type SYJSON_NULL))).2 = .ok 1 :=
  ⟨by decide,
   (root_singular strtod_int v_init [0x20] (bytes "[1]") [0x20] (bytes "x") _ _
      (by decide) (by decide) (by decide)
      (run_ok_of_ret _ _ (by decide!)) (by decide!)).1 (by decide),
   (root_singular strtod_int v_init [0x20] (bytes "[1]") [0x20] [] _ _
      (by decide) (by decide) (by decide)
      (run_ok_of_ret _ _ (by decide!)) (by decide!)).2 rfl,
   by decide!⟩
end Syjson
